import Mathlib

/-!
# LSB steganography codec

A shallow embedding of `encode.c` and `decode.c`: hiding a payload file in the
least-significant bits of the bytes of a 24-bit bitmap, and recovering it.

Conventions of the embedding.

* Every C integer is represented by its two's-complement bit pattern, a natural
  number below `2 ^ w` for a `w`-bit type (`char`: 8, `int`/`uint`: 32,
  `long`: 64, LP64).  Bytes of files and buffers are such patterns below 256.
  The plain `char` type is signed (as on x86-64), so promoting a `char` to
  `int` is a sign extension.
* A stream opened for reading is a byte list with a cursor; a stream opened
  with mode "w" is the list of the bytes written so far.  Write errors are
  outside the model.
* Local arrays that the C code declares without an initialiser start with
  indeterminate contents; these contents are parameters of the functions.
-/

namespace Stego

set_option maxRecDepth 100000

/-! ## C integers as bit patterns -/

/-- Promotion of a `char` (signed, 8 bits) to `int`: sign extension of the
8-bit pattern to a 32-bit pattern. -/
def char_to_int (c : Nat) : Nat :=
  if c < 2 ^ 7 then c else c + (2 ^ 32 - 2 ^ 8)

/-- Conversion of an `int` or `long` to `char` or `unsigned char`: the low 8 bits. -/
def int_to_char (x : Nat) : Nat := x % 2 ^ 8

/-- Operator `x >> k` on a signed 32-bit `int`: arithmetic shift, the sign bit
is replicated into the `k` vacated positions. -/
def int_shr (x k : Nat) : Nat :=
  if x < 2 ^ 31 then x >>> k else (x >>> k) ||| (2 ^ 32 - 2 ^ (32 - k))

/-- Operator `x << k` on a 32-bit `int`: the bits shifted out are lost (what
two's-complement targets compute, also for a negative `x`). -/
def int_shl (x k : Nat) : Nat := (x <<< k) % 2 ^ 32

/-- Conversion of an `int` to `long`: sign extension from 32 to 64 bits. -/
def int_to_long (x : Nat) : Nat :=
  if x < 2 ^ 31 then x else x + (2 ^ 64 - 2 ^ 32)

/-- Conversion of a `long` to `int` or `uint`: the low 32 bits. -/
def long_to_int (x : Nat) : Nat := x % 2 ^ 32

/-- Operator `x >> k` on a signed 64-bit `long`: arithmetic shift. -/
def long_shr (x k : Nat) : Nat :=
  if x < 2 ^ 63 then x >>> k else (x >>> k) ||| (2 ^ 64 - 2 ^ (64 - k))

/-- Operator `x << k` on a 64-bit `long`. -/
def long_shl (x k : Nat) : Nat := (x <<< k) % 2 ^ 64

/-- The signed value of a 32-bit `int` pattern. -/
def int_val (x : Nat) : Int :=
  if x < 2 ^ 31 then (x : Int) else (x : Int) - 2 ^ 32

/-! ## Bit packing primitives -/

/-- Function `encode_byte_to_lsb(char data, char *image_buffer)` of encode.c:
`image_buffer[i] = (image_buffer[i] & 0xFE) | ((data >> (7 - i)) & 1)` for
`i = 0 .. 7`.  The result is the buffer after the loop (the returned status
is always `e_success`). -/
def encode_byte_to_lsb (data : Nat) (image_buffer : List Nat) : List Nat :=
  (List.range 8).foldl
    (fun buf i =>
      buf.set i (int_to_char
        ((char_to_int (buf.getD i 0) &&& 0xFE) ||| (int_shr (char_to_int data) (7 - i) &&& 1))))
    image_buffer

/-- Function `encode_size_to_lsb(long value, unsigned char *buffer)` of encode.c:
`buffer[i] = (buffer[i] & 0xFE) | ((value >> (31 - i)) & 1)` for `i = 0 .. 31`. -/
def encode_size_to_lsb (value : Nat) (buffer : List Nat) : List Nat :=
  (List.range 32).foldl
    (fun buf i =>
      buf.set i (int_to_char
        (int_to_long (buf.getD i 0 &&& 0xFE) ||| (long_shr value (31 - i) &&& 1))))
    buffer

/-- Function `decode_byte_from_lsb(char *image_buffer)` of decode.c:
`data = (data << 1) | (image_buffer[i] & 1)` for `i = 0 .. 7`, from `data = 0`. -/
def decode_byte_from_lsb (image_buffer : List Nat) : Nat :=
  (List.range 8).foldl
    (fun data i =>
      int_to_char (int_shl (char_to_int data) 1 ||| (char_to_int (image_buffer.getD i 0) &&& 1)))
    0

/-- Function `decode_size_from_lsb(unsigned char *buffer)` of decode.c:
`value = (value << 1) | (buffer[i] & 1)` for `i = 0 .. 31`, from `value = 0`;
the result is a `long`. -/
def decode_size_from_lsb (buffer : List Nat) : Nat :=
  (List.range 32).foldl
    (fun value i => long_shl value 1 ||| int_to_long (buffer.getD i 0 &&& 1))
    0

/-! ## Streams (stdio) -/

/-- Type `Status` of types.h. -/
inductive Status where
  | e_success
  | e_failure
deriving DecidableEq

/-- A stream opened for reading: the bytes of the file and the cursor. -/
structure FILE where
  data : List Nat
  pos : Nat
deriving DecidableEq

/-- Call `fseek(stream, offset, SEEK_SET)`. -/
def fseek_set (stream : FILE) (offset : Nat) : FILE := { stream with pos := offset }

/-- Call `fseek(stream, 0, SEEK_END)`. -/
def fseek_end (stream : FILE) : FILE := { stream with pos := stream.data.length }

/-- Call `ftell(stream)`. -/
def ftell (stream : FILE) : Nat := stream.pos

/-- Call `fread(ptr, size, nmemb, stream)`: as many of the `size * nmemb` bytes
as the stream still holds are stored at the start of `ptr` (the rest of `ptr`
keeps its contents) and the cursor moves past them; the count of complete
items read is returned first. -/
def fread (ptr : List Nat) (size nmemb : Nat) (stream : FILE) : Nat × List Nat × FILE :=
  let avail := stream.data.drop stream.pos
  let got := min (size * nmemb) avail.length
  (got / size, avail.take got ++ ptr.drop got, { stream with pos := stream.pos + got })

/-- Call `fwrite(ptr, size, nmemb, stream)` on a stream opened with mode "w":
the first `size * nmemb` bytes of `ptr` are appended. -/
def fwrite (ptr : List Nat) (size nmemb : Nat) (stream : List Nat) : List Nat :=
  stream ++ ptr.take (size * nmemb)

/-- Call `strlen` on a string held as the list of its characters before the NUL. -/
def strlen (s : List Nat) : Nat := s.length

/-- The C string stored in a `char` array: the characters before the first NUL. -/
def c_str (mem : List Nat) : List Nat := mem.takeWhile (fun c => c != 0)

/-- The value of a `uint` object read from 4 bytes of memory (little-endian host). -/
def uint_of_bytes (b : List Nat) : Nat :=
  b.getD 0 0 + 2 ^ 8 * b.getD 1 0 + 2 ^ 16 * b.getD 2 0 + 2 ^ 24 * b.getD 3 0

/-! ## Encoding (encode.c) -/

/-- Structure `EncodeInfo` (encode.h), the fields that `do_encoding` uses.
`extn_secret_file` holds the characters of the extension before the NUL. -/
structure EncodeInfo where
  fptr_src_image : FILE
  fptr_secret : FILE
  fptr_stego_image : List Nat
  extn_secret_file : List Nat
  image_capacity : Nat
  size_secret_file : Nat
deriving DecidableEq

/-- Indeterminate initial contents of the local variables of the encoder:
`width`, `height` (4 bytes each), `header[54]`, the 8- and 32-byte buffers of
the five field encoders, `ch` (1 byte) and the 1024-byte copy buffer. -/
structure EncodeLocals where
  width : List Nat
  height : List Nat
  header : List Nat
  magic_buffer : List Nat
  extn_size_buffer : List Nat
  extn_buffer : List Nat
  file_size_buffer : List Nat
  data_buffer : List Nat
  ch : List Nat
  copy_buffer : List Nat

/-- Function `open_files`: the three streams are opened, the source image and
the secret file for reading at offset 0, the stego image empty for writing.
The arguments are the contents of the two input files (a failing `fopen` is
outside the model). -/
def open_files (src_image secret : List Nat) (encInfo : EncodeInfo) : Status × EncodeInfo :=
  (Status.e_success,
    { encInfo with
      fptr_src_image := ⟨src_image, 0⟩
      fptr_secret := ⟨secret, 0⟩
      fptr_stego_image := [] })

/-- Function `get_image_size_for_bmp`: width and height are read from offsets
18 and 22, the cursor is put back at 0, and `width * height * 3` is returned
in `uint` arithmetic. -/
def get_image_size_for_bmp (width height : List Nat) (fptr_image : FILE) : Nat × FILE :=
  let f := fseek_set fptr_image 18
  let rw := fread width 4 1 f
  let rh := fread height 4 1 rw.2.2
  let f := fseek_set rh.2.2 0
  (((uint_of_bytes rw.2.1 * uint_of_bytes rh.2.1) % 2 ^ 32 * 3) % 2 ^ 32, f)

/-- Function `get_file_size`: the offset of the end of the file, as a `long`,
converted to `uint`; the cursor is put back at 0. -/
def get_file_size (fptr : FILE) : Nat × FILE :=
  let f := fseek_end fptr
  let size := ftell f
  (long_to_int size, fseek_set f 0)

/-- Function `check_capacity`: fails when `image_capacity < required_bits`,
where `required_bits = (magic_len + 4 + extn_len + 4 + size_secret_file) * 8`
is computed in `uint` arithmetic (the lengths of the two strings, a literal
and a small array, fit the `int` variables that hold them).  The argument
`MAGIC_STRING` is the constant of common.h, as the list of its characters. -/
def check_capacity (width height : List Nat) (MAGIC_STRING : List Nat) (encInfo : EncodeInfo) :
    Status × EncodeInfo :=
  let r1 := get_image_size_for_bmp width height encInfo.fptr_src_image
  let r2 := get_file_size encInfo.fptr_secret
  let encInfo := { encInfo with
    image_capacity := r1.1
    fptr_src_image := r1.2
    size_secret_file := r2.1
    fptr_secret := r2.2 }
  let magic_len := strlen MAGIC_STRING
  let extn_len := strlen encInfo.extn_secret_file
  let required_bits := ((magic_len + 4 + extn_len + 4 + encInfo.size_secret_file) * 8) % 2 ^ 32
  if encInfo.image_capacity < required_bits then (Status.e_failure, encInfo)
  else (Status.e_success, encInfo)

/-- Function `copy_bmp_header`: 54 bytes are read from offset 0 of the source
and written to the destination. -/
def copy_bmp_header (header : List Nat) (fptr_src : FILE) (fptr_dest : List Nat) :
    Status × FILE × List Nat :=
  let f := fseek_set fptr_src 0
  let r := fread header 1 54 f
  (Status.e_success, r.2.2, fwrite r.2.1 1 54 fptr_dest)

/-- The three statements shared by the bodies of the loops of
`encode_magic_string`, `encode_secret_file_extn` and `encode_secret_file_data`:
`fread(buffer, 8, 1, src); encode_byte_to_lsb(ch, buffer); fwrite(buffer, 8, 1, stego)`.
The state is the local `buffer` and the `EncodeInfo`. -/
def encode_byte_step (ch : Nat) (st : List Nat × EncodeInfo) : List Nat × EncodeInfo :=
  let r := fread st.1 8 1 st.2.fptr_src_image
  let buffer := encode_byte_to_lsb ch r.2.1
  (buffer,
    { st.2 with
      fptr_src_image := r.2.2
      fptr_stego_image := fwrite buffer 8 1 st.2.fptr_stego_image })

/-- Function `encode_magic_string`: one step per character of the string. -/
def encode_magic_string (buffer : List Nat) (magic_string : List Nat) (encInfo : EncodeInfo) :
    Status × EncodeInfo :=
  (Status.e_success, (magic_string.foldl (fun st ch => encode_byte_step ch st) (buffer, encInfo)).2)

/-- The statements shared by `encode_secret_file_extn_size` and
`encode_secret_file_size`:
`fread(buffer, 32, 1, src); encode_size_to_lsb(value, buffer); fwrite(buffer, 32, 1, stego)`. -/
def encode_size_step (value : Nat) (buffer : List Nat) (encInfo : EncodeInfo) : EncodeInfo :=
  let r := fread buffer 32 1 encInfo.fptr_src_image
  let buffer := encode_size_to_lsb value r.2.1
  { encInfo with
    fptr_src_image := r.2.2
    fptr_stego_image := fwrite buffer 32 1 encInfo.fptr_stego_image }

/-- Function `encode_secret_file_extn_size(int extn_size, ...)`: the `int`
argument is converted to the `long` parameter of `encode_size_to_lsb`. -/
def encode_secret_file_extn_size (buffer : List Nat) (extn_size : Nat) (encInfo : EncodeInfo) :
    Status × EncodeInfo :=
  (Status.e_success, encode_size_step (int_to_long extn_size) buffer encInfo)

/-- Function `encode_secret_file_extn`: one step per character of the extension. -/
def encode_secret_file_extn (buffer : List Nat) (file_extn : List Nat) (encInfo : EncodeInfo) :
    Status × EncodeInfo :=
  (Status.e_success, (file_extn.foldl (fun st ch => encode_byte_step ch st) (buffer, encInfo)).2)

/-- Function `encode_secret_file_size(long file_size, ...)`. -/
def encode_secret_file_size (buffer : List Nat) (file_size : Nat) (encInfo : EncodeInfo) :
    Status × EncodeInfo :=
  (Status.e_success, encode_size_step file_size buffer encInfo)

/-- The loop `while (fread(&ch, 1, 1, fptr_secret)) { ... }` of
`encode_secret_file_data`, with a bound on the number of iterations. -/
def encode_secret_file_data_loop : Nat → List Nat → List Nat → EncodeInfo → EncodeInfo
  | 0, _, _, encInfo => encInfo
  | fuel + 1, ch, buffer, encInfo =>
    let r := fread ch 1 1 encInfo.fptr_secret
    if r.1 = 0 then { encInfo with fptr_secret := r.2.2 }
    else
      let st := encode_byte_step (r.2.1.getD 0 0) (buffer, { encInfo with fptr_secret := r.2.2 })
      encode_secret_file_data_loop fuel r.2.1 st.1 st.2

/-- Function `encode_secret_file_data`.  Every iteration but the last consumes
one byte of the secret file, so the bound is never reached. -/
def encode_secret_file_data (ch buffer : List Nat) (encInfo : EncodeInfo) : Status × EncodeInfo :=
  (Status.e_success,
    encode_secret_file_data_loop
      (encInfo.fptr_secret.data.length - encInfo.fptr_secret.pos + 1) ch buffer encInfo)

/-- The loop `while ((bytes_read = fread(buffer, 1, sizeof(buffer), src)) > 0)
fwrite(buffer, 1, bytes_read, dest)` of `copy_remaining_img_data`, with a bound
on the number of iterations. -/
def copy_remaining_img_data_loop : Nat → List Nat → FILE → List Nat → FILE × List Nat
  | 0, _, fptr_src, fptr_dest => (fptr_src, fptr_dest)
  | fuel + 1, buffer, fptr_src, fptr_dest =>
    let r := fread buffer 1 1024 fptr_src
    if r.1 > 0 then copy_remaining_img_data_loop fuel r.2.1 r.2.2 (fwrite r.2.1 1 r.1 fptr_dest)
    else (r.2.2, fptr_dest)

/-- Function `copy_remaining_img_data`.  Every iteration but the last consumes
at least one byte of the source, so the bound is never reached. -/
def copy_remaining_img_data (buffer : List Nat) (fptr_src : FILE) (fptr_dest : List Nat) :
    Status × FILE × List Nat :=
  (Status.e_success,
    copy_remaining_img_data_loop (fptr_src.data.length - fptr_src.pos + 1) buffer fptr_src fptr_dest)

/-- Function `do_encoding`.  The arguments are the indeterminate contents of
the locals, the constant `MAGIC_STRING` of common.h, the contents of the source
image and of the secret file, and the `EncodeInfo` filled by the caller.  The
length of the extension is stored in the `int ext_size`. -/
def do_encoding (stack : EncodeLocals) (MAGIC_STRING : List Nat) (src_image secret : List Nat)
    (encInfo : EncodeInfo) : Status × EncodeInfo :=
  let r := open_files src_image secret encInfo
  if r.1 = Status.e_failure then (Status.e_failure, r.2) else
  let r := check_capacity stack.width stack.height MAGIC_STRING r.2
  if r.1 = Status.e_failure then (Status.e_failure, r.2) else
  let h := copy_bmp_header stack.header r.2.fptr_src_image r.2.fptr_stego_image
  let encInfo := { r.2 with fptr_src_image := h.2.1, fptr_stego_image := h.2.2 }
  if h.1 = Status.e_failure then (Status.e_failure, encInfo) else
  let r := encode_magic_string stack.magic_buffer MAGIC_STRING encInfo
  if r.1 = Status.e_failure then (Status.e_failure, r.2) else
  let ext_size := long_to_int (strlen r.2.extn_secret_file)
  let r := encode_secret_file_extn_size stack.extn_size_buffer ext_size r.2
  if r.1 = Status.e_failure then (Status.e_failure, r.2) else
  let r := encode_secret_file_extn stack.extn_buffer r.2.extn_secret_file r.2
  if r.1 = Status.e_failure then (Status.e_failure, r.2) else
  let r := encode_secret_file_size stack.file_size_buffer r.2.size_secret_file r.2
  if r.1 = Status.e_failure then (Status.e_failure, r.2) else
  let r := encode_secret_file_data stack.ch stack.data_buffer r.2
  if r.1 = Status.e_failure then (Status.e_failure, r.2) else
  let c := copy_remaining_img_data stack.copy_buffer r.2.fptr_src_image r.2.fptr_stego_image
  let encInfo := { r.2 with fptr_src_image := c.2.1, fptr_stego_image := c.2.2 }
  if c.1 = Status.e_failure then (Status.e_failure, encInfo) else
  (Status.e_success, encInfo)

/-! ## Decoding (decode.c) -/

/-- Constant `MAX_SECRET_EXT` of decode.h. -/
def MAX_SECRET_EXT : Nat := 10

/-- Structure `DecodeInfo` (decode.h), the fields that `do_decoding` uses.
The array `file_extn[MAX_SECRET_EXT]` is represented by the stores made
through the pointer to it: pairs of an index and the character stored, the
most recent first.  A store at an index outside `0 .. MAX_SECRET_EXT - 1` is
recorded like any other; the C program has no defined behaviour after such a
store, so a run of the model stands for a run of the program as long as its
stores stay inside the array. -/
structure DecodeInfo where
  fptr_stego_image : FILE
  fptr_output : List Nat
  file_extn : List (Int × Nat)
deriving DecidableEq

/-- Indeterminate initial contents of the buffers of the five field decoders. -/
structure DecodeLocals where
  magic_buffer : List Nat
  extn_size_buffer : List Nat
  extn_buffer : List Nat
  file_size_buffer : List Nat
  data_buffer : List Nat

/-- Function `decode_magic_string`: after a seek to offset 54, two bytes are
decoded into `magic_read` (whose third cell is NUL; cells 0 and 1 are assigned
before they are read) and compared with `MAGIC_STRING` by `strcmp`. -/
def decode_magic_string (buffer : List Nat) (MAGIC_STRING : List Nat) (decInfo : DecodeInfo) :
    Status × DecodeInfo :=
  let f := fseek_set decInfo.fptr_stego_image 54
  let st := (List.range 2).foldl
    (fun (st : List Nat × FILE × List Nat) (i : Nat) =>
      let r := fread st.1 8 1 st.2.1
      (r.2.1, r.2.2, st.2.2.set i (decode_byte_from_lsb r.2.1)))
    (buffer, f, [0, 0, 0])
  let decInfo := { decInfo with fptr_stego_image := st.2.1 }
  if c_str st.2.2 = MAGIC_STRING then (Status.e_success, decInfo)
  else (Status.e_failure, decInfo)

/-- Function `decode_secret_extn_size`: the decoded `long` is stored in an `int`. -/
def decode_secret_extn_size (buffer : List Nat) (decInfo : DecodeInfo) :
    Status × DecodeInfo × Nat :=
  let r := fread buffer 32 1 decInfo.fptr_stego_image
  (Status.e_success, { decInfo with fptr_stego_image := r.2.2 },
    long_to_int (decode_size_from_lsb r.2.1))

/-- Function `decode_secret_extn(decInfo, decInfo->file_extn, extn_size)`: the
loop `for (int i = 0; i < extn_size; i++)` runs `extn_size` times when that
`int` is positive and not at all otherwise; then `extn[extn_size] = 0`. -/
def decode_secret_extn (buffer : List Nat) (decInfo : DecodeInfo) (extn_size : Nat) :
    Status × DecodeInfo :=
  let st := (List.range (int_val extn_size).toNat).foldl
    (fun (st : List Nat × DecodeInfo) (i : Nat) =>
      let r := fread st.1 8 1 st.2.fptr_stego_image
      (r.2.1,
        { st.2 with
          fptr_stego_image := r.2.2
          file_extn := ((i : Int), decode_byte_from_lsb r.2.1) :: st.2.file_extn }))
    (buffer, decInfo)
  (Status.e_success, { st.2 with file_extn := (int_val extn_size, 0) :: st.2.file_extn })

/-- Function `decode_secret_file_size`. -/
def decode_secret_file_size (buffer : List Nat) (decInfo : DecodeInfo) :
    Status × DecodeInfo × Nat :=
  let r := fread buffer 32 1 decInfo.fptr_stego_image
  (Status.e_success, { decInfo with fptr_stego_image := r.2.2 }, decode_size_from_lsb r.2.1)

/-- Function `decode_secret_file_data(decInfo, long fsize)`: the loop
`for (long i = 0; i < fsize; i++)` runs `fsize` times when that `long` is
positive; each iteration decodes one byte and writes it to the output. -/
def decode_secret_file_data (buffer : List Nat) (decInfo : DecodeInfo) (fsize : Nat) :
    Status × DecodeInfo :=
  let st := (List.range (if fsize < 2 ^ 63 then fsize else 0)).foldl
    (fun (st : List Nat × DecodeInfo) (_ : Nat) =>
      let r := fread st.1 8 1 st.2.fptr_stego_image
      let ch := decode_byte_from_lsb r.2.1
      (r.2.1,
        { st.2 with
          fptr_stego_image := r.2.2
          fptr_output := fwrite [ch] 1 1 st.2.fptr_output }))
    (buffer, decInfo)
  (Status.e_success, st.2)

/-- Function `do_decoding`.  The arguments are the indeterminate contents of
the locals, the constant `MAGIC_STRING` of common.h and the `DecodeInfo` whose
streams the caller has opened. -/
def do_decoding (stack : DecodeLocals) (MAGIC_STRING : List Nat) (decInfo : DecodeInfo) :
    Status × DecodeInfo :=
  let r := decode_magic_string stack.magic_buffer MAGIC_STRING decInfo
  if r.1 = Status.e_failure then (Status.e_failure, r.2) else
  let s := decode_secret_extn_size stack.extn_size_buffer r.2
  if s.1 = Status.e_failure then (Status.e_failure, s.2.1) else
  let r := decode_secret_extn stack.extn_buffer s.2.1 s.2.2
  if r.1 = Status.e_failure then (Status.e_failure, r.2) else
  let s := decode_secret_file_size stack.file_size_buffer r.2
  if s.1 = Status.e_failure then (Status.e_failure, s.2.1) else
  let r := decode_secret_file_data stack.data_buffer s.2.1 s.2.2
  if r.1 = Status.e_failure then (Status.e_failure, r.2) else
  (Status.e_success, r.2)

/-- A load from the array `file_extn` after the stores `m`: the most recent
store at index `i`, if any (a cell never stored to is indeterminate). -/
def load (m : List (Int × Nat)) (i : Int) : Option Nat :=
  (m.find? (fun w => w.1 = i)).map (fun w => w.2)

/-- The C string found in the array `file_extn[MAX_SECRET_EXT]` after the
stores `m`: the characters before the first NUL, when a NUL occurs within the
first `n` cells from index `i`, all of them determinate. -/
def string_at (m : List (Int × Nat)) : Nat → Nat → Option (List Nat)
  | 0, _ => none
  | n + 1, i =>
    match load m (i : Int) with
    | none => none
    | some c => if c = 0 then some [] else (string_at m n (i + 1)).map (fun s => c :: s)

/-! ## Vocabulary of the specification -/

/-- Bit number `k` of `v` (bit 0 is the least significant). -/
def bit_at (v k : Nat) : Nat := v / 2 ^ k % 2

/-- The `w` low bits of `v`, most significant bit first. -/
def msb_bits (w v : Nat) : List Nat := (List.range w).map (fun i => bit_at v (w - 1 - i))

/-- The least-significant bit of every byte of a list. -/
def lsbs (l : List Nat) : List Nat := l.map (fun b => b % 2)

/-- The carrier bytes produced by embedding the characters `cs`, one after the
other, in successive groups of 8 bytes of `carrier`. -/
def embed_bytes : List Nat → List Nat → List Nat
  | [], _ => []
  | c :: cs, carrier => encode_byte_to_lsb c (carrier.take 8) ++ embed_bytes cs (carrier.drop 8)

/-- The stores made by a loop that writes the characters `cs` at the indices
`k`, `k + 1`, ... of an array, on top of the earlier stores `m`. -/
def stores : Nat → List Nat → List (Int × Nat) → List (Int × Nat)
  | _, [], m => m
  | k, c :: cs, m => stores (k + 1) cs (((k : Int), c) :: m)

/-- The bits of the frame that carries extension `E` and payload `P` behind the
marker `magic`: marker bytes, `len(E)` on 32 bits, the characters of `E`,
`len(P)` on 32 bits, the bytes of `P`; every value most significant bit first. -/
def frame_bits (magic E P : List Nat) : List Nat :=
  (magic.map (msb_bits 8)).flatten ++ msb_bits 32 E.length ++ (E.map (msb_bits 8)).flatten
    ++ msb_bits 32 P.length ++ (P.map (msb_bits 8)).flatten

/-! ## Concrete inputs -/

/-- The header of a bitmap of width `0x55555555` and height 1. -/
def wide_header : List Nat :=
  List.replicate 18 0 ++ [0x55, 0x55, 0x55, 0x55, 1, 0, 0, 0] ++ List.replicate 28 0

/-- The header of a bitmap of width 10 and height 10. -/
def small_header : List Nat :=
  List.replicate 18 0 ++ [10, 0, 0, 0, 10, 0, 0, 0] ++ List.replicate 28 0

/-- The header of a bitmap of width 5 and height 8. -/
def header_5x8 : List Nat :=
  List.replicate 18 0 ++ [5, 0, 0, 0, 8, 0, 0, 0] ++ List.replicate 28 0


/-- A carrier of 354 bytes: the header of a 10 x 10 bitmap and 300 bytes of pixels. -/
def carrier_10x10 : List Nat :=
  small_header ++ (List.range 300).map (fun i => (i * 37 + 11) % 256)

/-- Locals of the encoder that start empty. -/
def enc_locals : EncodeLocals := ⟨[], [], [], [], [], [], [], [], [], []⟩

/-- Locals of the decoder that start empty. -/
def dec_locals : DecodeLocals := ⟨[], [], [], [], []⟩

/-- An `EncodeInfo` whose extension is ".txt", as the caller of `do_encoding` leaves it. -/
def txt_info : EncodeInfo :=
  { fptr_src_image := ⟨[], 0⟩
    fptr_secret := ⟨[], 0⟩
    fptr_stego_image := []
    extn_secret_file := [46, 116, 120, 116]
    image_capacity := 0
    size_secret_file := 0 }

/-- Locals of the decoder whose buffers start filled with zero bytes. -/
def dec_locals_zero : DecodeLocals :=
  ⟨List.replicate 8 0, List.replicate 32 0, List.replicate 8 0, List.replicate 32 0,
    List.replicate 8 0⟩

/-- A stego stream of 182 bytes: the header of a 10 x 10 bitmap, then carrier
bytes 0 or 1 that spell the frame of the extension ".txt" and the payload "hi". -/
def stego_hi : List Nat :=
  small_header ++ frame_bits [35, 42] [46, 116, 120, 116] [104, 105]

/-- The stream `stego_hi` cut after the first of its two groups of payload bytes. -/
def stego_hi_cut : List Nat := stego_hi.take 174

/-- A carrier of 60 bytes whose header announces a 10 x 10 bitmap. -/
def carrier_short : List Nat := small_header ++ [1, 2, 3, 4, 5, 6]

/-- Locals of the encoder of their declared sizes, filled with zero bytes. -/
def enc_locals_zero : EncodeLocals :=
  ⟨List.replicate 4 0, List.replicate 4 0, List.replicate 54 0, List.replicate 8 0,
    List.replicate 32 0, List.replicate 8 0, List.replicate 32 0, List.replicate 8 0,
    List.replicate 1 0, List.replicate 1024 0⟩

/-- An `EncodeInfo` whose extension is the empty string. -/
def no_ext_info : EncodeInfo :=
  { fptr_src_image := ⟨[], 0⟩
    fptr_secret := ⟨[], 0⟩
    fptr_stego_image := []
    extn_secret_file := []
    image_capacity := 0
    size_secret_file := 0 }

/-- The bytes decoded from `n` successive groups of 8 carrier bytes of `l`. -/
def decode_groups : Nat → List Nat → List Nat
  | 0, _ => []
  | n + 1, l => decode_byte_from_lsb (l.take 8) :: decode_groups n (l.drop 8)

/-- The number of extension characters that the decoder reads from a stego
stream: the value of the extension-length field at offsets 70 to 101, stored
in an `int`, when it is positive. -/
def extn_count (data : List Nat) : Nat :=
  (int_val (long_to_int (decode_size_from_lsb ((data.drop 70).take 32)))).toNat

/-- The offset of the payload-length field of a stego stream, behind the
extension characters. -/
def payload_field_offset (data : List Nat) : Nat := 102 + 8 * extn_count data

/-- The value decoded from the 32 carrier bytes of the payload-length field. -/
def payload_length_field (data : List Nat) : Nat :=
  decode_size_from_lsb ((data.drop (payload_field_offset data)).take 32)

/-- A stego stream of 214 bytes whose extension-length field holds 10: the
header of a 10 x 10 bitmap, then carrier bytes 0 or 1 that spell the frame of
the 10-character extension ".abcdefghi" and an empty payload. -/
def stego_ext10 : List Nat :=
  small_header ++ frame_bits [35, 42] [46, 97, 98, 99, 100, 101, 102, 103, 104, 105] []

/-- A stego stream of 134 bytes whose extension-length field holds `2 ^ 31`,
which is negative once stored in the `int extn_size`; the payload-length field
follows at once and holds 0. -/
def stego_ext_neg : List Nat :=
  small_header ++ (([35, 42].map (msb_bits 8)).flatten ++ msb_bits 32 (2 ^ 31) ++ msb_bits 32 0)

/-- The 64-bit two's-complement pattern of a signed `long` value. -/
def long_of_val (v : Int) : Nat := (v % 2 ^ 64).toNat

/-- The signed value of a 64-bit `long` pattern. -/
def long_val (x : Nat) : Int :=
  if x < 2 ^ 63 then (x : Int) else (x : Int) - 2 ^ 64

/-- Locals of the decoder of their declared sizes, filled with zero bytes but
for the last byte of the buffer of `decode_secret_file_size`, which is 1. -/
def dec_locals_stale : DecodeLocals :=
  ⟨List.replicate 8 0, List.replicate 32 0, List.replicate 8 0,
    List.replicate 31 0 ++ [1], List.replicate 8 0⟩

/-- The state of the encoder behind reads that asked for the first `R` bytes
of the carrier `src`: the cursor is at offset `R`, or at the end of a shorter
carrier, `R` bytes have been written to the destination, and the secret file
`secret` (at offset 0), the extension `E` and the size `S` are in place. -/
def enc_at (src secret E : List Nat) (S R : Nat) (encInfo : EncodeInfo) : Prop :=
  encInfo.fptr_src_image = ⟨src, min R src.length⟩ ∧
  encInfo.fptr_stego_image.length = R ∧
  encInfo.fptr_secret = ⟨secret, 0⟩ ∧
  encInfo.extn_secret_file = E ∧
  encInfo.size_secret_file = S

/-! ## Loops that update a buffer in place -/

/-- A loop `for i < n: buf[i] = f(i, buf[i])` rewrites the first `n` cells
pointwise and leaves the rest of the buffer alone. -/
theorem loop_set_eq (f : Nat → Nat → Nat) :
    ∀ (n : Nat) (buf : List Nat), n ≤ buf.length →
      (List.range n).foldl (fun b i => b.set i (f i (b.getD i 0))) buf
        = (List.range n).map (fun i => f i (buf.getD i 0)) ++ buf.drop n := by
  intro n
  induction n with
  | zero => intro buf _; simp
  | succ n ih =>
    intro buf h
    have hn : n < buf.length := by omega
    rw [List.range_succ, List.foldl_append, ih buf (by omega)]
    have hlen : ((List.range n).map (fun i => f i (buf.getD i 0))).length = n := by simp
    have hget : buf.getD n 0 = buf[n] := by simp [List.getD_eq_getElem?_getD, hn]
    simp only [List.foldl_cons, List.foldl_nil, List.map_append, List.map_cons, List.map_nil]
    generalize (List.range n).map (fun i => f i (buf.getD i 0)) = M at hlen ⊢
    rw [List.getD_append_right _ _ _ _ (by rw [hlen]), hlen, Nat.sub_self,
      List.drop_eq_getElem_cons hn, List.set_append, hget]
    simp only [hlen, Nat.lt_irrefl, if_false, Nat.sub_self, List.set_cons_zero,
      List.getD_cons_zero, List.append_assoc, List.singleton_append]
/-! ## Bit arithmetic -/

theorem even_lor (e bit : Nat) (he : e % 2 = 0) (hb : bit < 2) : e ||| bit = e + bit := by
  have h := Nat.mul_add_lt_is_or (i := 1) (b := bit) (by simpa using hb) (e / 2)
  have h2 : 2 ^ 1 * (e / 2) = e := by omega
  rw [h2] at h
  exact h.symm

theorem land_FE (a : Nat) : a &&& 0xFE = a % 256 - a % 2 := by
  have h1 : a &&& 0xFE = (a % 256) &&& 0xFE := by
    have := Nat.and_pow_two_sub_one_eq_mod a 8
    have h2 : (a &&& (2 ^ 8 - 1)) &&& 0xFE = a &&& 0xFE := by
      rw [Nat.land_assoc]; rfl
    rw [← h2, this]
  have h3 : ∀ b < 256, b &&& 0xFE = b - b % 2 := by decide
  rw [h1, h3 _ (Nat.mod_lt _ (by norm_num))]
  omega

theorem char_to_int_mod (a : Nat) : char_to_int a % 256 = a % 256 := by
  unfold char_to_int
  split <;> omega

theorem enc_cell (a bit : Nat) (h : bit < 2) :
    int_to_char ((char_to_int a &&& 0xFE) ||| bit) = a % 256 - a % 2 + bit := by
  have hm := char_to_int_mod a
  rw [land_FE, even_lor _ _ (by omega) h]
  unfold int_to_char
  omega

theorem enc_cell_long (a bit : Nat) (h : bit < 2) :
    int_to_char (int_to_long (a &&& 0xFE) ||| bit) = a % 256 - a % 2 + bit := by
  rw [land_FE]
  have h1 : int_to_long (a % 256 - a % 2) = a % 256 - a % 2 := by
    unfold int_to_long
    rw [if_pos (by omega)]
  rw [h1, even_lor _ _ (by omega) h]
  unfold int_to_char
  omega

theorem int_shr_char_bit : ∀ d < 256, ∀ k < 8, int_shr (char_to_int d) k &&& 1 = d / 2 ^ k % 2 := by
  decide

theorem dec_cell (d b : Nat) :
    int_to_char (int_shl (char_to_int d) 1 ||| (char_to_int b &&& 1)) = (2 * d + b % 2) % 256 := by
  have hb : char_to_int b &&& 1 = b % 2 := by
    rw [Nat.and_one_is_mod]; have := char_to_int_mod b; omega
  have hd := char_to_int_mod d
  have hs : int_shl (char_to_int d) 1 = (2 * char_to_int d) % 2 ^ 32 := by
    unfold int_shl; rw [Nat.shiftLeft_eq]; ring_nf
  rw [hb, hs, even_lor _ _ (by omega) (by omega)]
  unfold int_to_char
  omega

theorem lor_even_mod_two (x c : Nat) (hc : c % 2 = 0) : (x ||| c) % 2 = x % 2 := by
  have h := Nat.testBit_or x c 0
  simp only [Nat.testBit_zero, hc] at h
  rcases Nat.mod_two_eq_zero_or_one x with h0 | h0 <;>
    rcases Nat.mod_two_eq_zero_or_one (x ||| c) with h1 | h1 <;> simp_all

theorem long_shr_bit (v k : Nat) (hk : k < 32) : long_shr v k &&& 1 = v / 2 ^ k % 2 := by
  unfold long_shr
  rw [Nat.and_one_is_mod, Nat.shiftRight_eq_div_pow]
  split
  · rfl
  · apply lor_even_mod_two
    have h1 : (2 : Nat) ^ 64 = 2 ^ (64 - k) * 2 ^ k := by
      rw [← Nat.pow_add]; congr 1; omega
    have h2 : (2 : Nat) ^ (64 - k) = 2 * 2 ^ (63 - k) := by
      rw [← Nat.pow_succ']; congr 1; omega
    have h3 : (2 : Nat) ^ 64 = 2 * 2 ^ 63 := by norm_num
    omega

theorem dec_cell_long (v b : Nat) :
    long_shl v 1 ||| int_to_long (b &&& 1) = (2 * v) % 2 ^ 64 + b % 2 := by
  have hb : int_to_long (b &&& 1) = b % 2 := by
    rw [Nat.and_one_is_mod]; unfold int_to_long; rw [if_pos (by omega)]
  have hs : long_shl v 1 = (2 * v) % 2 ^ 64 := by
    unfold long_shl; rw [Nat.shiftLeft_eq]; ring_nf
  rw [hb, hs, even_lor _ _ (by omega) (by omega)]

/-! ## Closed forms of the four primitives -/

theorem getD_map_range_append (g : Nat → Nat) (n : Nat) (r : List Nat) (i : Nat) (hi : i < n) :
    ((List.range n).map g ++ r).getD i 0 = g i := by
  rw [List.getD_append _ _ _ _ (by simpa using hi)]
  simp [List.getD_eq_getElem?_getD, List.getElem?_range hi]

theorem encode_byte_to_lsb_eq (data : Nat) (buf : List Nat) (hd : data < 256)
    (h : 8 ≤ buf.length) :
    encode_byte_to_lsb data buf
      = (List.range 8).map
          (fun i => buf.getD i 0 % 256 - buf.getD i 0 % 2 + bit_at data (7 - i)) ++ buf.drop 8 := by
  unfold encode_byte_to_lsb
  rw [loop_set_eq (fun i x => int_to_char
        ((char_to_int x &&& 0xFE) ||| (int_shr (char_to_int data) (7 - i) &&& 1))) 8 buf h]
  congr 1
  apply List.map_congr_left
  intro i hi
  have hi8 : i < 8 := List.mem_range.mp hi
  rw [int_shr_char_bit data hd (7 - i) (by omega)]
  exact enc_cell _ _ (Nat.mod_lt _ (by norm_num))

theorem encode_size_to_lsb_eq (value : Nat) (buf : List Nat) (h : 32 ≤ buf.length) :
    encode_size_to_lsb value buf
      = (List.range 32).map
          (fun i => buf.getD i 0 % 256 - buf.getD i 0 % 2 + bit_at value (31 - i)) ++ buf.drop 32 := by
  unfold encode_size_to_lsb
  rw [loop_set_eq (fun i x => int_to_char
        (int_to_long (x &&& 0xFE) ||| (long_shr value (31 - i) &&& 1))) 32 buf h]
  congr 1
  apply List.map_congr_left
  intro i hi
  have hi32 : i < 32 := List.mem_range.mp hi
  rw [long_shr_bit value (31 - i) (by omega)]
  exact enc_cell_long _ _ (Nat.mod_lt _ (by norm_num))

theorem decode_byte_from_lsb_eq (buf : List Nat) :
    decode_byte_from_lsb buf
      = (List.range 8).foldl (fun d i => (2 * d + buf.getD i 0 % 2) % 256) 0 := by
  unfold decode_byte_from_lsb
  apply List.foldl_ext
  intro d i _
  exact dec_cell d _

theorem decode_size_from_lsb_eq (buf : List Nat) :
    decode_size_from_lsb buf
      = (List.range 32).foldl (fun v i => (2 * v) % 2 ^ 64 + buf.getD i 0 % 2) 0 := by
  unfold decode_size_from_lsb
  apply List.foldl_ext
  intro v i _
  exact dec_cell_long v _

theorem byte_of_bits : ∀ d < 256,
    (List.range 8).foldl (fun acc i => (2 * acc + bit_at d (7 - i)) % 256) 0 = d := by
  decide

theorem size_of_bits (v : Nat) : ∀ k ≤ 32,
    (List.range k).foldl (fun acc i => (2 * acc) % 2 ^ 64 + bit_at v (31 - i)) 0
      = v / 2 ^ (32 - k) % 2 ^ k := by
  intro k
  induction k with
  | zero => intro _; simp [Nat.mod_one]
  | succ k ih =>
    intro hk
    rw [List.range_succ, List.foldl_append, ih (by omega)]
    simp only [List.foldl_cons, List.foldl_nil, bit_at]
    have e1 : 32 - k = (31 - k) + 1 := by omega
    have e2 : 32 - (k + 1) = 31 - k := by omega
    have e3 : v / 2 ^ (32 - k) = v / 2 ^ (31 - k) / 2 := by
      rw [e1, Nat.pow_succ, Nat.div_div_eq_div_mul]
    have e4 : (2 : Nat) ^ (k + 1) = 2 * 2 ^ k := by rw [Nat.pow_succ, Nat.mul_comm]
    rw [e2, e3, e4]
    generalize v / 2 ^ (31 - k) = w
    have hlt : w / 2 % 2 ^ k < 2 ^ k := Nat.mod_lt _ (Nat.two_pow_pos k)
    have hle : (2 : Nat) ^ k ≤ 2 ^ 31 := Nat.pow_le_pow_right (by norm_num) (by omega)
    have hmm : w % (2 * 2 ^ k) = w % 2 + 2 * (w / 2 % 2 ^ k) := Nat.mod_mul
    rw [hmm]
    have h31 : (2 : Nat) ^ 31 = 2147483648 := by norm_num
    have h64 : (2 : Nat) ^ 64 = 18446744073709551616 := by norm_num
    omega

/-! ## Symmetry and isolation of the bit packing primitives -/

theorem bit_at_lt (v k : Nat) : bit_at v k < 2 := Nat.mod_lt _ (by norm_num)

theorem byte_roundtrip (b : Nat) (buf : List Nat) (hb : b < 256) (hlen : 8 ≤ buf.length) :
    decode_byte_from_lsb (encode_byte_to_lsb b buf) = b := by
  rw [decode_byte_from_lsb_eq, encode_byte_to_lsb_eq b buf hb hlen]
  refine Eq.trans (List.foldl_ext _ _ _ ?_) (byte_of_bits b hb)
  intro d i hi
  have hi8 : i < 8 := List.mem_range.mp hi
  rw [getD_map_range_append _ 8 _ i hi8]
  have := bit_at_lt b (7 - i)
  omega

theorem size_roundtrip (v : Nat) (buf : List Nat) (hlen : 32 ≤ buf.length) :
    decode_size_from_lsb (encode_size_to_lsb v buf) = v % 2 ^ 32 := by
  rw [decode_size_from_lsb_eq, encode_size_to_lsb_eq v buf hlen]
  have h := size_of_bits v 32 (Nat.le_refl _)
  simp only [Nat.sub_self, Nat.pow_zero, Nat.div_one] at h
  rw [← h]
  apply List.foldl_ext
  intro d i hi
  have hi32 : i < 32 := List.mem_range.mp hi
  rw [getD_map_range_append _ 32 _ i hi32]
  have := bit_at_lt v (31 - i)
  omega

theorem bit_at_succ (x k : Nat) : bit_at x (k + 1) = bit_at (x / 2) k := by
  unfold bit_at
  rw [Nat.pow_succ, Nat.mul_comm, Nat.div_div_eq_div_mul]

theorem high_bits_kept (g : Nat → Nat) (n : Nat) (buf : List Nat) (hlen : buf.length = n)
    (hbuf : ∀ x ∈ buf, x < 256) (hg : ∀ i, g i < 2) (i k : Nat) (hk : 1 ≤ k) :
    bit_at (((List.range n).map (fun j => buf.getD j 0 % 256 - buf.getD j 0 % 2 + g j)
        ++ buf.drop n).getD i 0) k = bit_at (buf.getD i 0) k := by
  obtain ⟨k, rfl⟩ : ∃ k', k = k' + 1 := ⟨k - 1, by omega⟩
  rw [bit_at_succ, bit_at_succ]
  congr 1
  by_cases hi : i < n
  · rw [getD_map_range_append _ n _ i hi]
    have hx : buf.getD i 0 < 256 := by
      rw [List.getD_eq_getElem?_getD, List.getElem?_eq_getElem (by omega)]
      exact hbuf _ (List.getElem_mem _)
    have := hg i
    omega
  · rw [List.getD_eq_default _ _ (by simp; omega), List.getD_eq_default _ _ (by omega)]

/-- C2. Byte symmetry: for every byte `b` and every 8-byte carrier buffer,
whatever its contents, `decode_byte_from_lsb` applied to the buffer left by
`encode_byte_to_lsb b` returns `b`. -/
theorem C2_byte_symmetry (b : Nat) (buf : List Nat) (hb : b < 256) (hlen : buf.length = 8) :
    decode_byte_from_lsb (encode_byte_to_lsb b buf) = b :=
  byte_roundtrip b buf hb (by omega)

theorem C2_byte_symmetry_witness :
    (0xA5 : Nat) < 256 ∧ [255, 0, 17, 254, 128, 1, 2, 3].length = 8 ∧
      decode_byte_from_lsb (encode_byte_to_lsb 0xA5 [255, 0, 17, 254, 128, 1, 2, 3]) = 0xA5 :=
  ⟨by decide, by decide, C2_byte_symmetry 0xA5 [255, 0, 17, 254, 128, 1, 2, 3] (by decide) (by decide)⟩

/-- C3. Length symmetry: for every unsigned 32-bit value `v` and every 32-byte
carrier buffer, whatever its contents, `decode_size_from_lsb` applied to the
buffer left by `encode_size_to_lsb v` returns `v`. -/
theorem C3_length_symmetry (v : Nat) (buf : List Nat) (hv : v < 2 ^ 32) (hlen : buf.length = 32) :
    decode_size_from_lsb (encode_size_to_lsb v buf) = v := by
  rw [size_roundtrip v buf (by omega), Nat.mod_eq_of_lt hv]

theorem C3_length_symmetry_witness :
    (0xDEADBEEF : Nat) < 2 ^ 32 ∧ (List.replicate 32 0xFF).length = 32 ∧
      decode_size_from_lsb (encode_size_to_lsb 0xDEADBEEF (List.replicate 32 0xFF)) = 0xDEADBEEF :=
  ⟨by decide, by decide,
    C3_length_symmetry 0xDEADBEEF (List.replicate 32 0xFF) (by decide) (by decide)⟩

/-- C4. Bit isolation: for every value and every carrier buffer of bytes,
`encode_byte_to_lsb` (8 bytes) and `encode_size_to_lsb` (32 bytes) keep the
length of the buffer and leave every bit other than bit 0 of every carrier byte
as it was. -/
theorem C4_bit_isolation (data value : Nat) (buf8 buf32 : List Nat) (hd : data < 256)
    (h8 : buf8.length = 8) (h32 : buf32.length = 32)
    (hb8 : ∀ x ∈ buf8, x < 256) (hb32 : ∀ x ∈ buf32, x < 256) :
    ((encode_byte_to_lsb data buf8).length = 8 ∧
      ∀ i k, 1 ≤ k → bit_at ((encode_byte_to_lsb data buf8).getD i 0) k
        = bit_at (buf8.getD i 0) k) ∧
    ((encode_size_to_lsb value buf32).length = 32 ∧
      ∀ i k, 1 ≤ k → bit_at ((encode_size_to_lsb value buf32).getD i 0) k
        = bit_at (buf32.getD i 0) k) := by
  rw [encode_byte_to_lsb_eq data buf8 hd (by omega), encode_size_to_lsb_eq value buf32 (by omega)]
  refine ⟨⟨by simp [h8], fun i k hk => ?_⟩, ⟨by simp [h32], fun i k hk => ?_⟩⟩
  · exact high_bits_kept (fun j => bit_at data (7 - j)) 8 buf8 h8 hb8 (fun _ => bit_at_lt _ _) i k hk
  · exact high_bits_kept (fun j => bit_at value (31 - j)) 32 buf32 h32 hb32
      (fun _ => bit_at_lt _ _) i k hk

theorem C4_bit_isolation_witness :
    ((encode_byte_to_lsb 0x2A [255, 0, 17, 254, 128, 1, 2, 3]).length = 8 ∧
      ∀ i k, 1 ≤ k → bit_at ((encode_byte_to_lsb 0x2A [255, 0, 17, 254, 128, 1, 2, 3]).getD i 0) k
        = bit_at ([255, 0, 17, 254, 128, 1, 2, 3].getD i 0) k) ∧
    ((encode_size_to_lsb 6 (List.replicate 32 0x81)).length = 32 ∧
      ∀ i k, 1 ≤ k → bit_at ((encode_size_to_lsb 6 (List.replicate 32 0x81)).getD i 0) k
        = bit_at ((List.replicate 32 0x81).getD i 0) k) :=
  C4_bit_isolation 0x2A 6 [255, 0, 17, 254, 128, 1, 2, 3] (List.replicate 32 0x81)
    (by decide) (by decide) (by decide) (by decide) (by decide)

/-! ## Capacity planning -/

/-- The status of `check_capacity` in terms of the header fields and sizes. -/
theorem check_capacity_status (width height MAGIC_STRING : List Nat) (encInfo : EncodeInfo) :
    (check_capacity width height MAGIC_STRING encInfo).1
      = if (get_image_size_for_bmp width height encInfo.fptr_src_image).1
            < ((MAGIC_STRING.length + 4 + encInfo.extn_secret_file.length + 4
                + encInfo.fptr_secret.data.length % 2 ^ 32) * 8) % 2 ^ 32
        then Status.e_failure else Status.e_success := by
  unfold check_capacity
  simp only [get_file_size, fseek_end, ftell, long_to_int, strlen]
  split <;> rfl

theorem check_capacity_info (width height MAGIC_STRING : List Nat) (encInfo : EncodeInfo) :
    (check_capacity width height MAGIC_STRING encInfo).2
      = { encInfo with
          image_capacity := (get_image_size_for_bmp width height encInfo.fptr_src_image).1
          fptr_src_image := ⟨encInfo.fptr_src_image.data, 0⟩
          size_secret_file := encInfo.fptr_secret.data.length % 2 ^ 32
          fptr_secret := ⟨encInfo.fptr_secret.data, 0⟩ } := by
  unfold check_capacity
  simp only [get_file_size, get_image_size_for_bmp, fseek_end, fseek_set, ftell, long_to_int,
    fread]
  split <;> rfl

theorem wide_header_capacity :
    (get_image_size_for_bmp [] [] ⟨wide_header, 0⟩).1 = 4294967295 := by decide

theorem small_header_capacity :
    (get_image_size_for_bmp [] [] ⟨small_header, 0⟩).1 = 300 := by decide

theorem check_capacity_wraps (secret : List Nat) (h : secret.length = 536870898) :
    (check_capacity [] [] [35, 42]
      { fptr_src_image := ⟨wide_header, 0⟩
        fptr_secret := ⟨secret, 0⟩
        fptr_stego_image := []
        extn_secret_file := [46, 116, 120, 116]
        image_capacity := 0
        size_secret_file := 0 }).1 = Status.e_success := by
  rw [check_capacity_status]
  simp only [wide_header_capacity, h, List.length_cons, List.length_nil]
  decide

/-- C6, at the failing input: the header announces 4294967295 capacity bytes,
the extension is ".txt" and the secret file holds 536870898 bytes, so the
frame needs 4294967296 bits, one more than available; `required_bits` wraps
to 0 and `check_capacity` reports success. -/
theorem C6_boundary_wraps :
    (2 + 4 + 4 + 4 + 536870898) * 8 = 4294967295 + 1 ∧
    (get_image_size_for_bmp [] [] ⟨wide_header, 0⟩).1 = 4294967295 ∧
    (check_capacity [] [] [35, 42]
      { fptr_src_image := ⟨wide_header, 0⟩
        fptr_secret := ⟨List.replicate 536870898 0, 0⟩
        fptr_stego_image := []
        extn_secret_file := [46, 116, 120, 116]
        image_capacity := 0
        size_secret_file := 0 }).1 = Status.e_success :=
  ⟨by norm_num, wide_header_capacity, check_capacity_wraps _ (List.length_replicate _ _)⟩

/-! ## Reading from a stream -/

theorem fread_full (ptr : List Nat) (size nmemb : Nat) (f : FILE)
    (h : f.pos + size * nmemb ≤ f.data.length) :
    fread ptr size nmemb f
      = (size * nmemb / size,
          (f.data.drop f.pos).take (size * nmemb) ++ ptr.drop (size * nmemb),
          ⟨f.data, f.pos + size * nmemb⟩) := by
  unfold fread
  have : min (size * nmemb) (f.data.drop f.pos).length = size * nmemb := by
    rw [List.length_drop]; omega
  simp only [this]

theorem fread_at (ptr : List Nat) (size nmemb : Nat) (data : List Nat) (pos : Nat)
    (h : pos + size * nmemb ≤ data.length) :
    fread ptr size nmemb ⟨data, pos⟩
      = (size * nmemb / size,
          (data.drop pos).take (size * nmemb) ++ ptr.drop (size * nmemb),
          ⟨data, pos + size * nmemb⟩) :=
  fread_full ptr size nmemb ⟨data, pos⟩ h

/-- C7, counterexample: the header announces 5 * 8 * 3 = 120 capacity bytes and
the frame of ".txt" and a 2-byte payload needs 128 bits, which is at most
120 * 8; `check_capacity` fails all the same, because it compares the required
bits with the capacity in bytes. -/
theorem C7_counterexample :
    ¬ ((check_capacity [] [] [35, 42]
          { fptr_src_image := ⟨header_5x8, 0⟩
            fptr_secret := ⟨[104, 105], 0⟩
            fptr_stego_image := []
            extn_secret_file := [46, 116, 120, 116]
            image_capacity := 0
            size_secret_file := 0 }).1 = Status.e_success
        ↔ ([35, 42].length + 4 + [46, 116, 120, 116].length + 4 + [104, 105].length) * 8
            ≤ (get_image_size_for_bmp [] [] ⟨header_5x8, 0⟩).1 * 8) := by
  decide

/-- The comparison made by `check_capacity` when the required bits do not wrap. -/
theorem check_capacity_iff (width height MAGIC_STRING : List Nat) (encInfo : EncodeInfo)
    (hreq : (MAGIC_STRING.length + 4 + encInfo.extn_secret_file.length + 4
              + encInfo.fptr_secret.data.length) * 8 < 2 ^ 32) :
    (check_capacity width height MAGIC_STRING encInfo).1 = Status.e_success
      ↔ (MAGIC_STRING.length + 4 + encInfo.extn_secret_file.length + 4
            + encInfo.fptr_secret.data.length) * 8
          ≤ (get_image_size_for_bmp width height encInfo.fptr_src_image).1 := by
  rw [check_capacity_status]
  have h1 : encInfo.fptr_secret.data.length % 2 ^ 32 = encInfo.fptr_secret.data.length := by
    apply Nat.mod_eq_of_lt; omega
  rw [h1, Nat.mod_eq_of_lt hreq]
  split
  · constructor
    · intro h; exact absurd h (by decide)
    · intro h; omega
  · constructor
    · intro _; omega
    · intro _; rfl

/-- Below the wrap the boundary of `check_capacity` is exact: a frame that needs
as many bits as the carrier has capacity bytes is accepted, one that needs one
bit more is rejected. -/
theorem check_capacity_boundary (width height MAGIC_STRING : List Nat) (encInfo : EncodeInfo)
    (hreq : (MAGIC_STRING.length + 4 + encInfo.extn_secret_file.length + 4
              + encInfo.fptr_secret.data.length) * 8 < 2 ^ 32) :
    ((MAGIC_STRING.length + 4 + encInfo.extn_secret_file.length + 4
          + encInfo.fptr_secret.data.length) * 8
        = (get_image_size_for_bmp width height encInfo.fptr_src_image).1 →
      (check_capacity width height MAGIC_STRING encInfo).1 = Status.e_success) ∧
    ((MAGIC_STRING.length + 4 + encInfo.extn_secret_file.length + 4
          + encInfo.fptr_secret.data.length) * 8
        = (get_image_size_for_bmp width height encInfo.fptr_src_image).1 + 1 →
      (check_capacity width height MAGIC_STRING encInfo).1 = Status.e_failure) := by
  have h := check_capacity_iff width height MAGIC_STRING encInfo hreq
  constructor
  · intro e; exact h.mpr (by omega)
  · intro e
    have hn : ¬ (check_capacity width height MAGIC_STRING encInfo).1 = Status.e_success :=
      fun hs => by have := h.mp hs; omega
    cases hc : (check_capacity width height MAGIC_STRING encInfo).1 with
    | e_success => exact absurd hc hn
    | e_failure => rfl

/-- C7, amended: `check_capacity` compares the required bits with the carrier
capacity in bytes (one usable bit per carrier byte): whenever
`requiredBits = (len(magic) + 4 + extensionLength + 4 + payloadLength) * 8` is
below `2 ^ 32`, it reports success exactly when
`requiredBits ≤ carrierCapacityBytes`. -/
theorem C7_capacity_comparison (width height MAGIC_STRING : List Nat) (encInfo : EncodeInfo)
    (hreq : (MAGIC_STRING.length + 4 + encInfo.extn_secret_file.length + 4
              + encInfo.fptr_secret.data.length) * 8 < 2 ^ 32) :
    (check_capacity width height MAGIC_STRING encInfo).1 = Status.e_success
      ↔ (MAGIC_STRING.length + 4 + encInfo.extn_secret_file.length + 4
            + encInfo.fptr_secret.data.length) * 8
          ≤ (get_image_size_for_bmp width height encInfo.fptr_src_image).1 :=
  check_capacity_iff width height MAGIC_STRING encInfo hreq

theorem C7_capacity_comparison_witness :
    ((check_capacity [] [] [35, 42]
          { fptr_src_image := ⟨header_5x8, 0⟩
            fptr_secret := ⟨[104], 0⟩
            fptr_stego_image := []
            extn_secret_file := [46, 116, 120, 116]
            image_capacity := 0
            size_secret_file := 0 }).1 = Status.e_success
        ↔ ([35, 42].length + 4 + [46, 116, 120, 116].length + 4 + [104].length) * 8
            ≤ (get_image_size_for_bmp [] [] ⟨header_5x8, 0⟩).1) :=
  C7_capacity_comparison [] [] [35, 42]
    { fptr_src_image := ⟨header_5x8, 0⟩
      fptr_secret := ⟨[104], 0⟩
      fptr_stego_image := []
      extn_secret_file := [46, 116, 120, 116]
      image_capacity := 0
      size_secret_file := 0 } (by decide)

theorem check_capacity_oversized (secret : List Nat) (h : secret.length = 536870912) :
    (check_capacity [] [] [35, 42]
      { fptr_src_image := ⟨small_header, 0⟩
        fptr_secret := ⟨secret, 0⟩
        fptr_stego_image := []
        extn_secret_file := [46, 116, 120, 116]
        image_capacity := 0
        size_secret_file := 0 }).1 = Status.e_success := by
  rw [check_capacity_status]
  simp only [small_header_capacity, h, List.length_cons, List.length_nil]
  decide

/-- C8, at the failing input: a 10 x 10 bitmap offers 300 bits, the frame of
".txt" and a payload of 536870912 bytes needs 4294967408 bits;
`required_bits` wraps to 112 and `check_capacity` reports success. -/
theorem C8_oversized_frame_accepted :
    (get_image_size_for_bmp [] [] ⟨small_header, 0⟩).1 = 300 ∧
    536870912 < 2 ^ 32 ∧
    300 < (2 + 4 + 4 + 4 + 536870912) * 8 ∧
    (check_capacity [] [] [35, 42]
      { fptr_src_image := ⟨small_header, 0⟩
        fptr_secret := ⟨List.replicate 536870912 0, 0⟩
        fptr_stego_image := []
        extn_secret_file := [46, 116, 120, 116]
        image_capacity := 0
        size_secret_file := 0 }).1 = Status.e_success :=
  ⟨small_header_capacity, by norm_num, by norm_num,
    check_capacity_oversized _ (List.length_replicate _ _)⟩

theorem decode_byte_append (blk junk : List Nat) (h : 8 ≤ blk.length) :
    decode_byte_from_lsb (blk ++ junk) = decode_byte_from_lsb blk := by
  rw [decode_byte_from_lsb_eq, decode_byte_from_lsb_eq]
  apply List.foldl_ext
  intro d i hi
  have hi8 : i < 8 := List.mem_range.mp hi
  rw [List.getD_append _ _ _ _ (by omega)]

theorem decode_size_append (blk junk : List Nat) (h : 32 ≤ blk.length) :
    decode_size_from_lsb (blk ++ junk) = decode_size_from_lsb blk := by
  rw [decode_size_from_lsb_eq, decode_size_from_lsb_eq]
  apply List.foldl_ext
  intro d i hi
  have hi32 : i < 32 := List.mem_range.mp hi
  rw [List.getD_append _ _ _ _ (by omega)]

theorem length_take_drop (data : List Nat) (pos n : Nat) (h : pos + n ≤ data.length) :
    ((data.drop pos).take n).length = n := by
  rw [List.length_take, List.length_drop]; omega

/-- The outcome of `decode_magic_string` on a stream of at least 70 bytes. -/
theorem decode_magic_string_eq (buffer MAGIC_STRING : List Nat) (decInfo : DecodeInfo)
    (hlen : 70 ≤ decInfo.fptr_stego_image.data.length) :
    decode_magic_string buffer MAGIC_STRING decInfo
      = if c_str [decode_byte_from_lsb ((decInfo.fptr_stego_image.data.drop 54).take 8),
                  decode_byte_from_lsb ((decInfo.fptr_stego_image.data.drop 62).take 8), 0]
            = MAGIC_STRING
        then (Status.e_success,
          { decInfo with fptr_stego_image := ⟨decInfo.fptr_stego_image.data, 70⟩ })
        else (Status.e_failure,
          { decInfo with fptr_stego_image := ⟨decInfo.fptr_stego_image.data, 70⟩ }) := by
  unfold decode_magic_string
  have h1 := length_take_drop decInfo.fptr_stego_image.data 54 8 (by omega)
  have h2 := length_take_drop decInfo.fptr_stego_image.data 62 8 (by omega)
  simp only [List.range, List.range.loop, List.foldl_cons, List.foldl_nil, fseek_set,
    fread_at _ 8 1 decInfo.fptr_stego_image.data 54 (by omega),
    fread_at _ 8 1 decInfo.fptr_stego_image.data (54 + 8 * 1) (by omega), Nat.mul_one,
    decode_byte_append _ _ (Nat.le_of_eq h1.symm), decode_byte_append _ _ (Nat.le_of_eq h2.symm),
    List.set_cons_zero, List.set_cons_succ]

theorem c_str_pair (c0 c1 : Nat) (m : List Nat) (hm : m.length = 2) (h : c_str [c0, c1, 0] = m) :
    [c0, c1] = m := by
  unfold c_str at h
  by_cases h0 : c0 = 0
  · subst h0; simp at h; subst h; simp at hm
  · by_cases h1 : c1 = 0
    · subst h1; simp [h0] at h; subst h; simp at hm
    · simpa [h0, h1] using h

/-- C10. Magic gate: for every stego stream whose 16 carrier bytes at offsets
54 to 69 do not decode to the two magic bytes, `do_decoding` returns failure
with the cursor left at offset 70 (no further field is read), the output
stream as it was (nothing is written) and no store made to `file_extn`. -/
theorem C10_magic_gate (stack : DecodeLocals) (MAGIC_STRING : List Nat) (decInfo : DecodeInfo)
    (hm : MAGIC_STRING.length = 2)
    (hlen : 70 ≤ decInfo.fptr_stego_image.data.length)
    (hbad : [decode_byte_from_lsb ((decInfo.fptr_stego_image.data.drop 54).take 8),
             decode_byte_from_lsb ((decInfo.fptr_stego_image.data.drop 62).take 8)]
              ≠ MAGIC_STRING) :
    do_decoding stack MAGIC_STRING decInfo
      = (Status.e_failure,
          { decInfo with fptr_stego_image := ⟨decInfo.fptr_stego_image.data, 70⟩ }) := by
  unfold do_decoding
  rw [decode_magic_string_eq _ _ _ hlen]
  rw [if_neg (fun h => hbad (c_str_pair _ _ _ hm h))]
  simp

theorem C10_magic_gate_witness :
    do_decoding ⟨[], [], [], [], []⟩ [35, 42] ⟨⟨small_header ++ List.replicate 300 0, 0⟩, [], []⟩
      = (Status.e_failure, ⟨⟨small_header ++ List.replicate 300 0, 70⟩, [], []⟩) :=
  C10_magic_gate ⟨[], [], [], [], []⟩ [35, 42] ⟨⟨small_header ++ List.replicate 300 0, 0⟩, [], []⟩
    (by decide) (by decide) (by decide)

/-! ## Embedding a run of bytes -/

theorem encode_byte_length (c : Nat) (buf : List Nat) (hc : c < 256) (h : 8 ≤ buf.length) :
    (encode_byte_to_lsb c buf).length = buf.length := by
  rw [encode_byte_to_lsb_eq c buf hc h]
  simp; omega

theorem encode_size_length (v : Nat) (buf : List Nat) (h : 32 ≤ buf.length) :
    (encode_size_to_lsb v buf).length = buf.length := by
  rw [encode_size_to_lsb_eq v buf h]
  simp; omega

theorem encode_byte_append (c : Nat) (blk junk : List Nat) (hc : c < 256) (h : blk.length = 8) :
    encode_byte_to_lsb c (blk ++ junk) = encode_byte_to_lsb c blk ++ junk := by
  rw [encode_byte_to_lsb_eq c (blk ++ junk) hc (by simp; omega),
    encode_byte_to_lsb_eq c blk hc (by omega)]
  rw [List.drop_left' h, List.drop_of_length_le (by omega), List.append_nil]
  congr 1
  apply List.map_congr_left
  intro i hi
  have hi8 : i < 8 := List.mem_range.mp hi
  rw [List.getD_append _ _ _ _ (by omega)]

theorem encode_size_append (v : Nat) (blk junk : List Nat) (h : blk.length = 32) :
    encode_size_to_lsb v (blk ++ junk) = encode_size_to_lsb v blk ++ junk := by
  rw [encode_size_to_lsb_eq v (blk ++ junk) (by simp; omega),
    encode_size_to_lsb_eq v blk (by omega)]
  rw [List.drop_left' h, List.drop_of_length_le (by omega), List.append_nil]
  congr 1
  apply List.map_congr_left
  intro i hi
  have hi32 : i < 32 := List.mem_range.mp hi
  rw [List.getD_append _ _ _ _ (by omega)]

theorem embed_bytes_length (cs : List Nat) :
    ∀ carrier : List Nat, (∀ c ∈ cs, c < 256) → 8 * cs.length ≤ carrier.length →
      (embed_bytes cs carrier).length = 8 * cs.length := by
  induction cs with
  | nil => intro _ _ _; rfl
  | cons c cs ih =>
    intro carrier hc hlen
    simp only [List.length_cons] at hlen
    have h8 : (carrier.take 8).length = 8 := by rw [List.length_take]; omega
    simp only [embed_bytes, List.length_append, List.length_cons]
    rw [encode_byte_length c _ (hc c (List.mem_cons_self _ _)) (by omega), h8,
      ih (carrier.drop 8) (fun x hx => hc x (List.mem_cons_of_mem _ hx))
        (by rw [List.length_drop]; omega)]
    omega

/-- One step of a character loop of the encoder, when the carrier still holds 8 bytes. -/
theorem encode_byte_step_eq (c : Nat) (buf : List Nat) (encInfo : EncodeInfo) (hc : c < 256)
    (h : encInfo.fptr_src_image.pos + 8 ≤ encInfo.fptr_src_image.data.length) :
    encode_byte_step c (buf, encInfo)
      = (encode_byte_to_lsb c ((encInfo.fptr_src_image.data.drop encInfo.fptr_src_image.pos).take 8)
            ++ buf.drop 8,
          { encInfo with
            fptr_src_image := ⟨encInfo.fptr_src_image.data, encInfo.fptr_src_image.pos + 8⟩
            fptr_stego_image := encInfo.fptr_stego_image
              ++ encode_byte_to_lsb c
                  ((encInfo.fptr_src_image.data.drop encInfo.fptr_src_image.pos).take 8) }) := by
  have h8 := length_take_drop encInfo.fptr_src_image.data encInfo.fptr_src_image.pos 8 h
  have hl : (encode_byte_to_lsb c
      ((encInfo.fptr_src_image.data.drop encInfo.fptr_src_image.pos).take 8)).length = 8 := by
    rw [encode_byte_length c _ hc (by omega), h8]
  unfold encode_byte_step
  simp only [fread_full _ 8 1 encInfo.fptr_src_image (by omega), Nat.mul_one, fwrite,
    encode_byte_append c _ _ hc h8, List.take_left' hl]

/-- A character loop of the encoder, when the carrier still holds 8 bytes per character. -/
theorem encode_bytes_loop (cs : List Nat) :
    ∀ (buf : List Nat) (encInfo : EncodeInfo), (∀ c ∈ cs, c < 256) →
      encInfo.fptr_src_image.pos + 8 * cs.length ≤ encInfo.fptr_src_image.data.length →
      (cs.foldl (fun st ch => encode_byte_step ch st) (buf, encInfo)).2
        = { encInfo with
            fptr_src_image :=
              ⟨encInfo.fptr_src_image.data, encInfo.fptr_src_image.pos + 8 * cs.length⟩
            fptr_stego_image := encInfo.fptr_stego_image
              ++ embed_bytes cs (encInfo.fptr_src_image.data.drop encInfo.fptr_src_image.pos) } := by
  induction cs with
  | nil => intro buf encInfo _ _; simp [embed_bytes]
  | cons c cs ih =>
    intro buf encInfo hc hlen
    simp only [List.length_cons] at hlen
    simp only [List.foldl_cons]
    rw [encode_byte_step_eq c buf encInfo (hc c (List.mem_cons_self _ _)) (by omega)]
    rw [ih _ _ (fun x hx => hc x (List.mem_cons_of_mem _ hx)) (by simp only []; omega)]
    simp only [embed_bytes, List.append_assoc, List.drop_drop, List.length_cons]
    have e : encInfo.fptr_src_image.pos + 8 + 8 * cs.length
        = encInfo.fptr_src_image.pos + 8 * (cs.length + 1) := by omega
    rw [e]

theorem encode_size_step_eq (v : Nat) (buf : List Nat) (encInfo : EncodeInfo)
    (h : encInfo.fptr_src_image.pos + 32 ≤ encInfo.fptr_src_image.data.length) :
    encode_size_step v buf encInfo
      = { encInfo with
          fptr_src_image := ⟨encInfo.fptr_src_image.data, encInfo.fptr_src_image.pos + 32⟩
          fptr_stego_image := encInfo.fptr_stego_image
            ++ encode_size_to_lsb v
                ((encInfo.fptr_src_image.data.drop encInfo.fptr_src_image.pos).take 32) } := by
  have h32 := length_take_drop encInfo.fptr_src_image.data encInfo.fptr_src_image.pos 32 h
  have hl : (encode_size_to_lsb v
      ((encInfo.fptr_src_image.data.drop encInfo.fptr_src_image.pos).take 32)).length = 32 := by
    rw [encode_size_length v _ (by omega), h32]
  unfold encode_size_step
  simp only [fread_full _ 32 1 encInfo.fptr_src_image (by omega), Nat.mul_one, fwrite,
    encode_size_append v _ _ h32, List.take_left' hl]

theorem fread_eof (ptr : List Nat) (size nmemb : Nat) (data : List Nat) (pos : Nat)
    (h : data.length ≤ pos) :
    fread ptr size nmemb ⟨data, pos⟩ = (0, ptr, ⟨data, pos⟩) := by
  unfold fread
  have : min (size * nmemb) (data.drop pos).length = 0 := by
    rw [List.length_drop]; omega
  simp only [this, Nat.zero_div, List.take_zero, List.drop_zero, List.nil_append, Nat.add_zero]

/-- The loop of `encode_secret_file_data` runs to the end of the secret file
when the carrier holds 8 bytes for each of its remaining bytes. -/
theorem encode_secret_file_data_loop_eq :
    ∀ (fuel : Nat) (ch buf : List Nat) (encInfo : EncodeInfo),
      (∀ b ∈ encInfo.fptr_secret.data, b < 256) →
      encInfo.fptr_secret.pos ≤ encInfo.fptr_secret.data.length →
      encInfo.fptr_secret.data.length - encInfo.fptr_secret.pos < fuel →
      encInfo.fptr_src_image.pos
          + 8 * (encInfo.fptr_secret.data.length - encInfo.fptr_secret.pos)
        ≤ encInfo.fptr_src_image.data.length →
      encode_secret_file_data_loop fuel ch buf encInfo
        = { encInfo with
            fptr_secret := ⟨encInfo.fptr_secret.data, encInfo.fptr_secret.data.length⟩
            fptr_src_image := ⟨encInfo.fptr_src_image.data, encInfo.fptr_src_image.pos
              + 8 * (encInfo.fptr_secret.data.length - encInfo.fptr_secret.pos)⟩
            fptr_stego_image := encInfo.fptr_stego_image
              ++ embed_bytes (encInfo.fptr_secret.data.drop encInfo.fptr_secret.pos)
                  (encInfo.fptr_src_image.data.drop encInfo.fptr_src_image.pos) } := by
  intro fuel
  induction fuel with
  | zero => intro _ _ _ _ _ h _; omega
  | succ fuel ih =>
    intro ch buf encInfo hb hs hfuel hcar
    obtain ⟨⟨data, pos⟩, ⟨sdata, spos⟩, stego, extn, cap, size⟩ := encInfo
    simp only at hb hs hfuel hcar ⊢
    unfold encode_secret_file_data_loop
    by_cases hlt : spos < sdata.length
    · have hget : (List.take 1 (List.drop spos sdata) ++ List.drop 1 ch).getD 0 0 = sdata[spos] := by
        rw [List.drop_eq_getElem_cons hlt]; rfl
      simp only [fread_at ch 1 1 sdata spos (by omega), Nat.mul_one, Nat.div_self Nat.one_pos,
        Nat.one_ne_zero, if_false, hget]
      rw [encode_byte_step_eq _ _ _ (hb _ (List.getElem_mem _)) (by simp only []; omega)]
      simp only []
      rw [ih _ _ _ (by simpa using hb) (by simp only []; omega) (by simp only []; omega)
        (by simp only []; omega)]
      simp only [List.drop_eq_getElem_cons hlt, embed_bytes, List.append_assoc, List.drop_drop]
      have e : pos + 8 + 8 * (sdata.length - (spos + 1)) = pos + 8 * (sdata.length - spos) := by
        omega
      rw [e]
    · have he : spos = sdata.length := by omega
      subst he
      simp [fread_eof, embed_bytes]

/-- The loop of `copy_remaining_img_data` appends the rest of the source. -/
theorem copy_remaining_img_data_loop_eq :
    ∀ (fuel : Nat) (buf data : List Nat) (pos : Nat) (dest : List Nat),
      pos ≤ data.length → data.length - pos < fuel →
      copy_remaining_img_data_loop fuel buf ⟨data, pos⟩ dest
        = (⟨data, data.length⟩, dest ++ data.drop pos) := by
  intro fuel
  induction fuel with
  | zero => intro _ _ _ _ _ h; omega
  | succ fuel ih =>
    intro buf data pos dest hpos hfuel
    unfold copy_remaining_img_data_loop
    by_cases hlt : pos < data.length
    · have hgot : min (1 * 1024) (data.drop pos).length > 0 := by
        rw [List.length_drop]; omega
      have hle : min (1 * 1024) (data.drop pos).length ≤ data.length - pos := by
        rw [List.length_drop]; omega
      simp only [fread, Nat.div_one, hgot, if_true, fwrite, Nat.one_mul]
      generalize min 1024 (data.drop pos).length = got at hgot hle
      rw [ih _ data (pos + got) _ (by omega) (by omega)]
      have ht : ((data.drop pos).take got).length = got := by
        rw [List.length_take, List.length_drop]; omega
      rw [List.take_left' ht, List.append_assoc, ← List.drop_drop, List.take_append_drop]
    · have he : pos = data.length := by omega
      subst he
      simp [fread_eof]

theorem copy_bmp_header_eq (header : List Nat) (data : List Nat) (pos : Nat) (dest : List Nat)
    (h : 54 ≤ data.length) :
    copy_bmp_header header ⟨data, pos⟩ dest = (Status.e_success, ⟨data, 54⟩, dest ++ data.take 54) := by
  unfold copy_bmp_header
  have hl : (data.take 54).length = 54 := by rw [List.length_take]; omega
  simp only [fseek_set, fread_at header 1 54 data 0 (by omega), Nat.one_mul, List.drop_zero,
    fwrite, List.take_left' hl, Nat.zero_add]

theorem int_to_long_small (x : Nat) (h : x < 2 ^ 31) : int_to_long x = x := by
  unfold int_to_long
  rw [if_pos h]

theorem encode_magic_string_eq (buf cs : List Nat) (encInfo : EncodeInfo)
    (hc : ∀ c ∈ cs, c < 256)
    (h : encInfo.fptr_src_image.pos + 8 * cs.length ≤ encInfo.fptr_src_image.data.length) :
    encode_magic_string buf cs encInfo
      = (Status.e_success,
          { encInfo with
            fptr_src_image :=
              ⟨encInfo.fptr_src_image.data, encInfo.fptr_src_image.pos + 8 * cs.length⟩
            fptr_stego_image := encInfo.fptr_stego_image
              ++ embed_bytes cs (encInfo.fptr_src_image.data.drop encInfo.fptr_src_image.pos) }) := by
  unfold encode_magic_string
  rw [encode_bytes_loop cs buf encInfo hc h]

theorem encode_secret_file_extn_eq (buf cs : List Nat) (encInfo : EncodeInfo)
    (hc : ∀ c ∈ cs, c < 256)
    (h : encInfo.fptr_src_image.pos + 8 * cs.length ≤ encInfo.fptr_src_image.data.length) :
    encode_secret_file_extn buf cs encInfo
      = (Status.e_success,
          { encInfo with
            fptr_src_image :=
              ⟨encInfo.fptr_src_image.data, encInfo.fptr_src_image.pos + 8 * cs.length⟩
            fptr_stego_image := encInfo.fptr_stego_image
              ++ embed_bytes cs (encInfo.fptr_src_image.data.drop encInfo.fptr_src_image.pos) }) := by
  unfold encode_secret_file_extn
  rw [encode_bytes_loop cs buf encInfo hc h]

theorem encode_secret_file_extn_size_eq (buf : List Nat) (n : Nat) (encInfo : EncodeInfo)
    (hn : n < 2 ^ 31)
    (h : encInfo.fptr_src_image.pos + 32 ≤ encInfo.fptr_src_image.data.length) :
    encode_secret_file_extn_size buf n encInfo
      = (Status.e_success,
          { encInfo with
            fptr_src_image := ⟨encInfo.fptr_src_image.data, encInfo.fptr_src_image.pos + 32⟩
            fptr_stego_image := encInfo.fptr_stego_image
              ++ encode_size_to_lsb n
                  ((encInfo.fptr_src_image.data.drop encInfo.fptr_src_image.pos).take 32) }) := by
  unfold encode_secret_file_extn_size
  rw [int_to_long_small n hn, encode_size_step_eq _ buf encInfo h]

theorem encode_secret_file_size_eq (buf : List Nat) (n : Nat) (encInfo : EncodeInfo)
    (h : encInfo.fptr_src_image.pos + 32 ≤ encInfo.fptr_src_image.data.length) :
    encode_secret_file_size buf n encInfo
      = (Status.e_success,
          { encInfo with
            fptr_src_image := ⟨encInfo.fptr_src_image.data, encInfo.fptr_src_image.pos + 32⟩
            fptr_stego_image := encInfo.fptr_stego_image
              ++ encode_size_to_lsb n
                  ((encInfo.fptr_src_image.data.drop encInfo.fptr_src_image.pos).take 32) }) := by
  unfold encode_secret_file_size
  rw [encode_size_step_eq _ buf encInfo h]

theorem encode_secret_file_data_eq (ch buf : List Nat) (encInfo : EncodeInfo)
    (hb : ∀ b ∈ encInfo.fptr_secret.data, b < 256)
    (hs : encInfo.fptr_secret.pos ≤ encInfo.fptr_secret.data.length)
    (hcar : encInfo.fptr_src_image.pos
          + 8 * (encInfo.fptr_secret.data.length - encInfo.fptr_secret.pos)
        ≤ encInfo.fptr_src_image.data.length) :
    encode_secret_file_data ch buf encInfo
      = (Status.e_success,
          { encInfo with
            fptr_secret := ⟨encInfo.fptr_secret.data, encInfo.fptr_secret.data.length⟩
            fptr_src_image := ⟨encInfo.fptr_src_image.data, encInfo.fptr_src_image.pos
              + 8 * (encInfo.fptr_secret.data.length - encInfo.fptr_secret.pos)⟩
            fptr_stego_image := encInfo.fptr_stego_image
              ++ embed_bytes (encInfo.fptr_secret.data.drop encInfo.fptr_secret.pos)
                  (encInfo.fptr_src_image.data.drop encInfo.fptr_src_image.pos) }) := by
  unfold encode_secret_file_data
  rw [encode_secret_file_data_loop_eq _ ch buf encInfo hb hs (by omega) hcar]

theorem copy_remaining_img_data_eq (buf data : List Nat) (pos : Nat) (dest : List Nat)
    (h : pos ≤ data.length) :
    copy_remaining_img_data buf ⟨data, pos⟩ dest
      = (Status.e_success, ⟨data, data.length⟩, dest ++ data.drop pos) := by
  unfold copy_remaining_img_data
  rw [copy_remaining_img_data_loop_eq _ buf data pos dest h (by simp only []; omega)]

/-- The stego stream written by `do_encoding` when the capacity check passes
and the carrier holds the bytes that the frame needs. -/
theorem do_encoding_eq (stack : EncodeLocals) (MAGIC_STRING src_image secret : List Nat)
    (encInfo : EncodeInfo)
    (hm : MAGIC_STRING.length = 2) (hmc : ∀ c ∈ MAGIC_STRING, c < 256)
    (hEc : ∀ c ∈ encInfo.extn_secret_file, c < 256)
    (hE : encInfo.extn_secret_file.length < 2 ^ 31)
    (hP : secret.length < 2 ^ 32) (hPc : ∀ b ∈ secret, b < 256)
    (hcap : (check_capacity stack.width stack.height MAGIC_STRING
      (open_files src_image secret encInfo).2).1 = Status.e_success)
    (hlen : 54 + 8 * (2 + 4 + encInfo.extn_secret_file.length + 4 + secret.length)
      ≤ src_image.length) :
    (do_encoding stack MAGIC_STRING src_image secret encInfo).1 = Status.e_success ∧
    (do_encoding stack MAGIC_STRING src_image secret encInfo).2.fptr_stego_image
      = src_image.take 54 ++ (embed_bytes MAGIC_STRING (src_image.drop 54)
        ++ (encode_size_to_lsb encInfo.extn_secret_file.length ((src_image.drop 70).take 32)
        ++ (embed_bytes encInfo.extn_secret_file (src_image.drop 102)
        ++ (encode_size_to_lsb secret.length
              ((src_image.drop (102 + 8 * encInfo.extn_secret_file.length)).take 32)
        ++ (embed_bytes secret (src_image.drop (134 + 8 * encInfo.extn_secret_file.length))
        ++ src_image.drop
            (134 + 8 * encInfo.extn_secret_file.length + 8 * secret.length)))))) := by
  unfold do_encoding
  simp only [open_files] at hcap ⊢
  simp only [hcap, reduceCtorEq, if_false, check_capacity_info]
  rw [copy_bmp_header_eq _ _ _ _ (by omega)]
  simp only [reduceCtorEq, if_false, List.nil_append]
  rw [encode_magic_string_eq _ _ _ hmc (by simp only [hm]; omega)]
  have hE32 : long_to_int encInfo.extn_secret_file.length = encInfo.extn_secret_file.length := by
    have : (2 : Nat) ^ 31 < 2 ^ 32 := by norm_num
    exact Nat.mod_eq_of_lt (by omega)
  simp only [reduceCtorEq, if_false, strlen, hm, hE32]
  rw [encode_secret_file_extn_size_eq _ _ _ hE (by simp only []; omega)]
  simp only [reduceCtorEq, if_false]
  rw [encode_secret_file_extn_eq _ _ _ hEc (by simp only []; omega)]
  simp only [reduceCtorEq, if_false, Nat.mod_eq_of_lt hP]
  rw [encode_secret_file_size_eq _ _ _ (by simp only []; omega)]
  simp only [reduceCtorEq, if_false]
  rw [encode_secret_file_data_eq _ _ _ (by simpa using hPc) (by simp only []; omega)
    (by simp only []; omega)]
  simp only [reduceCtorEq, if_false]
  rw [copy_remaining_img_data_eq _ _ _ _ (by omega)]
  simp only [reduceCtorEq, if_false, List.append_assoc, List.drop_zero, Nat.sub_zero, true_and]
  have e1 : 54 + 8 * 2 = 70 := by norm_num
  have e2 : 70 + 32 = 102 := by norm_num
  have e3 : 102 + 8 * encInfo.extn_secret_file.length + 32
      = 134 + 8 * encInfo.extn_secret_file.length := by omega
  rw [e1, e2, e3]

/-! ## Decoding a stream seen as a block followed by the rest -/

theorem view_bound (data : List Nat) (pos : Nat) (blk rest : List Nat) (n : Nat)
    (h : data.drop pos = blk ++ rest) (hn : blk.length = n) (hpos : 0 < n) :
    pos + n ≤ data.length := by
  have := congrArg List.length h
  rw [List.length_drop, List.length_append, hn] at this
  omega

theorem view_take (data : List Nat) (pos : Nat) (blk rest : List Nat) (n : Nat)
    (h : data.drop pos = blk ++ rest) (hn : blk.length = n) :
    (data.drop pos).take n = blk := by
  rw [h, List.take_left' hn]

theorem view_next (data : List Nat) (pos : Nat) (blk rest : List Nat) (n : Nat)
    (h : data.drop pos = blk ++ rest) (hn : blk.length = n) :
    data.drop (pos + n) = rest := by
  rw [← List.drop_drop, h, List.drop_left' hn]

theorem fread_view (ptr data : List Nat) (pos : Nat) (blk rest : List Nat) (n : Nat)
    (h : data.drop pos = blk ++ rest) (hn : blk.length = n) (hpos : 0 < n) :
    fread ptr n 1 ⟨data, pos⟩ = (1, blk ++ ptr.drop n, ⟨data, pos + n⟩) := by
  rw [fread_at ptr n 1 data pos (by rw [Nat.mul_one]; exact view_bound data pos blk rest n h hn hpos)]
  simp only [Nat.mul_one, view_take data pos blk rest n h hn, Nat.div_self hpos]

theorem encode_byte_take_length (c : Nat) (car : List Nat) (hc : c < 256) (h : 8 ≤ car.length) :
    (encode_byte_to_lsb c (car.take 8)).length = 8 := by
  have h8 : (car.take 8).length = 8 := by rw [List.length_take]; omega
  rw [encode_byte_length c _ hc (by omega), h8]

theorem encode_size_take_length (v : Nat) (car : List Nat) (h : 32 ≤ car.length) :
    (encode_size_to_lsb v (car.take 32)).length = 32 := by
  have h32 : (car.take 32).length = 32 := by rw [List.length_take]; omega
  rw [encode_size_length v _ (by omega), h32]

/-- The loop of `decode_secret_extn` on a stream that continues with the
embedding of the characters `cs`. -/
theorem decode_secret_extn_loop (cs : List Nat) :
    ∀ (k : Nat) (buf : List Nat) (decInfo : DecodeInfo) (car rest : List Nat),
      decInfo.fptr_stego_image.data.drop decInfo.fptr_stego_image.pos
        = embed_bytes cs car ++ rest →
      8 * cs.length ≤ car.length → (∀ c ∈ cs, c < 256) →
      ((List.range' k cs.length).foldl
        (fun (st : List Nat × DecodeInfo) (i : Nat) =>
          let r := fread st.1 8 1 st.2.fptr_stego_image
          (r.2.1,
            { st.2 with
              fptr_stego_image := r.2.2
              file_extn := ((i : Int), decode_byte_from_lsb r.2.1) :: st.2.file_extn }))
        (buf, decInfo)).2
        = { decInfo with
            fptr_stego_image := ⟨decInfo.fptr_stego_image.data,
              decInfo.fptr_stego_image.pos + 8 * cs.length⟩
            file_extn := stores k cs decInfo.file_extn } := by
  induction cs with
  | nil => intro k buf decInfo car rest _ _ _; simp [stores]
  | cons c cs ih =>
    intro k buf decInfo car rest hview hcar hc
    obtain ⟨⟨data, pos⟩, out, extn⟩ := decInfo
    simp only [List.length_cons] at hcar
    simp only [embed_bytes, List.append_assoc] at hview
    have hc0 : c < 256 := hc c (List.mem_cons_self _ _)
    have hl := encode_byte_take_length c car hc0 (by omega)
    simp only [List.length_cons, List.range'_succ, List.foldl_cons,
      fread_view buf data pos _ _ 8 hview hl (by norm_num),
      decode_byte_append _ (buf.drop 8) (Nat.le_of_eq hl.symm),
      byte_roundtrip c (car.take 8) hc0 (by rw [List.length_take]; omega)]
    rw [ih (k + 1) _ _ (car.drop 8) rest (view_next data pos _ _ 8 hview hl)
      (by rw [List.length_drop]; omega) (fun x hx => hc x (List.mem_cons_of_mem _ hx))]
    simp only [stores]
    have e : pos + 8 + 8 * cs.length = pos + 8 * (cs.length + 1) := by omega
    rw [e]

/-- The loop of `decode_secret_file_data` on a stream that continues with the
embedding of the bytes `cs`. -/
theorem decode_secret_file_data_loop (cs : List Nat) :
    ∀ (k : Nat) (buf : List Nat) (decInfo : DecodeInfo) (car rest : List Nat),
      decInfo.fptr_stego_image.data.drop decInfo.fptr_stego_image.pos
        = embed_bytes cs car ++ rest →
      8 * cs.length ≤ car.length → (∀ c ∈ cs, c < 256) →
      ((List.range' k cs.length).foldl
        (fun (st : List Nat × DecodeInfo) (_ : Nat) =>
          let r := fread st.1 8 1 st.2.fptr_stego_image
          let ch := decode_byte_from_lsb r.2.1
          (r.2.1,
            { st.2 with
              fptr_stego_image := r.2.2
              fptr_output := fwrite [ch] 1 1 st.2.fptr_output }))
        (buf, decInfo)).2
        = { decInfo with
            fptr_stego_image := ⟨decInfo.fptr_stego_image.data,
              decInfo.fptr_stego_image.pos + 8 * cs.length⟩
            fptr_output := decInfo.fptr_output ++ cs } := by
  induction cs with
  | nil => intro k buf decInfo car rest _ _ _; simp
  | cons c cs ih =>
    intro k buf decInfo car rest hview hcar hc
    obtain ⟨⟨data, pos⟩, out, extn⟩ := decInfo
    simp only [List.length_cons] at hcar
    simp only [embed_bytes, List.append_assoc] at hview
    have hc0 : c < 256 := hc c (List.mem_cons_self _ _)
    have hl := encode_byte_take_length c car hc0 (by omega)
    simp only [List.length_cons, List.range'_succ, List.foldl_cons,
      fread_view buf data pos _ _ 8 hview hl (by norm_num),
      decode_byte_append _ (buf.drop 8) (Nat.le_of_eq hl.symm),
      byte_roundtrip c (car.take 8) hc0 (by rw [List.length_take]; omega)]
    rw [ih (k + 1) _ _ (car.drop 8) rest (view_next data pos _ _ 8 hview hl)
      (by rw [List.length_drop]; omega) (fun x hx => hc x (List.mem_cons_of_mem _ hx))]
    simp only [fwrite, Nat.mul_one, List.take_succ_cons, List.take_zero, List.append_assoc,
      List.singleton_append]
    have e : pos + 8 + 8 * cs.length = pos + 8 * (cs.length + 1) := by omega
    rw [e]

theorem decode_magic_string_view (buf MAGIC_STRING : List Nat) (decInfo : DecodeInfo)
    (car rest : List Nat)
    (hview : decInfo.fptr_stego_image.data.drop 54 = embed_bytes MAGIC_STRING car ++ rest)
    (hm : MAGIC_STRING.length = 2) (hmc : ∀ c ∈ MAGIC_STRING, c ≠ 0 ∧ c < 256)
    (hcar : 16 ≤ car.length) :
    decode_magic_string buf MAGIC_STRING decInfo
      = (Status.e_success,
          { decInfo with fptr_stego_image := ⟨decInfo.fptr_stego_image.data, 70⟩ }) := by
  match MAGIC_STRING, hm with
  | [m0, m1], _ =>
    have h0 := hmc m0 (by simp)
    have h1 := hmc m1 (by simp)
    simp only [embed_bytes, List.append_assoc, List.nil_append] at hview
    have hl0 := encode_byte_take_length m0 car h0.2 (by omega)
    have hl1 := encode_byte_take_length m1 (car.drop 8) h1.2 (by rw [List.length_drop]; omega)
    have hview1 := view_next _ 54 _ _ 8 hview hl0
    have hb0 := view_bound _ 54 _ _ 8 hview hl0 (by norm_num)
    have hb1 := view_bound _ (54 + 8) _ _ 8 hview1 hl1 (by norm_num)
    rw [decode_magic_string_eq _ _ _ (by omega)]
    rw [view_take _ 54 _ _ 8 hview hl0, view_take _ (54 + 8) _ _ 8 hview1 hl1,
      byte_roundtrip m0 _ h0.2 (by rw [List.length_take]; omega),
      byte_roundtrip m1 _ h1.2 (by rw [List.length_take, List.length_drop]; omega)]
    have hc : c_str [m0, m1, 0] = [m0, m1] := by
      simp [c_str, h0.1, h1.1]
    rw [if_pos hc]

theorem decode_secret_extn_size_view (buf : List Nat) (decInfo : DecodeInfo) (v : Nat)
    (car rest : List Nat)
    (hview : decInfo.fptr_stego_image.data.drop decInfo.fptr_stego_image.pos
      = encode_size_to_lsb v (car.take 32) ++ rest)
    (hcar : 32 ≤ car.length) :
    decode_secret_extn_size buf decInfo
      = (Status.e_success,
          { decInfo with fptr_stego_image :=
              ⟨decInfo.fptr_stego_image.data, decInfo.fptr_stego_image.pos + 32⟩ },
          long_to_int (v % 2 ^ 32)) := by
  obtain ⟨⟨data, pos⟩, out, extn⟩ := decInfo
  have hl := encode_size_take_length v car hcar
  unfold decode_secret_extn_size
  simp only [fread_view buf data pos _ _ 32 hview hl (by norm_num),
    decode_size_append _ (buf.drop 32) (Nat.le_of_eq hl.symm),
    size_roundtrip v (car.take 32) (by rw [List.length_take]; omega)]

theorem decode_secret_file_size_view (buf : List Nat) (decInfo : DecodeInfo) (v : Nat)
    (car rest : List Nat)
    (hview : decInfo.fptr_stego_image.data.drop decInfo.fptr_stego_image.pos
      = encode_size_to_lsb v (car.take 32) ++ rest)
    (hcar : 32 ≤ car.length) :
    decode_secret_file_size buf decInfo
      = (Status.e_success,
          { decInfo with fptr_stego_image :=
              ⟨decInfo.fptr_stego_image.data, decInfo.fptr_stego_image.pos + 32⟩ },
          v % 2 ^ 32) := by
  obtain ⟨⟨data, pos⟩, out, extn⟩ := decInfo
  have hl := encode_size_take_length v car hcar
  unfold decode_secret_file_size
  simp only [fread_view buf data pos _ _ 32 hview hl (by norm_num),
    decode_size_append _ (buf.drop 32) (Nat.le_of_eq hl.symm),
    size_roundtrip v (car.take 32) (by rw [List.length_take]; omega)]

theorem int_val_small (n : Nat) (h : n < 2 ^ 31) : int_val n = (n : Int) := by
  unfold int_val
  rw [if_pos h]

theorem decode_secret_extn_view (buf : List Nat) (decInfo : DecodeInfo) (cs car rest : List Nat)
    (hview : decInfo.fptr_stego_image.data.drop decInfo.fptr_stego_image.pos
      = embed_bytes cs car ++ rest)
    (hcar : 8 * cs.length ≤ car.length) (hc : ∀ c ∈ cs, c < 256) (hn : cs.length < 2 ^ 31) :
    decode_secret_extn buf decInfo cs.length
      = (Status.e_success,
          { decInfo with
            fptr_stego_image := ⟨decInfo.fptr_stego_image.data,
              decInfo.fptr_stego_image.pos + 8 * cs.length⟩
            file_extn := ((cs.length : Int), 0) :: stores 0 cs decInfo.file_extn }) := by
  unfold decode_secret_extn
  simp only [int_val_small _ hn, Int.toNat_ofNat, List.range_eq_range']
  rw [decode_secret_extn_loop cs 0 buf decInfo car rest hview hcar hc]

theorem decode_secret_file_data_view (buf : List Nat) (decInfo : DecodeInfo)
    (cs car rest : List Nat)
    (hview : decInfo.fptr_stego_image.data.drop decInfo.fptr_stego_image.pos
      = embed_bytes cs car ++ rest)
    (hcar : 8 * cs.length ≤ car.length) (hc : ∀ c ∈ cs, c < 256) (hn : cs.length < 2 ^ 63) :
    decode_secret_file_data buf decInfo cs.length
      = (Status.e_success,
          { decInfo with
            fptr_stego_image := ⟨decInfo.fptr_stego_image.data,
              decInfo.fptr_stego_image.pos + 8 * cs.length⟩
            fptr_output := decInfo.fptr_output ++ cs }) := by
  unfold decode_secret_file_data
  simp only [if_pos hn, List.range_eq_range']
  rw [decode_secret_file_data_loop cs 0 buf decInfo car rest hview hcar hc]

/-! ## The extension slot -/

theorem load_cons (k : Int) (c : Nat) (m : List (Int × Nat)) (i : Int) :
    load ((k, c) :: m) i = if k = i then some c else load m i := by
  unfold load
  by_cases h : k = i <;> simp [List.find?_cons, h]

theorem load_stores_below (cs : List Nat) :
    ∀ (k : Nat) (m : List (Int × Nat)) (i : Int), i < (k : Int) →
      load (stores k cs m) i = load m i := by
  induction cs with
  | nil => intro _ _ _ _; rfl
  | cons c cs ih =>
    intro k m i hi
    simp only [stores]
    rw [ih (k + 1) _ i (by push_cast; omega), load_cons, if_neg (by omega)]

theorem load_stores (cs : List Nat) :
    ∀ (k : Nat) (m : List (Int × Nat)) (j : Nat) (hj : j < cs.length),
      load (stores k cs m) ((k + j : Nat) : Int) = some cs[j] := by
  induction cs with
  | nil => intro _ _ j hj; simp at hj
  | cons c cs ih =>
    intro k m j hj
    simp only [stores]
    cases j with
    | zero =>
      rw [load_stores_below cs (k + 1) _ _ (by push_cast; omega), load_cons]
      simp
    | succ j =>
      have e : k + (j + 1) = (k + 1) + j := by omega
      rw [e, ih (k + 1) _ j (by simpa using hj)]
      simp

theorem string_at_stores (cs : List Nat) (m : List (Int × Nat)) (h0 : ∀ c ∈ cs, c ≠ 0) :
    ∀ (n i : Nat), i ≤ cs.length → cs.length - i < n →
      string_at (((cs.length : Int), 0) :: stores 0 cs m) n i = some (cs.drop i) := by
  intro n
  induction n with
  | zero => intro _ _ h; omega
  | succ n ih =>
    intro i hi hn
    unfold string_at
    by_cases hlt : i < cs.length
    · have hl := load_stores cs 0 m i hlt
      rw [Nat.zero_add] at hl
      rw [load_cons, if_neg (by omega), hl]
      simp only [if_neg (h0 _ (List.getElem_mem hlt))]
      rw [ih (i + 1) (by omega) (by omega), List.drop_eq_getElem_cons hlt]
      rfl
    · have he : i = cs.length := by omega
      subst he
      rw [load_cons, if_pos rfl]
      simp

/-! ## Decoding a stream that carries a frame -/

/-- The outcome of `do_decoding` on a stream whose bytes from offset 54 are the
embedding of a frame: marker, extension length, extension, payload length,
payload, each in carrier bytes of its own. -/
theorem do_decoding_frame (stack : DecodeLocals) (MAGIC_STRING E P : List Nat)
    (decInfo : DecodeInfo) (c0 c1 c2 c3 c4 tail : List Nat)
    (hdata : decInfo.fptr_stego_image.data.drop 54
      = embed_bytes MAGIC_STRING c0 ++ (encode_size_to_lsb E.length (c1.take 32)
        ++ (embed_bytes E c2 ++ (encode_size_to_lsb P.length (c3.take 32)
        ++ (embed_bytes P c4 ++ tail)))))
    (h0 : 16 ≤ c0.length) (h1 : 32 ≤ c1.length) (h2 : 8 * E.length ≤ c2.length)
    (h3 : 32 ≤ c3.length) (h4 : 8 * P.length ≤ c4.length)
    (hm : MAGIC_STRING.length = 2) (hmc : ∀ c ∈ MAGIC_STRING, c ≠ 0 ∧ c < 256)
    (hE : E.length < 2 ^ 31) (hEc : ∀ c ∈ E, c < 256)
    (hP : P.length < 2 ^ 32) (hPc : ∀ b ∈ P, b < 256) :
    do_decoding stack MAGIC_STRING decInfo
      = (Status.e_success,
          { fptr_stego_image :=
              ⟨decInfo.fptr_stego_image.data, 134 + 8 * E.length + 8 * P.length⟩
            fptr_output := decInfo.fptr_output ++ P
            file_extn := ((E.length : Int), 0) :: stores 0 E decInfo.file_extn }) := by
  obtain ⟨⟨data, pos⟩, out, extn⟩ := decInfo
  simp only at hdata
  have hl0 : (embed_bytes MAGIC_STRING c0).length = 16 := by
    rw [embed_bytes_length _ _ (fun c hc => (hmc c hc).2) (by omega), hm]
  have hl1 := encode_size_take_length E.length c1 h1
  have hl2 := embed_bytes_length E c2 hEc h2
  have hl3 := encode_size_take_length P.length c3 h3
  have v1 := view_next data 54 _ _ 16 hdata hl0
  have v2 := view_next data (54 + 16) _ _ 32 v1 hl1
  have v3 := view_next data (54 + 16 + 32) _ _ _ v2 hl2
  have v4 := view_next data (54 + 16 + 32 + 8 * E.length) _ _ 32 v3 hl3
  have e31 : (2 : Nat) ^ 31 < 2 ^ 32 := by norm_num
  have e63 : (2 : Nat) ^ 32 < 2 ^ 63 := by norm_num
  have hEm : long_to_int (E.length % 2 ^ 32) = E.length := by
    unfold long_to_int
    rw [Nat.mod_mod, Nat.mod_eq_of_lt (by omega)]
  unfold do_decoding
  rw [decode_magic_string_view _ MAGIC_STRING _ c0 _ hdata hm hmc h0]
  simp only [reduceCtorEq, if_false]
  rw [decode_secret_extn_size_view _ _ E.length c1 _ v1 h1]
  simp only [reduceCtorEq, if_false, hEm]
  rw [decode_secret_extn_view _ _ E c2 _ v2 h2 hEc hE]
  simp only [reduceCtorEq, if_false]
  rw [decode_secret_file_size_view _ _ P.length c3 _ v3 h3]
  simp only [reduceCtorEq, if_false, Nat.mod_eq_of_lt hP]
  rw [decode_secret_file_data_view _ _ P c4 _ v4 h4 hPc (by omega)]
  simp only [reduceCtorEq, if_false]
  have e : 70 + 32 + 8 * E.length + 32 + 8 * P.length = 134 + 8 * E.length + 8 * P.length := by
    omega
  rw [e]

/-- C1. Round trip of the whole pipeline: for every payload `P` of fewer than
`2 ^ 32` bytes, every extension of at most 9 characters other than NUL, and
every source carrier that passes `check_capacity` and holds at least
`54 + 8 * (2 + 4 + len(E) + 4 + len(P))` bytes, `do_encoding` succeeds and
`do_decoding` of the stream it produced succeeds, writes exactly `P` to the
output stream and leaves the extension, NUL-terminated, in `file_extn`. -/
theorem C1_round_trip (se : EncodeLocals) (sd : DecodeLocals)
    (MAGIC_STRING src_image P : List Nat) (encInfo : EncodeInfo)
    (hm : MAGIC_STRING.length = 2) (hmc : ∀ c ∈ MAGIC_STRING, c ≠ 0 ∧ c < 256)
    (hE : encInfo.extn_secret_file.length ≤ MAX_SECRET_EXT - 1)
    (hEc : ∀ c ∈ encInfo.extn_secret_file, c ≠ 0 ∧ c < 256)
    (hP : P.length < 2 ^ 32) (hPc : ∀ b ∈ P, b < 256)
    (hcap : (check_capacity se.width se.height MAGIC_STRING
      (open_files src_image P encInfo).2).1 = Status.e_success)
    (hlen : 54 + 8 * (2 + 4 + encInfo.extn_secret_file.length + 4 + P.length)
      ≤ src_image.length) :
    (do_encoding se MAGIC_STRING src_image P encInfo).1 = Status.e_success ∧
    (do_decoding sd MAGIC_STRING
      ⟨⟨(do_encoding se MAGIC_STRING src_image P encInfo).2.fptr_stego_image, 0⟩, [], []⟩).1
      = Status.e_success ∧
    (do_decoding sd MAGIC_STRING
      ⟨⟨(do_encoding se MAGIC_STRING src_image P encInfo).2.fptr_stego_image, 0⟩, [], []⟩).2.fptr_output
      = P ∧
    string_at (do_decoding sd MAGIC_STRING
      ⟨⟨(do_encoding se MAGIC_STRING src_image P encInfo).2.fptr_stego_image, 0⟩, [], []⟩).2.file_extn
      MAX_SECRET_EXT 0 = some encInfo.extn_secret_file := by
  have hE9 : encInfo.extn_secret_file.length ≤ 9 := hE
  have hE31 : encInfo.extn_secret_file.length < 2 ^ 31 := by
    have : (9 : Nat) < 2 ^ 31 := by norm_num
    omega
  obtain ⟨henc, hstego⟩ := do_encoding_eq se MAGIC_STRING src_image P encInfo hm
    (fun c hc => (hmc c hc).2) (fun c hc => (hEc c hc).2) hE31 hP hPc hcap hlen
  have h54 : (src_image.take 54).length = 54 := by rw [List.length_take]; omega
  have hdec := do_decoding_frame sd MAGIC_STRING encInfo.extn_secret_file P
    ⟨⟨(do_encoding se MAGIC_STRING src_image P encInfo).2.fptr_stego_image, 0⟩, [], []⟩
    (src_image.drop 54) (src_image.drop 70) (src_image.drop 102)
    (src_image.drop (102 + 8 * encInfo.extn_secret_file.length))
    (src_image.drop (134 + 8 * encInfo.extn_secret_file.length))
    (src_image.drop (134 + 8 * encInfo.extn_secret_file.length + 8 * P.length))
    (by simp only [hstego]; rw [List.drop_left' h54])
    (by rw [List.length_drop]; omega) (by rw [List.length_drop]; omega)
    (by rw [List.length_drop]; omega) (by rw [List.length_drop]; omega)
    (by rw [List.length_drop]; omega) hm hmc hE31 (fun c hc => (hEc c hc).2) hP hPc
  refine ⟨henc, ?_, ?_, ?_⟩
  · rw [hdec]
  · rw [hdec]; rfl
  · rw [hdec]
    simp only [stores]
    have hs := string_at_stores encInfo.extn_secret_file [] (fun c hc => (hEc c hc).1)
      MAX_SECRET_EXT 0 (Nat.zero_le _) (by simp only [MAX_SECRET_EXT]; omega)
    rw [hs, List.drop_zero]

theorem C1_round_trip_witness :
    (do_encoding enc_locals [35, 42] carrier_10x10 [104, 105] txt_info).1 = Status.e_success ∧
    (do_decoding dec_locals [35, 42]
      ⟨⟨(do_encoding enc_locals [35, 42] carrier_10x10 [104, 105] txt_info).2.fptr_stego_image, 0⟩,
        [], []⟩).1 = Status.e_success ∧
    (do_decoding dec_locals [35, 42]
      ⟨⟨(do_encoding enc_locals [35, 42] carrier_10x10 [104, 105] txt_info).2.fptr_stego_image, 0⟩,
        [], []⟩).2.fptr_output = [104, 105] ∧
    string_at (do_decoding dec_locals [35, 42]
      ⟨⟨(do_encoding enc_locals [35, 42] carrier_10x10 [104, 105] txt_info).2.fptr_stego_image, 0⟩,
        [], []⟩).2.file_extn MAX_SECRET_EXT 0 = some txt_info.extn_secret_file :=
  C1_round_trip enc_locals dec_locals [35, 42] carrier_10x10 [104, 105] txt_info
    (by decide) (by decide) (by decide) (by decide) (by decide) (by decide) (by decide) (by decide)

/-! ## The wire format -/

theorem lsbs_encode_byte (c : Nat) (blk : List Nat) (hc : c < 256) (h : blk.length = 8) :
    lsbs (encode_byte_to_lsb c blk) = msb_bits 8 c := by
  rw [encode_byte_to_lsb_eq c blk hc (by omega), List.drop_of_length_le (by omega),
    List.append_nil]
  unfold lsbs msb_bits
  rw [List.map_map]
  apply List.map_congr_left
  intro i _
  have := bit_at_lt c (7 - i)
  simp only [Function.comp]
  have e : 8 - 1 - i = 7 - i := by omega
  rw [e]
  omega

theorem lsbs_encode_size (v : Nat) (blk : List Nat) (h : blk.length = 32) :
    lsbs (encode_size_to_lsb v blk) = msb_bits 32 v := by
  rw [encode_size_to_lsb_eq v blk (by omega), List.drop_of_length_le (by omega),
    List.append_nil]
  unfold lsbs msb_bits
  rw [List.map_map]
  apply List.map_congr_left
  intro i _
  have := bit_at_lt v (31 - i)
  simp only [Function.comp]
  have e : 32 - 1 - i = 31 - i := by omega
  rw [e]
  omega

theorem lsbs_append (a b : List Nat) : lsbs (a ++ b) = lsbs a ++ lsbs b := by
  unfold lsbs
  rw [List.map_append]

theorem lsbs_embed_bytes (cs : List Nat) :
    ∀ car : List Nat, (∀ c ∈ cs, c < 256) → 8 * cs.length ≤ car.length →
      lsbs (embed_bytes cs car) = (cs.map (msb_bits 8)).flatten := by
  induction cs with
  | nil => intro _ _ _; rfl
  | cons c cs ih =>
    intro car hc hlen
    simp only [List.length_cons] at hlen
    simp only [embed_bytes, lsbs_append, List.map_cons, List.flatten_cons]
    rw [lsbs_encode_byte c _ (hc c (List.mem_cons_self _ _)) (by rw [List.length_take]; omega),
      ih (car.drop 8) (fun x hx => hc x (List.mem_cons_of_mem _ hx))
        (by rw [List.length_drop]; omega)]

/-- C5, counterexample: a carrier of 200 zero bytes is long enough for the
frame of ".txt" and a 2-byte payload, but its header announces no capacity;
`do_encoding` stops at the capacity check and writes nothing, so no frame can
be read from offset 54 of its output. -/
theorem C5_counterexample :
    54 + 8 * (2 + 4 + txt_info.extn_secret_file.length + 4 + [104, 105].length)
      ≤ (List.replicate 200 0).length ∧
    [104, 105].length < 2 ^ 32 ∧
    lsbs (((do_encoding enc_locals [35, 42] (List.replicate 200 0) [104, 105]
        txt_info).2.fptr_stego_image.drop 54).take
          (8 * (2 + 4 + txt_info.extn_secret_file.length + 4 + [104, 105].length)))
      ≠ frame_bits [35, 42] txt_info.extn_secret_file [104, 105] := by
  decide

/-- C5, amended. Wire format: for every carrier that passes `check_capacity`
and holds at least `54 + 8 * (2 + 4 + len(E) + 4 + len(P))` bytes, extension
`E` and payload `P` of fewer than `2 ^ 32` bytes, the least-significant bits of
the bytes that `do_encoding` writes from offset 54 onward spell, most
significant bit first, in this order and with no padding: the 2 magic bytes,
`len(E)` on 32 bits, the characters of `E`, `len(P)` on 32 bits, the bytes of
`P`. -/
theorem C5_wire_format (stack : EncodeLocals) (MAGIC_STRING src_image P : List Nat)
    (encInfo : EncodeInfo)
    (hm : MAGIC_STRING.length = 2) (hmc : ∀ c ∈ MAGIC_STRING, c < 256)
    (hEc : ∀ c ∈ encInfo.extn_secret_file, c < 256)
    (hE : encInfo.extn_secret_file.length < 2 ^ 31)
    (hP : P.length < 2 ^ 32) (hPc : ∀ b ∈ P, b < 256)
    (hcap : (check_capacity stack.width stack.height MAGIC_STRING
      (open_files src_image P encInfo).2).1 = Status.e_success)
    (hlen : 54 + 8 * (2 + 4 + encInfo.extn_secret_file.length + 4 + P.length)
      ≤ src_image.length) :
    lsbs (((do_encoding stack MAGIC_STRING src_image P encInfo).2.fptr_stego_image.drop 54).take
        (8 * (2 + 4 + encInfo.extn_secret_file.length + 4 + P.length)))
      = frame_bits MAGIC_STRING encInfo.extn_secret_file P := by
  obtain ⟨_, hstego⟩ := do_encoding_eq stack MAGIC_STRING src_image P encInfo hm hmc hEc hE hP
    hPc hcap hlen
  have h54 : (src_image.take 54).length = 54 := by rw [List.length_take]; omega
  have l0 : (embed_bytes MAGIC_STRING (src_image.drop 54)).length = 16 := by
    rw [embed_bytes_length _ _ hmc (by rw [List.length_drop]; omega), hm]
  have l1 := encode_size_take_length encInfo.extn_secret_file.length (src_image.drop 70)
    (by rw [List.length_drop]; omega)
  have l2 := embed_bytes_length encInfo.extn_secret_file (src_image.drop 102) hEc
    (by rw [List.length_drop]; omega)
  have l3 := encode_size_take_length P.length
    (src_image.drop (102 + 8 * encInfo.extn_secret_file.length))
    (by rw [List.length_drop]; omega)
  have l4 := embed_bytes_length P (src_image.drop (134 + 8 * encInfo.extn_secret_file.length))
    hPc (by rw [List.length_drop]; omega)
  rw [hstego, List.drop_left' h54]
  simp only [← List.append_assoc]
  rw [List.take_left' (by simp only [List.length_append, l0, l1, l2, l3, l4]; omega)]
  simp only [lsbs_append, frame_bits]
  rw [lsbs_embed_bytes _ _ hmc (by rw [List.length_drop]; omega),
    lsbs_embed_bytes _ _ hEc (by rw [List.length_drop]; omega),
    lsbs_embed_bytes _ _ hPc (by rw [List.length_drop]; omega),
    lsbs_encode_size _ _ (by rw [List.length_take, List.length_drop]; omega),
    lsbs_encode_size _ _ (by rw [List.length_take, List.length_drop]; omega)]

theorem C5_wire_format_witness :
    lsbs (((do_encoding enc_locals [35, 42] carrier_10x10 [104, 105]
        txt_info).2.fptr_stego_image.drop 54).take
          (8 * (2 + 4 + txt_info.extn_secret_file.length + 4 + [104, 105].length)))
      = frame_bits [35, 42] txt_info.extn_secret_file [104, 105] :=
  C5_wire_format enc_locals [35, 42] carrier_10x10 [104, 105] txt_info
    (by decide) (by decide) (by decide) (by decide) (by decide) (by decide) (by decide) (by decide)

/-! ## Statuses of the pipelines -/

theorem copy_bmp_header_status (header : List Nat) (f : FILE) (dest : List Nat) :
    (copy_bmp_header header f dest).1 = Status.e_success := rfl

theorem encode_magic_string_status (buf cs : List Nat) (encInfo : EncodeInfo) :
    (encode_magic_string buf cs encInfo).1 = Status.e_success := rfl

theorem encode_secret_file_extn_size_status (buf : List Nat) (n : Nat) (encInfo : EncodeInfo) :
    (encode_secret_file_extn_size buf n encInfo).1 = Status.e_success := rfl

theorem encode_secret_file_extn_status (buf cs : List Nat) (encInfo : EncodeInfo) :
    (encode_secret_file_extn buf cs encInfo).1 = Status.e_success := rfl

theorem encode_secret_file_size_status (buf : List Nat) (n : Nat) (encInfo : EncodeInfo) :
    (encode_secret_file_size buf n encInfo).1 = Status.e_success := rfl

theorem encode_secret_file_data_status (ch buf : List Nat) (encInfo : EncodeInfo) :
    (encode_secret_file_data ch buf encInfo).1 = Status.e_success := rfl

theorem copy_remaining_img_data_status (buf : List Nat) (f : FILE) (dest : List Nat) :
    (copy_remaining_img_data buf f dest).1 = Status.e_success := rfl

theorem decode_secret_extn_size_status (buf : List Nat) (decInfo : DecodeInfo) :
    (decode_secret_extn_size buf decInfo).1 = Status.e_success := rfl

theorem decode_secret_extn_status (buf : List Nat) (decInfo : DecodeInfo) (n : Nat) :
    (decode_secret_extn buf decInfo n).1 = Status.e_success := rfl

theorem decode_secret_file_size_status (buf : List Nat) (decInfo : DecodeInfo) :
    (decode_secret_file_size buf decInfo).1 = Status.e_success := rfl

theorem decode_secret_file_data_status (buf : List Nat) (decInfo : DecodeInfo) (n : Nat) :
    (decode_secret_file_data buf decInfo n).1 = Status.e_success := rfl

/-- The status of `do_encoding` is the status of `check_capacity`: no later
step reports a failure, whatever the streams hold. -/
theorem do_encoding_status (stack : EncodeLocals) (MAGIC_STRING src_image secret : List Nat)
    (encInfo : EncodeInfo) :
    (do_encoding stack MAGIC_STRING src_image secret encInfo).1
      = (check_capacity stack.width stack.height MAGIC_STRING
          (open_files src_image secret encInfo).2).1 := by
  unfold do_encoding
  simp only [copy_bmp_header_status, encode_magic_string_status,
    encode_secret_file_extn_size_status, encode_secret_file_extn_status,
    encode_secret_file_size_status, encode_secret_file_data_status,
    copy_remaining_img_data_status, reduceCtorEq, if_false]
  have ho : (open_files src_image secret encInfo).1 = Status.e_success := rfl
  simp only [ho, reduceCtorEq, if_false]
  cases h : (check_capacity stack.width stack.height MAGIC_STRING
      (open_files src_image secret encInfo).2).1 <;> simp

/-- The status of `do_decoding` is the status of `decode_magic_string`: no
later step reports a failure, whatever the stream holds. -/
theorem do_decoding_status (stack : DecodeLocals) (MAGIC_STRING : List Nat)
    (decInfo : DecodeInfo) :
    (do_decoding stack MAGIC_STRING decInfo).1
      = (decode_magic_string stack.magic_buffer MAGIC_STRING decInfo).1 := by
  unfold do_decoding
  simp only [decode_secret_extn_size_status, decode_secret_extn_status,
    decode_secret_file_size_status, decode_secret_file_data_status, reduceCtorEq, if_false]
  cases h : (decode_magic_string stack.magic_buffer MAGIC_STRING decInfo).1 <;> simp

/-- The outcome of `do_encoding` when `check_capacity` fails. -/
theorem do_encoding_refused (stack : EncodeLocals) (MAGIC_STRING src_image secret : List Nat)
    (encInfo : EncodeInfo)
    (hcap : (check_capacity stack.width stack.height MAGIC_STRING
      (open_files src_image secret encInfo).2).1 = Status.e_failure) :
    do_encoding stack MAGIC_STRING src_image secret encInfo
      = (Status.e_failure,
          (check_capacity stack.width stack.height MAGIC_STRING
            (open_files src_image secret encInfo).2).2) := by
  unfold do_encoding
  have ho : (open_files src_image secret encInfo).1 = Status.e_success := rfl
  simp only [ho, reduceCtorEq, if_false, hcap, if_true]

/-- C12. Insufficient capacity is reported before anything is written: for
every carrier and payload for which `check_capacity` fails, `do_encoding`
returns failure and the destination carrier stream holds zero bytes. -/
theorem C12_refusal_writes_nothing (stack : EncodeLocals)
    (MAGIC_STRING src_image secret : List Nat) (encInfo : EncodeInfo)
    (hcap : (check_capacity stack.width stack.height MAGIC_STRING
      (open_files src_image secret encInfo).2).1 = Status.e_failure) :
    (do_encoding stack MAGIC_STRING src_image secret encInfo).1 = Status.e_failure ∧
    (do_encoding stack MAGIC_STRING src_image secret encInfo).2.fptr_stego_image = [] := by
  rw [do_encoding_refused stack MAGIC_STRING src_image secret encInfo hcap, check_capacity_info]
  exact ⟨rfl, rfl⟩

theorem C12_refusal_writes_nothing_witness :
    (do_encoding enc_locals_zero [35, 42] (List.replicate 200 0) [104, 105] txt_info).1
      = Status.e_failure ∧
    (do_encoding enc_locals_zero [35, 42] (List.replicate 200 0) [104, 105]
      txt_info).2.fptr_stego_image = [] :=
  C12_refusal_writes_nothing enc_locals_zero [35, 42] (List.replicate 200 0) [104, 105] txt_info
    (by decide)

/-! ## The encoder only appends to the destination -/

theorem encode_byte_step_extends (c : Nat) (st : List Nat × EncodeInfo) :
    st.2.fptr_stego_image <+: (encode_byte_step c st).2.fptr_stego_image := by
  unfold encode_byte_step fwrite
  exact List.prefix_append _ _

theorem encode_bytes_extends (cs : List Nat) :
    ∀ st : List Nat × EncodeInfo,
      st.2.fptr_stego_image
        <+: (cs.foldl (fun st ch => encode_byte_step ch st) st).2.fptr_stego_image := by
  induction cs with
  | nil => intro st; exact List.prefix_refl _
  | cons c cs ih =>
    intro st
    simp only [List.foldl_cons]
    exact List.IsPrefix.trans (encode_byte_step_extends c st) (ih _)

theorem encode_magic_string_extends (buf cs : List Nat) (encInfo : EncodeInfo) :
    encInfo.fptr_stego_image <+: (encode_magic_string buf cs encInfo).2.fptr_stego_image :=
  encode_bytes_extends cs (buf, encInfo)

theorem encode_secret_file_extn_extends (buf cs : List Nat) (encInfo : EncodeInfo) :
    encInfo.fptr_stego_image <+: (encode_secret_file_extn buf cs encInfo).2.fptr_stego_image :=
  encode_bytes_extends cs (buf, encInfo)

theorem encode_size_step_extends (v : Nat) (buf : List Nat) (encInfo : EncodeInfo) :
    encInfo.fptr_stego_image <+: (encode_size_step v buf encInfo).fptr_stego_image := by
  unfold encode_size_step fwrite
  exact List.prefix_append _ _

theorem encode_secret_file_extn_size_extends (buf : List Nat) (n : Nat) (encInfo : EncodeInfo) :
    encInfo.fptr_stego_image
      <+: (encode_secret_file_extn_size buf n encInfo).2.fptr_stego_image :=
  encode_size_step_extends _ buf encInfo

theorem encode_secret_file_size_extends (buf : List Nat) (n : Nat) (encInfo : EncodeInfo) :
    encInfo.fptr_stego_image <+: (encode_secret_file_size buf n encInfo).2.fptr_stego_image :=
  encode_size_step_extends _ buf encInfo

theorem encode_secret_file_data_loop_extends :
    ∀ (fuel : Nat) (ch buf : List Nat) (encInfo : EncodeInfo),
      encInfo.fptr_stego_image
        <+: (encode_secret_file_data_loop fuel ch buf encInfo).fptr_stego_image := by
  intro fuel
  induction fuel with
  | zero => intro _ _ _; exact List.prefix_refl _
  | succ fuel ih =>
    intro ch buf encInfo
    unfold encode_secret_file_data_loop
    simp only []
    split
    · exact List.prefix_refl _
    · refine List.IsPrefix.trans ?_ (ih _ _ _)
      exact encode_byte_step_extends _ (buf, _)

theorem encode_secret_file_data_extends (ch buf : List Nat) (encInfo : EncodeInfo) :
    encInfo.fptr_stego_image <+: (encode_secret_file_data ch buf encInfo).2.fptr_stego_image :=
  encode_secret_file_data_loop_extends _ ch buf encInfo

theorem copy_remaining_img_data_loop_extends :
    ∀ (fuel : Nat) (buf : List Nat) (f : FILE) (dest : List Nat),
      dest <+: (copy_remaining_img_data_loop fuel buf f dest).2 := by
  intro fuel
  induction fuel with
  | zero => intro _ _ _; exact List.prefix_refl _
  | succ fuel ih =>
    intro buf f dest
    unfold copy_remaining_img_data_loop
    simp only []
    split
    · refine List.IsPrefix.trans ?_ (ih _ _ _)
      exact List.prefix_append _ _
    · exact List.prefix_refl _

theorem copy_remaining_img_data_extends (buf : List Nat) (f : FILE) (dest : List Nat) :
    dest <+: (copy_remaining_img_data buf f dest).2.2 :=
  copy_remaining_img_data_loop_extends _ buf f dest

theorem take_of_extension (a l : List Nat) (n : Nat) (h : a <+: l) (hn : a.length = n) :
    l.take n = a := by
  obtain ⟨t, rfl⟩ := h
  exact List.take_left' hn

/-- Past the capacity check the destination starts with the first 54 bytes of
the source, whatever the rest of the source holds. -/
theorem do_encoding_header (stack : EncodeLocals) (MAGIC_STRING src_image secret : List Nat)
    (encInfo : EncodeInfo) (h54 : 54 ≤ src_image.length)
    (hcap : (check_capacity stack.width stack.height MAGIC_STRING
      (open_files src_image secret encInfo).2).1 = Status.e_success) :
    src_image.take 54
      <+: (do_encoding stack MAGIC_STRING src_image secret encInfo).2.fptr_stego_image := by
  unfold do_encoding
  simp only [open_files] at hcap ⊢
  simp only [hcap, copy_bmp_header_status, encode_magic_string_status,
    encode_secret_file_extn_size_status, encode_secret_file_extn_status,
    encode_secret_file_size_status, encode_secret_file_data_status,
    copy_remaining_img_data_status, reduceCtorEq, if_false, check_capacity_info]
  rw [copy_bmp_header_eq _ _ _ _ h54]
  simp only [List.nil_append]
  refine List.IsPrefix.trans ?_ (copy_remaining_img_data_extends _ _ _)
  refine List.IsPrefix.trans ?_ (encode_secret_file_data_extends _ _ _)
  refine List.IsPrefix.trans ?_ (encode_secret_file_size_extends _ _ _)
  refine List.IsPrefix.trans ?_ (encode_secret_file_extn_extends _ _ _)
  refine List.IsPrefix.trans ?_ (encode_secret_file_extn_size_extends _ _ _)
  refine List.IsPrefix.trans ?_ (encode_magic_string_extends _ _ _)
  exact List.prefix_refl _

/-- C14. Header transfer: for every source carrier of at least 54 bytes on
which `do_encoding` proceeds past the capacity check, bytes 0 to 53 of the
destination carrier are bytes 0 to 53 of the source; and `copy_bmp_header`
writes the 54 bytes found at offset 0 of the source wherever its cursor was. -/
theorem C14_header_transfer (stack : EncodeLocals) (MAGIC_STRING src_image secret : List Nat)
    (encInfo : EncodeInfo) (h54 : 54 ≤ src_image.length)
    (hcap : (check_capacity stack.width stack.height MAGIC_STRING
      (open_files src_image secret encInfo).2).1 = Status.e_success) :
    (do_encoding stack MAGIC_STRING src_image secret encInfo).2.fptr_stego_image.take 54
      = src_image.take 54 ∧
    ∀ (header : List Nat) (pos : Nat) (dest : List Nat),
      copy_bmp_header header ⟨src_image, pos⟩ dest
        = (Status.e_success, ⟨src_image, 54⟩, dest ++ src_image.take 54) :=
  ⟨take_of_extension _ _ 54
      (do_encoding_header stack MAGIC_STRING src_image secret encInfo h54 hcap)
      (by rw [List.length_take]; omega),
    fun header pos dest => copy_bmp_header_eq header src_image pos dest h54⟩

theorem C14_header_transfer_witness :
    (do_encoding enc_locals_zero [35, 42] carrier_short [104, 105] txt_info).2.fptr_stego_image.take
        54 = carrier_short.take 54 ∧
    ∀ (header : List Nat) (pos : Nat) (dest : List Nat),
      copy_bmp_header header ⟨carrier_short, pos⟩ dest
        = (Status.e_success, ⟨carrier_short, 54⟩, dest ++ carrier_short.take 54) :=
  C14_header_transfer enc_locals_zero [35, 42] carrier_short [104, 105] txt_info
    (by decide) (by decide)

/-! ## Size and tail of the destination -/

/-- The stego stream written by `do_encoding` past the capacity check, for
strings and payloads of any length, when the carrier holds the bytes that the
frame needs. -/
theorem do_encoding_stego (stack : EncodeLocals) (MAGIC_STRING src_image secret : List Nat)
    (encInfo : EncodeInfo)
    (hm : MAGIC_STRING.length = 2) (hmc : ∀ c ∈ MAGIC_STRING, c < 256)
    (hEc : ∀ c ∈ encInfo.extn_secret_file, c < 256) (hPc : ∀ b ∈ secret, b < 256)
    (hcap : (check_capacity stack.width stack.height MAGIC_STRING
      (open_files src_image secret encInfo).2).1 = Status.e_success)
    (hlen : 54 + 8 * (2 + 4 + encInfo.extn_secret_file.length + 4 + secret.length)
      ≤ src_image.length) :
    (do_encoding stack MAGIC_STRING src_image secret encInfo).2.fptr_stego_image
      = src_image.take 54 ++ (embed_bytes MAGIC_STRING (src_image.drop 54)
        ++ (encode_size_to_lsb (int_to_long (long_to_int encInfo.extn_secret_file.length))
              ((src_image.drop 70).take 32)
        ++ (embed_bytes encInfo.extn_secret_file (src_image.drop 102)
        ++ (encode_size_to_lsb (secret.length % 2 ^ 32)
              ((src_image.drop (102 + 8 * encInfo.extn_secret_file.length)).take 32)
        ++ (embed_bytes secret (src_image.drop (134 + 8 * encInfo.extn_secret_file.length))
        ++ src_image.drop
            (134 + 8 * encInfo.extn_secret_file.length + 8 * secret.length)))))) := by
  unfold do_encoding
  simp only [open_files] at hcap ⊢
  simp only [hcap, reduceCtorEq, if_false, check_capacity_info]
  rw [copy_bmp_header_eq _ _ _ _ (by omega)]
  simp only [reduceCtorEq, if_false, List.nil_append]
  rw [encode_magic_string_eq _ _ _ hmc (by simp only [hm]; omega)]
  simp only [reduceCtorEq, if_false, strlen, hm, encode_secret_file_extn_size,
    encode_secret_file_size]
  rw [encode_size_step_eq _ _ _ (by simp only []; omega)]
  simp only [reduceCtorEq, if_false]
  rw [encode_secret_file_extn_eq _ _ _ hEc (by simp only []; omega)]
  simp only [reduceCtorEq, if_false]
  rw [encode_size_step_eq _ _ _ (by simp only []; omega)]
  simp only [reduceCtorEq, if_false]
  rw [encode_secret_file_data_eq _ _ _ (by simpa using hPc) (by simp only []; omega)
    (by simp only []; omega)]
  simp only [reduceCtorEq, if_false]
  rw [copy_remaining_img_data_eq _ _ _ _ (by omega)]
  simp only [reduceCtorEq, if_false, List.append_assoc, List.drop_zero, Nat.sub_zero]
  have e1 : 54 + 8 * 2 = 70 := by norm_num
  have e2 : 70 + 32 = 102 := by norm_num
  have e3 : 102 + 8 * encInfo.extn_secret_file.length + 32
      = 134 + 8 * encInfo.extn_secret_file.length := by omega
  rw [e1, e2, e3]

/-- C13, counterexample: a carrier of 200 zero bytes is long enough for the
frame of ".txt" and a 2-byte payload, but fails the capacity check; the
destination written by `do_encoding` is empty, not 200 bytes long. -/
theorem C13_counterexample :
    54 + 8 * (2 + 4 + txt_info.extn_secret_file.length + 4 + [104, 105].length)
      ≤ (List.replicate 200 0).length ∧
    (do_encoding enc_locals_zero [35, 42] (List.replicate 200 0) [104, 105]
        txt_info).2.fptr_stego_image.length
      ≠ (List.replicate 200 0).length := by
  decide

/-- C13, amended. Tail and size preservation: for every source carrier that
passes `check_capacity` and holds at least
`54 + 8 * (2 + 4 + len(E) + 4 + len(P))` bytes, the destination carrier written
by `do_encoding` has the length of the source, and from that offset on its
bytes are those of the source. -/
theorem C13_tail_preserved (stack : EncodeLocals) (MAGIC_STRING src_image P : List Nat)
    (encInfo : EncodeInfo)
    (hm : MAGIC_STRING.length = 2) (hmc : ∀ c ∈ MAGIC_STRING, c < 256)
    (hEc : ∀ c ∈ encInfo.extn_secret_file, c < 256) (hPc : ∀ b ∈ P, b < 256)
    (hcap : (check_capacity stack.width stack.height MAGIC_STRING
      (open_files src_image P encInfo).2).1 = Status.e_success)
    (hlen : 54 + 8 * (2 + 4 + encInfo.extn_secret_file.length + 4 + P.length)
      ≤ src_image.length) :
    (do_encoding stack MAGIC_STRING src_image P encInfo).2.fptr_stego_image.length
      = src_image.length ∧
    (do_encoding stack MAGIC_STRING src_image P encInfo).2.fptr_stego_image.drop
        (54 + 8 * (2 + 4 + encInfo.extn_secret_file.length + 4 + P.length))
      = src_image.drop (54 + 8 * (2 + 4 + encInfo.extn_secret_file.length + 4 + P.length)) := by
  have hstego := do_encoding_stego stack MAGIC_STRING src_image P encInfo hm hmc hEc hPc hcap hlen
  have h54 : (src_image.take 54).length = 54 := by rw [List.length_take]; omega
  have l0 : (embed_bytes MAGIC_STRING (src_image.drop 54)).length = 16 := by
    rw [embed_bytes_length _ _ hmc (by rw [List.length_drop]; omega), hm]
  have l1 := encode_size_take_length (int_to_long (long_to_int encInfo.extn_secret_file.length))
    (src_image.drop 70) (by rw [List.length_drop]; omega)
  have l2 := embed_bytes_length encInfo.extn_secret_file (src_image.drop 102) hEc
    (by rw [List.length_drop]; omega)
  have l3 := encode_size_take_length (P.length % 2 ^ 32)
    (src_image.drop (102 + 8 * encInfo.extn_secret_file.length))
    (by rw [List.length_drop]; omega)
  have l4 := embed_bytes_length P (src_image.drop (134 + 8 * encInfo.extn_secret_file.length))
    hPc (by rw [List.length_drop]; omega)
  have e : 54 + 8 * (2 + 4 + encInfo.extn_secret_file.length + 4 + P.length)
      = 134 + 8 * encInfo.extn_secret_file.length + 8 * P.length := by omega
  rw [hstego, e]
  constructor
  · simp only [List.length_append, h54, l0, l1, l2, l3, l4, List.length_drop]
    omega
  · simp only [← List.append_assoc]
    rw [List.drop_left' (by simp only [List.length_append, h54, l0, l1, l2, l3, l4]; omega)]

theorem C13_tail_preserved_witness :
    (do_encoding enc_locals_zero [35, 42] carrier_10x10 [104, 105] txt_info).2.fptr_stego_image.length
      = carrier_10x10.length ∧
    (do_encoding enc_locals_zero [35, 42] carrier_10x10 [104, 105] txt_info).2.fptr_stego_image.drop
        (54 + 8 * (2 + 4 + txt_info.extn_secret_file.length + 4 + [104, 105].length))
      = carrier_10x10.drop
          (54 + 8 * (2 + 4 + txt_info.extn_secret_file.length + 4 + [104, 105].length)) :=
  C13_tail_preserved enc_locals_zero [35, 42] carrier_10x10 [104, 105] txt_info
    (by decide) (by decide) (by decide) (by decide) (by decide) (by decide)

/-! ## The empty payload -/

theorem view_next_at (data : List Nat) (pos : Nat) (blk rest : List Nat) (n : Nat)
    (h : data.drop pos = blk ++ rest) (hn : blk.length = n) (q : Nat) (hq : q = pos + n) :
    data.drop q = rest := by
  rw [hq]
  exact view_next data pos blk rest n h hn

/-- The decoder applied to the output of the encoder: the full outcome. -/
theorem do_decoding_of_encoding (se : EncodeLocals) (sd : DecodeLocals)
    (MAGIC_STRING src_image P : List Nat) (encInfo : EncodeInfo)
    (hm : MAGIC_STRING.length = 2) (hmc : ∀ c ∈ MAGIC_STRING, c ≠ 0 ∧ c < 256)
    (hE : encInfo.extn_secret_file.length < 2 ^ 31)
    (hEc : ∀ c ∈ encInfo.extn_secret_file, c < 256)
    (hP : P.length < 2 ^ 32) (hPc : ∀ b ∈ P, b < 256)
    (hcap : (check_capacity se.width se.height MAGIC_STRING
      (open_files src_image P encInfo).2).1 = Status.e_success)
    (hlen : 54 + 8 * (2 + 4 + encInfo.extn_secret_file.length + 4 + P.length)
      ≤ src_image.length) :
    do_decoding sd MAGIC_STRING
      ⟨⟨(do_encoding se MAGIC_STRING src_image P encInfo).2.fptr_stego_image, 0⟩, [], []⟩
      = (Status.e_success,
          { fptr_stego_image :=
              ⟨(do_encoding se MAGIC_STRING src_image P encInfo).2.fptr_stego_image,
                134 + 8 * encInfo.extn_secret_file.length + 8 * P.length⟩
            fptr_output := P
            file_extn := ((encInfo.extn_secret_file.length : Int), 0)
              :: stores 0 encInfo.extn_secret_file [] }) := by
  obtain ⟨_, hstego⟩ := do_encoding_eq se MAGIC_STRING src_image P encInfo hm
    (fun c hc => (hmc c hc).2) hEc hE hP hPc hcap hlen
  have h54 : (src_image.take 54).length = 54 := by rw [List.length_take]; omega
  have hdec := do_decoding_frame sd MAGIC_STRING encInfo.extn_secret_file P
    ⟨⟨(do_encoding se MAGIC_STRING src_image P encInfo).2.fptr_stego_image, 0⟩, [], []⟩
    (src_image.drop 54) (src_image.drop 70) (src_image.drop 102)
    (src_image.drop (102 + 8 * encInfo.extn_secret_file.length))
    (src_image.drop (134 + 8 * encInfo.extn_secret_file.length))
    (src_image.drop (134 + 8 * encInfo.extn_secret_file.length + 8 * P.length))
    (by simp only [hstego]; rw [List.drop_left' h54])
    (by rw [List.length_drop]; omega) (by rw [List.length_drop]; omega)
    (by rw [List.length_drop]; omega) (by rw [List.length_drop]; omega)
    (by rw [List.length_drop]; omega) hm hmc hE hEc hP hPc
  rw [hdec]
  simp only [List.nil_append]

/-- The payload-length field and the tail written by the encoder for an empty
payload and a 4-character extension. -/
theorem empty_payload_field (se : EncodeLocals) (MAGIC_STRING src_image : List Nat)
    (encInfo : EncodeInfo)
    (hm : MAGIC_STRING.length = 2) (hmc : ∀ c ∈ MAGIC_STRING, c < 256)
    (hEc : ∀ c ∈ encInfo.extn_secret_file, c < 256)
    (hE4 : encInfo.extn_secret_file.length = 4)
    (hcap : (check_capacity se.width se.height MAGIC_STRING
      (open_files src_image [] encInfo).2).1 = Status.e_success)
    (hlen : 166 ≤ src_image.length) :
    (do_encoding se MAGIC_STRING src_image [] encInfo).1 = Status.e_success ∧
    decode_size_from_lsb
      (((do_encoding se MAGIC_STRING src_image [] encInfo).2.fptr_stego_image.drop 134).take 32)
      = 0 ∧
    (do_encoding se MAGIC_STRING src_image [] encInfo).2.fptr_stego_image.drop 166
      = src_image.drop 166 := by
  have hE31 : encInfo.extn_secret_file.length < 2 ^ 31 := by rw [hE4]; norm_num
  obtain ⟨henc, hstego⟩ := do_encoding_eq se MAGIC_STRING src_image [] encInfo hm
    hmc hEc hE31 (by norm_num)
    (fun b hb => absurd hb (List.not_mem_nil b)) hcap (by rw [hE4]; simpa using hlen)
  have h54 : (src_image.take 54).length = 54 := by rw [List.length_take]; omega
  have l0 : (embed_bytes MAGIC_STRING (src_image.drop 54)).length = 16 := by
    rw [embed_bytes_length _ _ hmc (by rw [List.length_drop]; omega), hm]
  have l1 := encode_size_take_length encInfo.extn_secret_file.length (src_image.drop 70)
    (by rw [List.length_drop]; omega)
  have l2 := embed_bytes_length encInfo.extn_secret_file (src_image.drop 102)
    hEc (by rw [List.length_drop, hE4]; omega)
  have l3 := encode_size_take_length ([] : List Nat).length
    (src_image.drop (102 + 8 * encInfo.extn_secret_file.length))
    (by rw [List.length_drop, hE4]; omega)
  generalize (do_encoding se MAGIC_STRING src_image [] encInfo).2.fptr_stego_image = stego
    at hstego ⊢
  have v0 := congrArg (List.drop 54) hstego
  rw [List.drop_left' h54] at v0
  have v1 := view_next _ 54 _ _ 16 v0 l0
  have v2 := view_next _ (54 + 16) _ _ 32 v1 l1
  have v3 := view_next_at _ (54 + 16 + 32) _ _ _ v2 l2 134 (by omega)
  have v4 := view_next_at _ 134 _ _ 32 v3 l3 166 (by omega)
  refine ⟨henc, ?_, ?_⟩
  · rw [view_take _ 134 _ _ 32 v3 l3, size_roundtrip _ _ (by
      rw [List.length_take, List.length_drop, hE4]; omega)]
    simp only [List.length_nil, Nat.zero_mod]
  · rw [v4]
    simp only [embed_bytes, List.nil_append, List.length_nil, Nat.mul_zero, Nat.add_zero]
    have e : 134 + 8 * encInfo.extn_secret_file.length = 166 := by omega
    rw [e]

/-- C15. Empty payload: on a carrier that passes `check_capacity` and holds
the 166 bytes of the header and of the frame, `do_encoding` of a zero-length
payload with extension ".txt" succeeds, the payload-length field at offsets
134 to 165 decodes to 0 and the carrier bytes from offset 166 on are copied
unchanged; `do_decoding` of the result succeeds, writes nothing to the output
stream and recovers the extension ".txt". -/
theorem C15_empty_payload (se : EncodeLocals) (sd : DecodeLocals)
    (MAGIC_STRING src_image : List Nat) (encInfo : EncodeInfo)
    (hm : MAGIC_STRING.length = 2) (hmc : ∀ c ∈ MAGIC_STRING, c ≠ 0 ∧ c < 256)
    (hext : encInfo.extn_secret_file = [46, 116, 120, 116])
    (hcap : (check_capacity se.width se.height MAGIC_STRING
      (open_files src_image [] encInfo).2).1 = Status.e_success)
    (hlen : 166 ≤ src_image.length) :
    (do_encoding se MAGIC_STRING src_image [] encInfo).1 = Status.e_success ∧
    decode_size_from_lsb
      (((do_encoding se MAGIC_STRING src_image [] encInfo).2.fptr_stego_image.drop 134).take 32)
      = 0 ∧
    (do_encoding se MAGIC_STRING src_image [] encInfo).2.fptr_stego_image.drop 166
      = src_image.drop 166 ∧
    (do_decoding sd MAGIC_STRING
      ⟨⟨(do_encoding se MAGIC_STRING src_image [] encInfo).2.fptr_stego_image, 0⟩, [], []⟩).1
      = Status.e_success ∧
    (do_decoding sd MAGIC_STRING
      ⟨⟨(do_encoding se MAGIC_STRING src_image [] encInfo).2.fptr_stego_image, 0⟩, [], []⟩).2.fptr_output
      = [] ∧
    string_at (do_decoding sd MAGIC_STRING
      ⟨⟨(do_encoding se MAGIC_STRING src_image [] encInfo).2.fptr_stego_image, 0⟩, [], []⟩).2.file_extn
      MAX_SECRET_EXT 0 = some [46, 116, 120, 116] := by
  have hEc : ∀ c ∈ encInfo.extn_secret_file, c ≠ 0 ∧ c < 256 := by
    rw [hext]; decide
  have hE4 : encInfo.extn_secret_file.length = 4 := by rw [hext]; rfl
  have hE31 : encInfo.extn_secret_file.length < 2 ^ 31 := by rw [hE4]; norm_num
  obtain ⟨henc, hfield, htail⟩ := empty_payload_field se MAGIC_STRING src_image encInfo hm
    (fun c hc => (hmc c hc).2) (fun c hc => (hEc c hc).2) hE4 hcap hlen
  have hdec := do_decoding_of_encoding se sd MAGIC_STRING src_image [] encInfo hm hmc hE31
    (fun c hc => (hEc c hc).2) (by norm_num) (fun b hb => absurd hb (List.not_mem_nil b)) hcap
    (by rw [hE4]; simpa using hlen)
  have hs := string_at_stores encInfo.extn_secret_file [] (fun c hc => (hEc c hc).1)
    MAX_SECRET_EXT 0 (Nat.zero_le _) (by rw [hE4]; decide)
  rw [List.drop_zero, hext] at hs
  refine ⟨henc, hfield, htail, ?_, ?_, ?_⟩
  · rw [hdec]
  · rw [hdec]
  · rw [hdec, hext]
    exact hs

theorem C15_empty_payload_witness :
    (do_encoding enc_locals_zero [35, 42] carrier_10x10 [] txt_info).1 = Status.e_success ∧
    decode_size_from_lsb
      (((do_encoding enc_locals_zero [35, 42] carrier_10x10 [] txt_info).2.fptr_stego_image.drop
        134).take 32) = 0 ∧
    (do_encoding enc_locals_zero [35, 42] carrier_10x10 [] txt_info).2.fptr_stego_image.drop 166
      = carrier_10x10.drop 166 ∧
    (do_decoding dec_locals_zero [35, 42]
      ⟨⟨(do_encoding enc_locals_zero [35, 42] carrier_10x10 [] txt_info).2.fptr_stego_image, 0⟩,
        [], []⟩).1 = Status.e_success ∧
    (do_decoding dec_locals_zero [35, 42]
      ⟨⟨(do_encoding enc_locals_zero [35, 42] carrier_10x10 [] txt_info).2.fptr_stego_image, 0⟩,
        [], []⟩).2.fptr_output = [] ∧
    string_at (do_decoding dec_locals_zero [35, 42]
      ⟨⟨(do_encoding enc_locals_zero [35, 42] carrier_10x10 [] txt_info).2.fptr_stego_image, 0⟩,
        [], []⟩).2.file_extn MAX_SECRET_EXT 0 = some [46, 116, 120, 116] :=
  C15_empty_payload enc_locals_zero dec_locals_zero [35, 42] carrier_10x10 txt_info
    (by decide) (by decide) (by decide) (by decide) (by decide)

/-! ## The extension is not validated by the encoder -/

/-- The bits of the frame written by `do_encoding` past the capacity check. -/
theorem frame_written (stack : EncodeLocals) (MAGIC_STRING src_image P : List Nat)
    (encInfo : EncodeInfo)
    (hm : MAGIC_STRING.length = 2) (hmc : ∀ c ∈ MAGIC_STRING, c < 256)
    (hEc : ∀ c ∈ encInfo.extn_secret_file, c < 256)
    (hE : encInfo.extn_secret_file.length < 2 ^ 31)
    (hP : P.length < 2 ^ 32) (hPc : ∀ b ∈ P, b < 256)
    (hcap : (check_capacity stack.width stack.height MAGIC_STRING
      (open_files src_image P encInfo).2).1 = Status.e_success)
    (hlen : 54 + 8 * (2 + 4 + encInfo.extn_secret_file.length + 4 + P.length)
      ≤ src_image.length) :
    lsbs (((do_encoding stack MAGIC_STRING src_image P encInfo).2.fptr_stego_image.drop 54).take
        (8 * (2 + 4 + encInfo.extn_secret_file.length + 4 + P.length)))
      = frame_bits MAGIC_STRING encInfo.extn_secret_file P := by
  obtain ⟨_, hstego⟩ := do_encoding_eq stack MAGIC_STRING src_image P encInfo hm hmc hEc hE hP
    hPc hcap hlen
  have h54 : (src_image.take 54).length = 54 := by rw [List.length_take]; omega
  have l0 : (embed_bytes MAGIC_STRING (src_image.drop 54)).length = 16 := by
    rw [embed_bytes_length _ _ hmc (by rw [List.length_drop]; omega), hm]
  have l1 := encode_size_take_length encInfo.extn_secret_file.length (src_image.drop 70)
    (by rw [List.length_drop]; omega)
  have l2 := embed_bytes_length encInfo.extn_secret_file (src_image.drop 102) hEc
    (by rw [List.length_drop]; omega)
  have l3 := encode_size_take_length P.length
    (src_image.drop (102 + 8 * encInfo.extn_secret_file.length))
    (by rw [List.length_drop]; omega)
  have l4 := embed_bytes_length P (src_image.drop (134 + 8 * encInfo.extn_secret_file.length))
    hPc (by rw [List.length_drop]; omega)
  rw [hstego, List.drop_left' h54]
  simp only [← List.append_assoc]
  rw [List.take_left' (by simp only [List.length_append, l0, l1, l2, l3, l4]; omega)]
  simp only [lsbs_append, frame_bits]
  rw [lsbs_embed_bytes _ _ hmc (by rw [List.length_drop]; omega),
    lsbs_embed_bytes _ _ hEc (by rw [List.length_drop]; omega),
    lsbs_embed_bytes _ _ hPc (by rw [List.length_drop]; omega),
    lsbs_encode_size _ _ (by rw [List.length_take, List.length_drop]; omega),
    lsbs_encode_size _ _ (by rw [List.length_take, List.length_drop]; omega)]

/-- C16, counterexample: invoked with an empty extension string on a carrier
that has room for the frame, `do_encoding` returns success and writes the
frame of the empty extension and the payload. -/
theorem C16_counterexample :
    no_ext_info.extn_secret_file = [] ∧
    (do_encoding enc_locals_zero [35, 42] carrier_10x10 [104, 105] no_ext_info).1
      = Status.e_success ∧
    lsbs (((do_encoding enc_locals_zero [35, 42] carrier_10x10 [104, 105]
        no_ext_info).2.fptr_stego_image.drop 54).take (8 * (2 + 4 + 0 + 4 + 2)))
      = frame_bits [35, 42] [] [104, 105] := by
  decide

/-- C16, amended: `do_encoding` does not validate the extension. Invoked with
an empty extension string it returns the status of `check_capacity`; when that
is success and the carrier holds at least `54 + 8 * (2 + 4 + 0 + 4 + len(P))`
bytes, it writes the frame whose extension-length field is 0 and that has no
extension bytes. -/
theorem C16_empty_extension_accepted (stack : EncodeLocals)
    (MAGIC_STRING src_image P : List Nat) (encInfo : EncodeInfo)
    (hext : encInfo.extn_secret_file = []) :
    (do_encoding stack MAGIC_STRING src_image P encInfo).1
      = (check_capacity stack.width stack.height MAGIC_STRING
          (open_files src_image P encInfo).2).1 ∧
    (MAGIC_STRING.length = 2 → (∀ c ∈ MAGIC_STRING, c < 256) →
      P.length < 2 ^ 32 → (∀ b ∈ P, b < 256) →
      (check_capacity stack.width stack.height MAGIC_STRING
        (open_files src_image P encInfo).2).1 = Status.e_success →
      54 + 8 * (2 + 4 + 0 + 4 + P.length) ≤ src_image.length →
      lsbs (((do_encoding stack MAGIC_STRING src_image P encInfo).2.fptr_stego_image.drop 54).take
          (8 * (2 + 4 + 0 + 4 + P.length)))
        = frame_bits MAGIC_STRING [] P) := by
  refine ⟨do_encoding_status stack MAGIC_STRING src_image P encInfo, ?_⟩
  intro hm hmc hP hPc hcap hlen
  have h := frame_written stack MAGIC_STRING src_image P encInfo hm hmc
    (by rw [hext]; intro c hc; exact absurd hc (List.not_mem_nil c))
    (by rw [hext]; norm_num) hP hPc hcap (by rw [hext]; exact hlen)
  rw [hext] at h
  exact h

theorem C16_empty_extension_accepted_witness :
    (do_encoding enc_locals_zero [35, 42] carrier_10x10 [104, 105] no_ext_info).1
      = (check_capacity enc_locals_zero.width enc_locals_zero.height [35, 42]
          (open_files carrier_10x10 [104, 105] no_ext_info).2).1 ∧
    lsbs (((do_encoding enc_locals_zero [35, 42] carrier_10x10 [104, 105]
        no_ext_info).2.fptr_stego_image.drop 54).take (8 * (2 + 4 + 0 + 4 + [104, 105].length)))
      = frame_bits [35, 42] [] [104, 105] :=
  ⟨(C16_empty_extension_accepted enc_locals_zero [35, 42] carrier_10x10 [104, 105] no_ext_info
      rfl).1,
    (C16_empty_extension_accepted enc_locals_zero [35, 42] carrier_10x10 [104, 105] no_ext_info
      rfl).2 (by decide) (by decide) (by decide) (by decide) (by decide) (by decide)⟩

/-! ## Bit order of the two byte primitives -/

/-- C17. Bit order of `encode_byte_to_lsb`: for every byte value, also one
with the top bit set (negative as a `char`), and every 8-byte carrier buffer,
the least-significant bit of carrier byte `i` after the call is bit `7 - i` of
the value, for `i` from 0 to 7. -/
theorem C17_bit_order (value : Nat) (buf : List Nat) (hv : value < 256) (hlen : buf.length = 8)
    (i : Nat) (hi : i < 8) :
    (encode_byte_to_lsb value buf).getD i 0 % 2 = bit_at value (7 - i) := by
  rw [encode_byte_to_lsb_eq value buf hv (by omega), getD_map_range_append _ 8 _ i hi]
  have := bit_at_lt value (7 - i)
  omega

theorem C17_bit_order_witness :
    (encode_byte_to_lsb 0xA5 [255, 0, 17, 254, 128, 1, 2, 3]).getD 0 0 % 2 = bit_at 0xA5 (7 - 0) ∧
    (encode_byte_to_lsb 0xA5 [255, 0, 17, 254, 128, 1, 2, 3]).getD 6 0 % 2 = bit_at 0xA5 (7 - 6) :=
  ⟨C17_bit_order 0xA5 [255, 0, 17, 254, 128, 1, 2, 3] (by decide) (by decide) 0 (by decide),
    C17_bit_order 0xA5 [255, 0, 17, 254, 128, 1, 2, 3] (by decide) (by decide) 6 (by decide)⟩

/-- C18. Reference definition of `decode_byte_from_lsb`: for every 8-byte
carrier buffer the result is the sum, for `i` from 0 to 7, of the
least-significant bit of carrier byte `i` shifted left by `7 - i`. -/
theorem C18_decode_is_sum (buf : List Nat) (_hlen : buf.length = 8) :
    decode_byte_from_lsb buf
      = ((List.range 8).map (fun i => (buf.getD i 0 % 2) <<< (7 - i))).sum := by
  rw [decode_byte_from_lsb_eq]
  simp only [List.range, List.range.loop, List.foldl_cons, List.foldl_nil, List.map_cons,
    List.map_nil, List.sum_cons, List.sum_nil, Nat.shiftLeft_eq]
  have h0 := Nat.mod_lt (buf.getD 0 0) (by norm_num : 2 > 0)
  have h1 := Nat.mod_lt (buf.getD 1 0) (by norm_num : 2 > 0)
  have h2 := Nat.mod_lt (buf.getD 2 0) (by norm_num : 2 > 0)
  have h3 := Nat.mod_lt (buf.getD 3 0) (by norm_num : 2 > 0)
  have h4 := Nat.mod_lt (buf.getD 4 0) (by norm_num : 2 > 0)
  have h5 := Nat.mod_lt (buf.getD 5 0) (by norm_num : 2 > 0)
  have h6 := Nat.mod_lt (buf.getD 6 0) (by norm_num : 2 > 0)
  have h7 := Nat.mod_lt (buf.getD 7 0) (by norm_num : 2 > 0)
  generalize buf.getD 0 0 % 2 = b0 at h0 ⊢
  generalize buf.getD 1 0 % 2 = b1 at h1 ⊢
  generalize buf.getD 2 0 % 2 = b2 at h2 ⊢
  generalize buf.getD 3 0 % 2 = b3 at h3 ⊢
  generalize buf.getD 4 0 % 2 = b4 at h4 ⊢
  generalize buf.getD 5 0 % 2 = b5 at h5 ⊢
  generalize buf.getD 6 0 % 2 = b6 at h6 ⊢
  generalize buf.getD 7 0 % 2 = b7 at h7 ⊢
  norm_num
  omega

theorem C18_decode_is_sum_witness :
    decode_byte_from_lsb [255, 0, 17, 254, 128, 1, 2, 3]
      = ((List.range 8).map
          (fun i => ([255, 0, 17, 254, 128, 1, 2, 3].getD i 0 % 2) <<< (7 - i))).sum :=
  C18_decode_is_sum [255, 0, 17, 254, 128, 1, 2, 3] (by decide)

/-! ## Decoding a stream that holds all the bytes it announces -/

theorem decode_size_bound (buf : List Nat) : ∀ k ≤ 32,
    (List.range k).foldl (fun v i => (2 * v) % 2 ^ 64 + buf.getD i 0 % 2) 0 < 2 ^ k := by
  intro k
  induction k with
  | zero => intro _; simp
  | succ k ih =>
    intro hk
    rw [List.range_succ, List.foldl_append]
    simp only [List.foldl_cons, List.foldl_nil]
    have h := ih (by omega)
    generalize (List.range k).foldl (fun v i => (2 * v) % 2 ^ 64 + buf.getD i 0 % 2) 0 = v at h
    have hle : (2 : Nat) ^ k ≤ 2 ^ 31 := Nat.pow_le_pow_right (by norm_num) (by omega)
    have e : (2 : Nat) ^ (k + 1) = 2 * 2 ^ k := by rw [Nat.pow_succ, Nat.mul_comm]
    have h31 : (2 : Nat) ^ 31 = 2147483648 := by norm_num
    have h64 : (2 : Nat) ^ 64 = 18446744073709551616 := by norm_num
    rw [e]
    omega

theorem decode_size_lt (buf : List Nat) : decode_size_from_lsb buf < 2 ^ 32 := by
  rw [decode_size_from_lsb_eq]
  exact decode_size_bound buf 32 (Nat.le_refl _)

theorem decode_groups_length : ∀ (n : Nat) (l : List Nat), (decode_groups n l).length = n := by
  intro n
  induction n with
  | zero => intro _; rfl
  | succ n ih => intro l; simp only [decode_groups, List.length_cons, ih]

theorem decode_groups_eq_map : ∀ (n : Nat) (l : List Nat),
    decode_groups n l
      = (List.range n).map (fun k => decode_byte_from_lsb ((l.drop (8 * k)).take 8)) := by
  intro n
  induction n with
  | zero => intro _; rfl
  | succ n ih =>
    intro l
    rw [List.range_succ_eq_map]
    simp only [decode_groups, List.map_cons, List.map_map, Nat.mul_zero, List.drop_zero, ih]
    congr 1
    apply List.map_congr_left
    intro k _
    simp only [Function.comp, List.drop_drop]
    have e : 8 + 8 * k = 8 * (k + 1) := by omega
    rw [e]

/-- The loop of `decode_secret_extn` when the stream holds the `8 * n` bytes it reads. -/
theorem decode_secret_extn_loop_full :
    ∀ (n k : Nat) (buf : List Nat) (decInfo : DecodeInfo),
      decInfo.fptr_stego_image.pos + 8 * n ≤ decInfo.fptr_stego_image.data.length →
      ((List.range' k n).foldl
        (fun (st : List Nat × DecodeInfo) (i : Nat) =>
          let r := fread st.1 8 1 st.2.fptr_stego_image
          (r.2.1,
            { st.2 with
              fptr_stego_image := r.2.2
              file_extn := ((i : Int), decode_byte_from_lsb r.2.1) :: st.2.file_extn }))
        (buf, decInfo)).2
        = { decInfo with
            fptr_stego_image := ⟨decInfo.fptr_stego_image.data,
              decInfo.fptr_stego_image.pos + 8 * n⟩
            file_extn := stores k
              (decode_groups n (decInfo.fptr_stego_image.data.drop decInfo.fptr_stego_image.pos))
              decInfo.file_extn } := by
  intro n
  induction n with
  | zero => intro k buf decInfo _; simp [stores, decode_groups]
  | succ n ih =>
    intro k buf decInfo hlen
    obtain ⟨⟨data, pos⟩, out, extn⟩ := decInfo
    simp only at hlen
    have hl := length_take_drop data pos 8 (by omega)
    simp only [List.range'_succ, List.foldl_cons, fread_at buf 8 1 data pos (by omega),
      Nat.mul_one, decode_byte_append _ (buf.drop 8) (Nat.le_of_eq hl.symm)]
    rw [ih (k + 1) _ _ (by simp only []; omega)]
    simp only [stores, decode_groups, List.drop_drop]
    have e : pos + 8 + 8 * n = pos + 8 * (n + 1) := by omega
    rw [e]

/-- The loop of `decode_secret_file_data` when the stream holds the `8 * n` bytes it reads. -/
theorem decode_secret_file_data_loop_full :
    ∀ (n k : Nat) (buf : List Nat) (decInfo : DecodeInfo),
      decInfo.fptr_stego_image.pos + 8 * n ≤ decInfo.fptr_stego_image.data.length →
      ((List.range' k n).foldl
        (fun (st : List Nat × DecodeInfo) (_ : Nat) =>
          let r := fread st.1 8 1 st.2.fptr_stego_image
          let ch := decode_byte_from_lsb r.2.1
          (r.2.1,
            { st.2 with
              fptr_stego_image := r.2.2
              fptr_output := fwrite [ch] 1 1 st.2.fptr_output }))
        (buf, decInfo)).2
        = { decInfo with
            fptr_stego_image := ⟨decInfo.fptr_stego_image.data,
              decInfo.fptr_stego_image.pos + 8 * n⟩
            fptr_output := decInfo.fptr_output
              ++ decode_groups n
                  (decInfo.fptr_stego_image.data.drop decInfo.fptr_stego_image.pos) } := by
  intro n
  induction n with
  | zero => intro k buf decInfo _; simp [decode_groups]
  | succ n ih =>
    intro k buf decInfo hlen
    obtain ⟨⟨data, pos⟩, out, extn⟩ := decInfo
    simp only at hlen
    have hl := length_take_drop data pos 8 (by omega)
    simp only [List.range'_succ, List.foldl_cons, fread_at buf 8 1 data pos (by omega),
      Nat.mul_one, decode_byte_append _ (buf.drop 8) (Nat.le_of_eq hl.symm)]
    rw [ih (k + 1) _ _ (by simp only []; omega)]
    simp only [fwrite, Nat.mul_one, List.take_succ_cons, List.take_zero, List.append_assoc,
      List.singleton_append, decode_groups, List.drop_drop]
    have e : pos + 8 + 8 * n = pos + 8 * (n + 1) := by omega
    rw [e]

theorem decode_secret_extn_size_at (buf data : List Nat) (pos : Nat) (out : List Nat)
    (extn : List (Int × Nat)) (h : pos + 32 ≤ data.length) :
    decode_secret_extn_size buf ⟨⟨data, pos⟩, out, extn⟩
      = (Status.e_success, ⟨⟨data, pos + 32⟩, out, extn⟩,
          long_to_int (decode_size_from_lsb ((data.drop pos).take 32))) := by
  have hl := length_take_drop data pos 32 h
  unfold decode_secret_extn_size
  simp only [fread_at buf 32 1 data pos (by omega), Nat.mul_one,
    decode_size_append _ (buf.drop 32) (Nat.le_of_eq hl.symm)]

theorem decode_secret_file_size_at (buf data : List Nat) (pos : Nat) (out : List Nat)
    (extn : List (Int × Nat)) (h : pos + 32 ≤ data.length) :
    decode_secret_file_size buf ⟨⟨data, pos⟩, out, extn⟩
      = (Status.e_success, ⟨⟨data, pos + 32⟩, out, extn⟩,
          decode_size_from_lsb ((data.drop pos).take 32)) := by
  have hl := length_take_drop data pos 32 h
  unfold decode_secret_file_size
  simp only [fread_at buf 32 1 data pos (by omega), Nat.mul_one,
    decode_size_append _ (buf.drop 32) (Nat.le_of_eq hl.symm)]

theorem decode_secret_extn_at (buf data : List Nat) (pos : Nat) (out : List Nat)
    (extn : List (Int × Nat)) (es : Nat)
    (h : pos + 8 * (int_val es).toNat ≤ data.length) :
    decode_secret_extn buf ⟨⟨data, pos⟩, out, extn⟩ es
      = (Status.e_success,
          ⟨⟨data, pos + 8 * (int_val es).toNat⟩, out,
            (int_val es, 0) :: stores 0 (decode_groups (int_val es).toNat (data.drop pos)) extn⟩) := by
  unfold decode_secret_extn
  simp only [List.range_eq_range']
  rw [decode_secret_extn_loop_full _ 0 buf _ h]

theorem decode_secret_file_data_at (buf data : List Nat) (pos : Nat) (out : List Nat)
    (extn : List (Int × Nat)) (n : Nat) (hn : n < 2 ^ 63) (h : pos + 8 * n ≤ data.length) :
    decode_secret_file_data buf ⟨⟨data, pos⟩, out, extn⟩ n
      = (Status.e_success,
          ⟨⟨data, pos + 8 * n⟩, out ++ decode_groups n (data.drop pos), extn⟩) := by
  unfold decode_secret_file_data
  simp only [if_pos hn, List.range_eq_range']
  rw [decode_secret_file_data_loop_full _ 0 buf _ h]

/-- The outcome of `do_decoding` on a stream that holds every byte of the
frame that its two length fields announce. -/
theorem do_decoding_full (stack : DecodeLocals) (MAGIC_STRING data : List Nat) (pos : Nat)
    (out : List Nat) (extn : List (Int × Nat))
    (hlen : payload_field_offset data + 32 + 8 * payload_length_field data ≤ data.length) :
    do_decoding stack MAGIC_STRING ⟨⟨data, pos⟩, out, extn⟩
      = if c_str [decode_byte_from_lsb ((data.drop 54).take 8),
                  decode_byte_from_lsb ((data.drop 62).take 8), 0] = MAGIC_STRING
        then (Status.e_success,
          ⟨⟨data, payload_field_offset data + 32 + 8 * payload_length_field data⟩,
            out ++ decode_groups (payload_length_field data)
              (data.drop (payload_field_offset data + 32)),
            (int_val (long_to_int (decode_size_from_lsb ((data.drop 70).take 32))), 0)
              :: stores 0 (decode_groups (extn_count data) (data.drop 102)) extn⟩)
        else (Status.e_failure, ⟨⟨data, 70⟩, out, extn⟩) := by
  have hq : payload_field_offset data = 102 + 8 * extn_count data := rfl
  have hn63 : payload_length_field data < 2 ^ 63 := by
    have := decode_size_lt ((data.drop (payload_field_offset data)).take 32)
    have e : (2 : Nat) ^ 32 < 2 ^ 63 := by norm_num
    unfold payload_length_field
    omega
  unfold do_decoding
  rw [decode_magic_string_eq _ _ _ (by simp only []; omega)]
  simp only []
  split
  · simp only [reduceCtorEq, if_false]
    rw [decode_secret_extn_size_at _ data 70 out extn (by omega)]
    simp only [reduceCtorEq, if_false]
    rw [decode_secret_extn_at _ data (70 + 32) out extn _ (by
      have : (int_val (long_to_int (decode_size_from_lsb ((data.drop 70).take 32)))).toNat
          = extn_count data := rfl
      rw [this]; omega)]
    simp only [reduceCtorEq, if_false]
    have e1 : 70 + 32 + 8 * (int_val (long_to_int
        (decode_size_from_lsb ((data.drop 70).take 32)))).toNat = payload_field_offset data := rfl
    rw [e1, decode_secret_file_size_at _ data (payload_field_offset data) out _ (by omega)]
    simp only [reduceCtorEq, if_false]
    have e2 : decode_size_from_lsb ((data.drop (payload_field_offset data)).take 32)
        = payload_length_field data := rfl
    rw [e2, decode_secret_file_data_at _ data (payload_field_offset data + 32) out _ _ hn63 hlen]
    rfl
  · simp only [if_true]

/-! ## The decoder on a stream that ends early -/

/-- Each iteration of the loop of `decode_secret_file_data` appends one byte to
the output and leaves the stream contents and the stores of `file_extn` as
they are, whatever the stream holds. -/
theorem decode_secret_file_data_loop_grows :
    ∀ (l : List Nat) (st : List Nat × DecodeInfo),
      (l.foldl
        (fun (st : List Nat × DecodeInfo) (_ : Nat) =>
          let r := fread st.1 8 1 st.2.fptr_stego_image
          let ch := decode_byte_from_lsb r.2.1
          (r.2.1,
            { st.2 with
              fptr_stego_image := r.2.2
              fptr_output := fwrite [ch] 1 1 st.2.fptr_output }))
        st).2.file_extn = st.2.file_extn ∧
      (l.foldl
        (fun (st : List Nat × DecodeInfo) (_ : Nat) =>
          let r := fread st.1 8 1 st.2.fptr_stego_image
          let ch := decode_byte_from_lsb r.2.1
          (r.2.1,
            { st.2 with
              fptr_stego_image := r.2.2
              fptr_output := fwrite [ch] 1 1 st.2.fptr_output }))
        st).2.fptr_output.length = st.2.fptr_output.length + l.length ∧
      (l.foldl
        (fun (st : List Nat × DecodeInfo) (_ : Nat) =>
          let r := fread st.1 8 1 st.2.fptr_stego_image
          let ch := decode_byte_from_lsb r.2.1
          (r.2.1,
            { st.2 with
              fptr_stego_image := r.2.2
              fptr_output := fwrite [ch] 1 1 st.2.fptr_output }))
        st).2.fptr_output.take st.2.fptr_output.length = st.2.fptr_output := by
  intro l
  induction l with
  | nil => intro st; simp
  | cons a l ih =>
    intro st
    simp only [List.foldl_cons]
    obtain ⟨h1, h2, h3⟩ := ih
      ((fread st.1 8 1 st.2.fptr_stego_image).2.1,
        { st.2 with
          fptr_stego_image := (fread st.1 8 1 st.2.fptr_stego_image).2.2
          fptr_output := fwrite [decode_byte_from_lsb (fread st.1 8 1 st.2.fptr_stego_image).2.1]
            1 1 st.2.fptr_output })
    have hw : ∀ (c : Nat) (o : List Nat), fwrite [c] 1 1 o = o ++ [c] := by
      intro c o; simp [fwrite]
    simp only [hw] at h1 h2 h3 ⊢
    refine ⟨h1, ?_, ?_⟩
    · rw [h2]; simp only [List.length_append, List.length_singleton, List.length_cons,
        List.length_nil]; omega
    · have := congrArg (List.take st.2.fptr_output.length) h3
      rw [List.take_take] at this
      simp only [List.length_append, List.length_singleton] at this
      rw [Nat.min_eq_left (by omega)] at this
      rw [this, List.take_left']
      rfl

/-- Function `decode_secret_file_data` on a stream that holds the first `m` of the
`n` groups it reads: `n` bytes are appended to the output, and the first `m`
of them are the decodings of those groups. -/
theorem decode_secret_file_data_cut (buf data : List Nat) (pos : Nat) (out : List Nat)
    (extn : List (Int × Nat)) (n m : Nat) (hn : n < 2 ^ 63) (hm : m ≤ n)
    (h : pos + 8 * m ≤ data.length) :
    (decode_secret_file_data buf ⟨⟨data, pos⟩, out, extn⟩ n).2.fptr_output.length
      = out.length + n ∧
    (decode_secret_file_data buf ⟨⟨data, pos⟩, out, extn⟩ n).2.fptr_output.take (out.length + m)
      = out ++ decode_groups m (data.drop pos) ∧
    (decode_secret_file_data buf ⟨⟨data, pos⟩, out, extn⟩ n).2.file_extn = extn := by
  unfold decode_secret_file_data
  have e : List.range' 0 n = List.range' 0 m ++ List.range' m (n - m) := by
    have := List.range'_append 0 m (n - m) 1
    simp only [Nat.one_mul, Nat.zero_add] at this
    rw [this]
    congr 1
    omega
  simp only [if_pos hn, List.range_eq_range', e, List.foldl_append]
  have hfull := decode_secret_file_data_loop_full m 0 buf ⟨⟨data, pos⟩, out, extn⟩ h
  obtain ⟨h1, h2, h3⟩ := decode_secret_file_data_loop_grows (List.range' m (n - m))
    ((List.range' 0 m).foldl
        (fun (st : List Nat × DecodeInfo) (_ : Nat) =>
          let r := fread st.1 8 1 st.2.fptr_stego_image
          let ch := decode_byte_from_lsb r.2.1
          (r.2.1,
            { st.2 with
              fptr_stego_image := r.2.2
              fptr_output := fwrite [ch] 1 1 st.2.fptr_output }))
        (buf, ⟨⟨data, pos⟩, out, extn⟩))
  rw [hfull] at h1 h2 h3
  simp only [List.length_append, decode_groups_length, List.length_range'] at h1 h2 h3
  refine ⟨?_, h3, h1⟩
  rw [h2]; omega

/-- The outcome of `do_decoding` on a stream that holds the frame through its
payload-length field: the payload loop runs on what is left of the stream. -/
theorem do_decoding_to_payload (stack : DecodeLocals) (MAGIC_STRING data : List Nat) (pos : Nat)
    (out : List Nat) (extn : List (Int × Nat))
    (hlen : payload_field_offset data + 32 ≤ data.length) :
    do_decoding stack MAGIC_STRING ⟨⟨data, pos⟩, out, extn⟩
      = if c_str [decode_byte_from_lsb ((data.drop 54).take 8),
                  decode_byte_from_lsb ((data.drop 62).take 8), 0] = MAGIC_STRING
        then (Status.e_success,
          (decode_secret_file_data stack.data_buffer
            ⟨⟨data, payload_field_offset data + 32⟩, out,
              (int_val (long_to_int (decode_size_from_lsb ((data.drop 70).take 32))), 0)
                :: stores 0 (decode_groups (extn_count data) (data.drop 102)) extn⟩
            (payload_length_field data)).2)
        else (Status.e_failure, ⟨⟨data, 70⟩, out, extn⟩) := by
  have hq : payload_field_offset data = 102 + 8 * extn_count data := rfl
  unfold do_decoding
  rw [decode_magic_string_eq _ _ _ (by simp only []; omega)]
  simp only []
  split
  · simp only [reduceCtorEq, if_false]
    rw [decode_secret_extn_size_at _ data 70 out extn (by omega)]
    simp only [reduceCtorEq, if_false]
    rw [decode_secret_extn_at _ data (70 + 32) out extn _ (by
      have : (int_val (long_to_int (decode_size_from_lsb ((data.drop 70).take 32)))).toNat
          = extn_count data := rfl
      rw [this]; omega)]
    simp only [reduceCtorEq, if_false]
    have e1 : 70 + 32 + 8 * (int_val (long_to_int
        (decode_size_from_lsb ((data.drop 70).take 32)))).toNat = payload_field_offset data := rfl
    rw [e1, decode_secret_file_size_at _ data (payload_field_offset data) out _ (by omega)]
    simp only [reduceCtorEq, if_false, decode_secret_file_data_status]
    rfl
  · simp only [if_true]

theorem payload_length_field_lt (data : List Nat) : payload_length_field data < 2 ^ 63 := by
  have := decode_size_lt ((data.drop (payload_field_offset data)).take 32)
  have e : (2 : Nat) ^ 32 < 2 ^ 63 := by norm_num
  unfold payload_length_field
  omega

/-- On a stream that ends before its payload-length field, the number of bytes
written is decoded from what the local buffer of `decode_secret_file_size`
held: the stream `stego_hi` cut at offset 134, where that field starts, gives
no byte with one initial buffer and one byte with another. -/
theorem payload_count_from_stale_buffer :
    (do_decoding dec_locals_zero [35, 42] ⟨⟨stego_hi.take 134, 0⟩, [], []⟩).1
      = Status.e_success ∧
    (do_decoding dec_locals_zero [35, 42] ⟨⟨stego_hi.take 134, 0⟩, [], []⟩).2.fptr_output.length
      = 0 ∧
    (do_decoding dec_locals_stale [35, 42] ⟨⟨stego_hi.take 134, 0⟩, [], []⟩).1
      = Status.e_success ∧
    (do_decoding dec_locals_stale [35, 42] ⟨⟨stego_hi.take 134, 0⟩, [], []⟩).2.fptr_output.length
      = 1 := by
  decide

/-! ## The payload written by the decoder -/

/-- C19, counterexample: `do_decoding` succeeds on the stream `stego_hi_cut`,
whose payload-length field holds 2 but which ends after one group of 8 carrier
bytes behind that field; two bytes are written, and the second is not the
decoding of a second group. -/
theorem C19_counterexample :
    (do_decoding dec_locals_zero [35, 42] ⟨⟨stego_hi_cut, 0⟩, [], []⟩).1 = Status.e_success ∧
    payload_length_field stego_hi_cut = 2 ∧
    stego_hi_cut.length - (payload_field_offset stego_hi_cut + 32) = 8 ∧
    (do_decoding dec_locals_zero [35, 42] ⟨⟨stego_hi_cut, 0⟩, [], []⟩).2.fptr_output
      ≠ (List.range (payload_length_field stego_hi_cut)).map
          (fun k => decode_byte_from_lsb
            ((stego_hi_cut.drop (payload_field_offset stego_hi_cut + 32 + 8 * k)).take 8)) := by
  decide

/-- C19, amended: for every stego stream on which `do_decoding` succeeds and
that holds the 32 carrier bytes of the payload-length field, the bytes written
to the output stream (appended behind what it held) are as many as the value
decoded from that field, and the `k`-th of them is the decoding of the `k`-th
group of 8 carrier bytes behind the field whenever the stream holds that group
in full. -/
theorem C19_payload_written (stack : DecodeLocals) (MAGIC_STRING data : List Nat) (pos : Nat)
    (out : List Nat) (extn : List (Int × Nat))
    (hs : (do_decoding stack MAGIC_STRING ⟨⟨data, pos⟩, out, extn⟩).1 = Status.e_success)
    (hfield : payload_field_offset data + 32 ≤ data.length) :
    (do_decoding stack MAGIC_STRING ⟨⟨data, pos⟩, out, extn⟩).2.fptr_output.take out.length
      = out ∧
    ((do_decoding stack MAGIC_STRING ⟨⟨data, pos⟩, out, extn⟩).2.fptr_output.drop
        out.length).length = payload_length_field data ∧
    ∀ k, k < payload_length_field data →
      payload_field_offset data + 32 + 8 * (k + 1) ≤ data.length →
      ((do_decoding stack MAGIC_STRING ⟨⟨data, pos⟩, out, extn⟩).2.fptr_output.drop
          out.length)[k]?
        = some (decode_byte_from_lsb
            ((data.drop (payload_field_offset data + 32 + 8 * k)).take 8)) := by
  have hto := do_decoding_to_payload stack MAGIC_STRING data pos out extn hfield
  rw [hto] at hs ⊢
  split at hs
  · rename_i hc
    rw [if_pos hc]
    simp only []
    have hn := payload_length_field_lt data
    obtain ⟨h1, h2, _⟩ := decode_secret_file_data_cut stack.data_buffer data
      (payload_field_offset data + 32) out
      ((int_val (long_to_int (decode_size_from_lsb ((data.drop 70).take 32))), 0)
        :: stores 0 (decode_groups (extn_count data) (data.drop 102)) extn)
      (payload_length_field data) 0 hn (Nat.zero_le _) (by omega)
    refine ⟨?_, ?_, ?_⟩
    · simpa [decode_groups] using h2
    · rw [List.length_drop, h1]; omega
    · intro k hk hg
      obtain ⟨_, h4, _⟩ := decode_secret_file_data_cut stack.data_buffer data
        (payload_field_offset data + 32) out
        ((int_val (long_to_int (decode_size_from_lsb ((data.drop 70).take 32))), 0)
          :: stores 0 (decode_groups (extn_count data) (data.drop 102)) extn)
        (payload_length_field data) (k + 1) hn hk (by omega)
      have h5 := congrArg (fun l => l[out.length + k]?) h4
      simp only [List.getElem?_take, List.getElem?_append_right (Nat.le_add_right _ _),
        Nat.add_sub_cancel_left] at h5
      rw [if_pos (by omega)] at h5
      rw [List.getElem?_drop, h5, decode_groups_eq_map, List.getElem?_map,
        List.getElem?_range (Nat.lt_succ_self k)]
      simp only [Option.map_some', List.drop_drop]
  · simp at hs

theorem C19_payload_written_witness :
    (do_decoding dec_locals_zero [35, 42] ⟨⟨stego_hi_cut, 0⟩, [], []⟩).1 = Status.e_success ∧
    payload_field_offset stego_hi_cut + 32 ≤ stego_hi_cut.length ∧
    (do_decoding dec_locals_zero [35, 42] ⟨⟨stego_hi_cut, 0⟩, [], []⟩).2.fptr_output.take
        ([] : List Nat).length = [] ∧
    ((do_decoding dec_locals_zero [35, 42] ⟨⟨stego_hi_cut, 0⟩, [], []⟩).2.fptr_output.drop
        ([] : List Nat).length).length = payload_length_field stego_hi_cut ∧
    ((do_decoding dec_locals_zero [35, 42] ⟨⟨stego_hi_cut, 0⟩, [], []⟩).2.fptr_output.drop
        ([] : List Nat).length)[0]?
      = some (decode_byte_from_lsb
          ((stego_hi_cut.drop (payload_field_offset stego_hi_cut + 32 + 8 * 0)).take 8)) :=
  have h := C19_payload_written dec_locals_zero [35, 42] stego_hi_cut 0 [] [] (by decide)
    (by decide)
  ⟨by decide, by decide, h.1, h.2.1, h.2.2 0 (by decide) (by decide)⟩

/-! ## Stores of the decoder on a stream that ends early -/

/-- Each iteration `i` of the loop of `decode_secret_extn` stores at index `i`
and leaves the output as it is, whatever the stream holds: behind the loop
over indices below `e`, every store is an earlier one or has its index in
`0 .. e - 1`. -/
theorem decode_secret_extn_loop_stores (e : Nat) (base : List (Int × Nat)) :
    ∀ (l : List Nat) (st : List Nat × DecodeInfo),
      (∀ i ∈ l, i < e) →
      (∀ w ∈ st.2.file_extn, w ∈ base ∨ (0 ≤ w.1 ∧ w.1 < (e : Int))) →
      (∀ w ∈ (l.foldl
        (fun (st : List Nat × DecodeInfo) (i : Nat) =>
          let r := fread st.1 8 1 st.2.fptr_stego_image
          (r.2.1,
            { st.2 with
              fptr_stego_image := r.2.2
              file_extn := ((i : Int), decode_byte_from_lsb r.2.1) :: st.2.file_extn }))
        st).2.file_extn, w ∈ base ∨ (0 ≤ w.1 ∧ w.1 < (e : Int))) ∧
      (l.foldl
        (fun (st : List Nat × DecodeInfo) (i : Nat) =>
          let r := fread st.1 8 1 st.2.fptr_stego_image
          (r.2.1,
            { st.2 with
              fptr_stego_image := r.2.2
              file_extn := ((i : Int), decode_byte_from_lsb r.2.1) :: st.2.file_extn }))
        st).2.fptr_output = st.2.fptr_output := by
  intro l
  induction l with
  | nil => intro st _ h; exact ⟨h, rfl⟩
  | cons a l ih =>
    intro st hl h
    simp only [List.foldl_cons]
    refine ih _ (fun i hi => hl i (List.mem_cons_of_mem _ hi)) ?_
    intro w hw
    simp only [List.mem_cons] at hw
    rcases hw with hw | hw
    · right
      have ha := hl a (List.mem_cons_self _ _)
      subst hw
      simp only []
      omega
    · exact h w hw

/-- Function `decode_secret_extn` with a length in `0 .. MAX_SECRET_EXT - 1`: every
store goes to a cell of `file_extn[MAX_SECRET_EXT]`, whatever the stream holds. -/
theorem decode_secret_extn_in_slot (buf : List Nat) (decInfo : DecodeInfo) (es : Nat)
    (h0 : 0 ≤ int_val es) (h9 : int_val es < MAX_SECRET_EXT) :
    (∀ w ∈ (decode_secret_extn buf decInfo es).2.file_extn,
      w ∈ decInfo.file_extn ∨ (0 ≤ w.1 ∧ w.1 < (MAX_SECRET_EXT : Int))) ∧
    (decode_secret_extn buf decInfo es).2.fptr_output = decInfo.fptr_output := by
  unfold decode_secret_extn
  obtain ⟨h1, h2⟩ := decode_secret_extn_loop_stores (int_val es).toNat decInfo.file_extn
    (List.range (int_val es).toNat) (buf, decInfo)
    (fun i hi => List.mem_range.mp hi) (fun w hw => Or.inl hw)
  refine ⟨?_, h2⟩
  intro w hw
  simp only [List.mem_cons] at hw
  rcases hw with hw | hw
  · right; subst hw; exact ⟨h0, h9⟩
  · rcases h1 w hw with hb | ⟨ha, hb⟩
    · exact Or.inl hb
    · right
      refine ⟨ha, ?_⟩
      have := Int.toNat_of_nonneg h0
      omega

theorem decode_secret_file_data_file_extn (buf : List Nat) (decInfo : DecodeInfo) (n : Nat) :
    (decode_secret_file_data buf decInfo n).2.file_extn = decInfo.file_extn := by
  unfold decode_secret_file_data
  exact (decode_secret_file_data_loop_grows _ (buf, decInfo)).1

/-- The stores of `do_decoding` on a stream that holds the extension-length
field, when the `int` decoded from that field is in `0 .. MAX_SECRET_EXT - 1`:
every store goes to a cell of `file_extn[MAX_SECRET_EXT]`, wherever the stream
ends behind the field. -/
theorem do_decoding_in_slot (stack : DecodeLocals) (MAGIC_STRING data : List Nat) (pos : Nat)
    (out : List Nat) (extn : List (Int × Nat))
    (hlen : 102 ≤ data.length)
    (h0 : 0 ≤ int_val (long_to_int (decode_size_from_lsb ((data.drop 70).take 32))))
    (h9 : int_val (long_to_int (decode_size_from_lsb ((data.drop 70).take 32)))
      < MAX_SECRET_EXT) :
    ∀ w ∈ (do_decoding stack MAGIC_STRING ⟨⟨data, pos⟩, out, extn⟩).2.file_extn,
      w ∈ extn ∨ (0 ≤ w.1 ∧ w.1 < (MAX_SECRET_EXT : Int)) := by
  unfold do_decoding
  rw [decode_magic_string_eq _ _ _ (by simp only []; omega)]
  simp only []
  split
  · simp only [reduceCtorEq, if_false]
    rw [decode_secret_extn_size_at _ data 70 out extn (by omega)]
    simp only [reduceCtorEq, if_false, decode_secret_extn_status,
      decode_secret_file_size_status, decode_secret_file_data_status,
      decode_secret_file_data_file_extn]
    exact (decode_secret_extn_in_slot stack.extn_buffer ⟨⟨data, 70 + 32⟩, out, extn⟩ _ h0 h9).1
  · simp only [if_true]
    intro w hw
    exact Or.inl hw

/-! ## The encoder on a carrier that ends early -/

/-- A read of `size * nmemb` bytes into a buffer that has room for them, from
a stream whose cursor is at offset `R` or at the end of a shorter stream: the
buffer keeps its length and the cursor moves to `R + size * nmemb` or to the
end of the stream. -/
theorem fread_short (ptr : List Nat) (size nmemb : Nat) (data : List Nat) (R : Nat)
    (hsz : size * nmemb ≤ ptr.length) :
    (fread ptr size nmemb ⟨data, min R data.length⟩).2.1.length = ptr.length ∧
    (fread ptr size nmemb ⟨data, min R data.length⟩).2.2
      = ⟨data, min (R + size * nmemb) data.length⟩ := by
  unfold fread
  simp only [List.length_append, List.length_take, List.length_drop, FILE.mk.injEq, true_and]
  omega

theorem foldl_set_length (g : List Nat → Nat → Nat) :
    ∀ (l : List Nat) (buf : List Nat),
      (l.foldl (fun buf i => buf.set i (g buf i)) buf).length = buf.length := by
  intro l
  induction l with
  | nil => intro buf; rfl
  | cons a l ih => intro buf; simp only [List.foldl_cons]; rw [ih, List.length_set]

theorem encode_byte_to_lsb_keeps_length (c : Nat) (buf : List Nat) :
    (encode_byte_to_lsb c buf).length = buf.length := by
  unfold encode_byte_to_lsb
  exact foldl_set_length _ _ _

theorem encode_size_to_lsb_keeps_length (v : Nat) (buf : List Nat) :
    (encode_size_to_lsb v buf).length = buf.length := by
  unfold encode_size_to_lsb
  exact foldl_set_length _ _ _

/-- One `fread`/`encode_byte_to_lsb`/`fwrite` step with an 8-byte buffer writes
8 bytes, however many bytes the carrier still holds. -/
theorem encode_byte_step_short (src : List Nat) (R c : Nat) (st : List Nat × EncodeInfo)
    (hb : st.1.length = 8) (hsrc : st.2.fptr_src_image = ⟨src, min R src.length⟩)
    (hst : st.2.fptr_stego_image.length = R) :
    (encode_byte_step c st).1.length = 8 ∧
    (encode_byte_step c st).2.fptr_src_image = ⟨src, min (R + 8) src.length⟩ ∧
    (encode_byte_step c st).2.fptr_stego_image.length = R + 8 ∧
    (encode_byte_step c st).2.fptr_secret = st.2.fptr_secret ∧
    (encode_byte_step c st).2.extn_secret_file = st.2.extn_secret_file ∧
    (encode_byte_step c st).2.size_secret_file = st.2.size_secret_file := by
  obtain ⟨buf, f, sec, stego, ext, cap, size⟩ := st
  simp only at hb hsrc hst
  obtain ⟨r1, r2⟩ := fread_short buf 8 1 src R (by omega)
  unfold encode_byte_step
  simp only [hsrc, r2, fwrite, Nat.mul_one, encode_byte_to_lsb_keeps_length, r1, hb,
    List.length_append, List.length_take, hst, Nat.min_self, and_self]

theorem encode_byte_step_at (src secret E : List Nat) (S R c : Nat) (st : List Nat × EncodeInfo)
    (hb : st.1.length = 8) (h : enc_at src secret E S R st.2) :
    (encode_byte_step c st).1.length = 8 ∧
    enc_at src secret E S (R + 8) (encode_byte_step c st).2 := by
  obtain ⟨h1, h2, h3, h4, h5⟩ := h
  obtain ⟨k0, k1, k2, k3, k4, k5⟩ := encode_byte_step_short src R c st hb h1 h2
  exact ⟨k0, k1, k2, k3.trans h3, k4.trans h4, k5.trans h5⟩

theorem encode_bytes_at (src secret E : List Nat) (S : Nat) :
    ∀ (cs : List Nat) (R : Nat) (st : List Nat × EncodeInfo),
      st.1.length = 8 → enc_at src secret E S R st.2 →
      (cs.foldl (fun st ch => encode_byte_step ch st) st).1.length = 8 ∧
      enc_at src secret E S (R + 8 * cs.length)
        (cs.foldl (fun st ch => encode_byte_step ch st) st).2 := by
  intro cs
  induction cs with
  | nil => intro R st hb h; exact ⟨hb, h⟩
  | cons c cs ih =>
    intro R st hb h
    obtain ⟨hb1, h1⟩ := encode_byte_step_at src secret E S R c st hb h
    have := ih (R + 8) (encode_byte_step c st) hb1 h1
    simp only [List.foldl_cons, List.length_cons]
    have e : R + 8 * (cs.length + 1) = R + 8 + 8 * cs.length := by omega
    rw [e]
    exact this

theorem encode_size_step_at (src secret E : List Nat) (S R v : Nat) (buf : List Nat)
    (encInfo : EncodeInfo) (hb : buf.length = 32) (h : enc_at src secret E S R encInfo) :
    enc_at src secret E S (R + 32) (encode_size_step v buf encInfo) := by
  obtain ⟨f, sec, stego, ext, cap, size⟩ := encInfo
  obtain ⟨h1, h2, h3, h4, h5⟩ := h
  simp only at h1 h2 h3 h4 h5
  obtain ⟨r1, r2⟩ := fread_short buf 32 1 src R (by omega)
  unfold enc_at encode_size_step
  simp only [h1, r2, fwrite, Nat.mul_one, encode_size_to_lsb_keeps_length, r1, hb,
    List.length_append, List.length_take, h2, h3, h4, h5, Nat.min_self, and_self]

/-- The loop of `encode_secret_file_data` with an 8-byte buffer writes 8 bytes
for each remaining byte of the secret file, however many bytes the carrier
still holds. -/
theorem encode_secret_file_data_loop_at (src : List Nat) :
    ∀ (fuel R : Nat) (ch buf : List Nat) (encInfo : EncodeInfo),
      buf.length = 8 →
      encInfo.fptr_src_image = ⟨src, min R src.length⟩ →
      encInfo.fptr_stego_image.length = R →
      encInfo.fptr_secret.pos ≤ encInfo.fptr_secret.data.length →
      encInfo.fptr_secret.data.length - encInfo.fptr_secret.pos < fuel →
      (encode_secret_file_data_loop fuel ch buf encInfo).fptr_src_image
        = ⟨src, min (R + 8 * (encInfo.fptr_secret.data.length - encInfo.fptr_secret.pos))
            src.length⟩ ∧
      (encode_secret_file_data_loop fuel ch buf encInfo).fptr_stego_image.length
        = R + 8 * (encInfo.fptr_secret.data.length - encInfo.fptr_secret.pos) := by
  intro fuel
  induction fuel with
  | zero => intro _ _ _ _ _ _ _ _ h; omega
  | succ fuel ih =>
    intro R ch buf encInfo hb hsrc hst hs hfuel
    obtain ⟨f, ⟨sdata, spos⟩, stego, extn, cap, size⟩ := encInfo
    simp only at hsrc hst hs hfuel ⊢
    subst hsrc
    unfold encode_secret_file_data_loop
    by_cases hlt : spos < sdata.length
    · simp only [fread_at ch 1 1 sdata spos (by omega), Nat.mul_one, Nat.div_self Nat.one_pos,
        Nat.one_ne_zero, if_false]
      obtain ⟨hb1, h1, h2, h3, _, _⟩ := encode_byte_step_short src R
        ((List.take 1 (List.drop spos sdata) ++ List.drop 1 ch).getD 0 0)
        (buf, ⟨⟨src, min R src.length⟩, ⟨sdata, spos + 1⟩, stego, extn, cap, size⟩) hb rfl hst
      obtain ⟨i1, i2⟩ := ih (R + 8) (List.take 1 (List.drop spos sdata) ++ List.drop 1 ch) _ _
        hb1 h1 h2 (by rw [h3]; simp only []; omega) (by rw [h3]; simp only []; omega)
      rw [h3] at i1 i2
      simp only [] at i1 i2
      rw [i1, i2]
      have e : R + 8 + 8 * (sdata.length - (spos + 1)) = R + 8 * (sdata.length - spos) := by
        omega
      rw [e]
      exact ⟨rfl, rfl⟩
    · have he : spos = sdata.length := by omega
      subst he
      simp [fread_eof, hst]

theorem copy_bmp_header_short (header src : List Nat) (pos : Nat) (dest : List Nat)
    (hh : header.length = 54) :
    (copy_bmp_header header ⟨src, pos⟩ dest).2.1 = ⟨src, min 54 src.length⟩ ∧
    (copy_bmp_header header ⟨src, pos⟩ dest).2.2.length = dest.length + 54 := by
  obtain ⟨r1, r2⟩ := fread_short header 1 54 src 0 (by omega)
  simp only [Nat.zero_min, Nat.zero_add, Nat.one_mul] at r1 r2
  unfold copy_bmp_header
  simp only [fseek_set, r2, fwrite, Nat.one_mul, List.length_append, List.length_take, r1, hh,
    Nat.min_self, and_self]

theorem copy_remaining_img_data_short (buf : List Nat) (f : FILE) (dest src : List Nat) (R : Nat)
    (hf : f = ⟨src, min R src.length⟩) (hd : dest.length = R) :
    (copy_remaining_img_data buf f dest).2.2.length = max R src.length := by
  subst hf
  rw [copy_remaining_img_data_eq _ _ _ _ (Nat.min_le_right _ _)]
  simp only [List.length_append, hd, List.length_drop]
  omega


/-- The steps of `do_encoding` behind the header, with buffers of their
declared sizes: the frame is written in full, followed by what the carrier
holds behind the bytes that the frame asked for. -/
theorem encode_frame_length (stack : EncodeLocals) (MAGIC_STRING src secret E : List Nat)
    (S : Nat) (encInfo : EncodeInfo)
    (h : enc_at src secret E S 54 encInfo)
    (hmb : stack.magic_buffer.length = 8) (hsb : stack.extn_size_buffer.length = 32)
    (heb : stack.extn_buffer.length = 8) (hfb : stack.file_size_buffer.length = 32)
    (hdb : stack.data_buffer.length = 8) :
    (copy_remaining_img_data stack.copy_buffer
      (encode_secret_file_data stack.ch stack.data_buffer
        (encode_secret_file_size stack.file_size_buffer
          (encode_secret_file_extn stack.extn_buffer
            (encode_secret_file_extn_size stack.extn_size_buffer
              (long_to_int (strlen
                (encode_magic_string stack.magic_buffer MAGIC_STRING encInfo).2.extn_secret_file))
              (encode_magic_string stack.magic_buffer MAGIC_STRING encInfo).2).2.extn_secret_file
            (encode_secret_file_extn_size stack.extn_size_buffer
              (long_to_int (strlen
                (encode_magic_string stack.magic_buffer MAGIC_STRING encInfo).2.extn_secret_file))
              (encode_magic_string stack.magic_buffer MAGIC_STRING encInfo).2).2).2.size_secret_file
          (encode_secret_file_extn stack.extn_buffer
            (encode_secret_file_extn_size stack.extn_size_buffer
              (long_to_int (strlen
                (encode_magic_string stack.magic_buffer MAGIC_STRING encInfo).2.extn_secret_file))
              (encode_magic_string stack.magic_buffer MAGIC_STRING encInfo).2).2.extn_secret_file
            (encode_secret_file_extn_size stack.extn_size_buffer
              (long_to_int (strlen
                (encode_magic_string stack.magic_buffer MAGIC_STRING encInfo).2.extn_secret_file))
              (encode_magic_string stack.magic_buffer MAGIC_STRING encInfo).2).2).2).2).2.fptr_src_image
      (encode_secret_file_data stack.ch stack.data_buffer
        (encode_secret_file_size stack.file_size_buffer
          (encode_secret_file_extn stack.extn_buffer
            (encode_secret_file_extn_size stack.extn_size_buffer
              (long_to_int (strlen
                (encode_magic_string stack.magic_buffer MAGIC_STRING encInfo).2.extn_secret_file))
              (encode_magic_string stack.magic_buffer MAGIC_STRING encInfo).2).2.extn_secret_file
            (encode_secret_file_extn_size stack.extn_size_buffer
              (long_to_int (strlen
                (encode_magic_string stack.magic_buffer MAGIC_STRING encInfo).2.extn_secret_file))
              (encode_magic_string stack.magic_buffer MAGIC_STRING encInfo).2).2).2.size_secret_file
          (encode_secret_file_extn stack.extn_buffer
            (encode_secret_file_extn_size stack.extn_size_buffer
              (long_to_int (strlen
                (encode_magic_string stack.magic_buffer MAGIC_STRING encInfo).2.extn_secret_file))
              (encode_magic_string stack.magic_buffer MAGIC_STRING encInfo).2).2.extn_secret_file
            (encode_secret_file_extn_size stack.extn_size_buffer
              (long_to_int (strlen
                (encode_magic_string stack.magic_buffer MAGIC_STRING encInfo).2.extn_secret_file))
              (encode_magic_string stack.magic_buffer MAGIC_STRING encInfo).2).2).2).2).2.fptr_stego_image).2.2.length
      = max (54 + 8 * (MAGIC_STRING.length + 4 + E.length + 4 + secret.length)) src.length := by
  have a1 := (encode_bytes_at src secret E S MAGIC_STRING 54 (stack.magic_buffer, encInfo) hmb h).2
  have a2 := encode_size_step_at src secret E S _
    (int_to_long (long_to_int (strlen
      (encode_magic_string stack.magic_buffer MAGIC_STRING encInfo).2.extn_secret_file)))
    stack.extn_size_buffer _ hsb a1
  have a3 := (encode_bytes_at src secret E S
    (encode_secret_file_extn_size stack.extn_size_buffer
      (long_to_int (strlen
        (encode_magic_string stack.magic_buffer MAGIC_STRING encInfo).2.extn_secret_file))
      (encode_magic_string stack.magic_buffer MAGIC_STRING encInfo).2).2.extn_secret_file
    _ (stack.extn_buffer, _) heb a2).2
  have e2 : (encode_secret_file_extn_size stack.extn_size_buffer
      (long_to_int (strlen
        (encode_magic_string stack.magic_buffer MAGIC_STRING encInfo).2.extn_secret_file))
      (encode_magic_string stack.magic_buffer MAGIC_STRING encInfo).2).2.extn_secret_file = E :=
    a2.2.2.2.1
  have a4 := encode_size_step_at src secret E S _
    (encode_secret_file_extn stack.extn_buffer
      (encode_secret_file_extn_size stack.extn_size_buffer
        (long_to_int (strlen
          (encode_magic_string stack.magic_buffer MAGIC_STRING encInfo).2.extn_secret_file))
        (encode_magic_string stack.magic_buffer MAGIC_STRING encInfo).2).2.extn_secret_file
      (encode_secret_file_extn_size stack.extn_size_buffer
        (long_to_int (strlen
          (encode_magic_string stack.magic_buffer MAGIC_STRING encInfo).2.extn_secret_file))
        (encode_magic_string stack.magic_buffer MAGIC_STRING encInfo).2).2).2.size_secret_file
    stack.file_size_buffer _ hfb a3
  obtain ⟨b1, b2, b3, _, _⟩ := a4
  obtain ⟨c1, c2⟩ := encode_secret_file_data_loop_at src _ _ stack.ch stack.data_buffer _ hdb b1 b2
    (by rw [b3]; exact Nat.zero_le _) (Nat.lt_succ_self _)
  have t := copy_remaining_img_data_short stack.copy_buffer _ _ src _ c1 c2
  refine t.trans ?_
  rw [b3, e2]
  simp only [Nat.sub_zero]
  congr 1
  omega

/-- The size of the destination written by `do_encoding` past the capacity
check, with locals of their declared sizes: the 54 header bytes and 8 bytes
for each byte of the frame are written even when the carrier holds fewer. -/
theorem do_encoding_length (stack : EncodeLocals) (MAGIC_STRING src_image secret : List Nat)
    (encInfo : EncodeInfo)
    (hcap : (check_capacity stack.width stack.height MAGIC_STRING
      (open_files src_image secret encInfo).2).1 = Status.e_success)
    (hh : stack.header.length = 54)
    (hmb : stack.magic_buffer.length = 8) (hsb : stack.extn_size_buffer.length = 32)
    (heb : stack.extn_buffer.length = 8) (hfb : stack.file_size_buffer.length = 32)
    (hdb : stack.data_buffer.length = 8) :
    (do_encoding stack MAGIC_STRING src_image secret encInfo).2.fptr_stego_image.length
      = max (54 + 8 * (MAGIC_STRING.length + 4 + encInfo.extn_secret_file.length + 4
          + secret.length)) src_image.length := by
  unfold do_encoding
  simp only [open_files] at hcap ⊢
  simp only [hcap, reduceCtorEq, if_false, check_capacity_info, copy_bmp_header_status,
    encode_magic_string_status, encode_secret_file_extn_size_status,
    encode_secret_file_extn_status, encode_secret_file_size_status,
    encode_secret_file_data_status, copy_remaining_img_data_status]
  obtain ⟨k1, k2⟩ := copy_bmp_header_short stack.header src_image 0 [] hh
  refine encode_frame_length stack MAGIC_STRING src_image secret encInfo.extn_secret_file
    (secret.length % 2 ^ 32) _ ?_ hmb hsb heb hfb hdb
  exact ⟨k1, by simpa using k2, rfl, rfl, rfl⟩

/-! ## Stream exhaustion -/

/-- C11, counterexample: the stego stream `stego_hi_cut` ends 8 bytes before
the end of its payload field, and `do_decoding` returns success with a second
payload byte decoded from the bytes left in the buffer; the source carrier
`carrier_short` ends inside the marker field, and `do_encoding` returns success. -/
theorem C11_counterexample :
    (stego_hi_cut.length < 54 + 8 * (2 + 4 + 4 + 4 + 2) ∧
      (do_decoding dec_locals_zero [35, 42] ⟨⟨stego_hi_cut, 0⟩, [], []⟩).1 = Status.e_success ∧
      (do_decoding dec_locals_zero [35, 42] ⟨⟨stego_hi_cut, 0⟩, [], []⟩).2.fptr_output
        = [104, 104]) ∧
    (carrier_short.length < 54 + 8 * 2 ∧
      (do_encoding enc_locals_zero [35, 42] carrier_short [104, 105] txt_info).1
        = Status.e_success) := by
  decide

/-- C11, amended: stream exhaustion is not reported. When the source carrier
ends before the frame is complete, `do_encoding`, past a `check_capacity` that
passes and with locals of their declared sizes, returns success and writes a
destination of the full size `54 + 8 * (len(MAGIC_STRING) + 4 + len(E) + 4 + len(P))`,
which is more than the source holds. When the stego carrier holds a valid marker and
an extension-length field whose `int` is in `0 .. MAX_SECRET_EXT - 1` but ends
before the frame that its two length fields announce is complete,
`do_decoding` returns success with every store inside `file_extn`; and when
the stream holds the payload-length field, as many bytes are written as that
field says, which is more than the stream holds groups of 8 bytes for. -/
theorem C11_exhaustion_not_reported (se : EncodeLocals) (sd : DecodeLocals)
    (MAGIC_STRING src_image secret : List Nat) (encInfo : EncodeInfo)
    (data : List Nat) (pos : Nat) (out : List Nat) (extn : List (Int × Nat))
    (hcap : (check_capacity se.width se.height MAGIC_STRING
      (open_files src_image secret encInfo).2).1 = Status.e_success)
    (hh : se.header.length = 54)
    (hmb : se.magic_buffer.length = 8) (hsb : se.extn_size_buffer.length = 32)
    (heb : se.extn_buffer.length = 8) (hfb : se.file_size_buffer.length = 32)
    (hdb : se.data_buffer.length = 8)
    (hsrc : src_image.length
      < 54 + 8 * (MAGIC_STRING.length + 4 + encInfo.extn_secret_file.length + 4 + secret.length))
    (hlen : 102 ≤ data.length)
    (hmark : c_str [decode_byte_from_lsb ((data.drop 54).take 8),
      decode_byte_from_lsb ((data.drop 62).take 8), 0] = MAGIC_STRING)
    (h0 : 0 ≤ int_val (long_to_int (decode_size_from_lsb ((data.drop 70).take 32))))
    (h9 : int_val (long_to_int (decode_size_from_lsb ((data.drop 70).take 32)))
      < MAX_SECRET_EXT)
    (hcut : data.length < payload_field_offset data + 32 + 8 * payload_length_field data) :
    ((do_encoding se MAGIC_STRING src_image secret encInfo).1 = Status.e_success ∧
      (do_encoding se MAGIC_STRING src_image secret encInfo).2.fptr_stego_image.length
        = 54 + 8 * (MAGIC_STRING.length + 4 + encInfo.extn_secret_file.length + 4
            + secret.length) ∧
      src_image.length
        < (do_encoding se MAGIC_STRING src_image secret encInfo).2.fptr_stego_image.length) ∧
    ((do_decoding sd MAGIC_STRING ⟨⟨data, pos⟩, out, extn⟩).1 = Status.e_success ∧
      (∀ w ∈ (do_decoding sd MAGIC_STRING ⟨⟨data, pos⟩, out, extn⟩).2.file_extn,
        w ∈ extn ∨ (0 ≤ w.1 ∧ w.1 < (MAX_SECRET_EXT : Int))) ∧
      (payload_field_offset data + 32 ≤ data.length →
        ((do_decoding sd MAGIC_STRING ⟨⟨data, pos⟩, out, extn⟩).2.fptr_output.drop
            out.length).length = payload_length_field data ∧
        data.length < payload_field_offset data + 32
          + 8 * ((do_decoding sd MAGIC_STRING ⟨⟨data, pos⟩, out, extn⟩).2.fptr_output.drop
              out.length).length)) := by
  have hl := do_encoding_length se MAGIC_STRING src_image secret encInfo hcap hh hmb hsb heb
    hfb hdb
  rw [Nat.max_eq_left (Nat.le_of_lt hsrc)] at hl
  refine ⟨⟨?_, hl, ?_⟩, ?_, ?_, ?_⟩
  · rw [do_encoding_status, hcap]
  · rw [hl]; exact hsrc
  · rw [do_decoding_status, decode_magic_string_eq _ _ _ (by simp only []; omega)]
    simp only [hmark, if_true]
  · exact do_decoding_in_slot sd MAGIC_STRING data pos out extn hlen h0 h9
  · intro hfield
    have hto := do_decoding_to_payload sd MAGIC_STRING data pos out extn hfield
    rw [if_pos hmark] at hto
    have hc : ((do_decoding sd MAGIC_STRING ⟨⟨data, pos⟩, out, extn⟩).2.fptr_output.drop
        out.length).length = payload_length_field data := by
      rw [hto, List.length_drop,
        (decode_secret_file_data_cut sd.data_buffer data (payload_field_offset data + 32) out
          _ (payload_length_field data) 0 (payload_length_field_lt data) (Nat.zero_le _)
          (by omega)).1]
      omega
    exact ⟨hc, by rw [hc]; exact hcut⟩

theorem C11_exhaustion_not_reported_witness :
    ((do_encoding enc_locals_zero [35, 42] carrier_short [104, 105] txt_info).1
        = Status.e_success ∧
      (do_encoding enc_locals_zero [35, 42] carrier_short [104, 105]
          txt_info).2.fptr_stego_image.length
        = 54 + 8 * ([35, 42].length + 4 + txt_info.extn_secret_file.length + 4
            + [104, 105].length) ∧
      carrier_short.length
        < (do_encoding enc_locals_zero [35, 42] carrier_short [104, 105]
            txt_info).2.fptr_stego_image.length) ∧
    ((do_decoding dec_locals_zero [35, 42] ⟨⟨stego_hi_cut, 0⟩, [], []⟩).1 = Status.e_success ∧
      (∀ w ∈ (do_decoding dec_locals_zero [35, 42] ⟨⟨stego_hi_cut, 0⟩, [], []⟩).2.file_extn,
        w ∈ ([] : List (Int × Nat)) ∨ (0 ≤ w.1 ∧ w.1 < (MAX_SECRET_EXT : Int))) ∧
      ((do_decoding dec_locals_zero [35, 42] ⟨⟨stego_hi_cut, 0⟩, [], []⟩).2.fptr_output.drop
          ([] : List Nat).length).length = payload_length_field stego_hi_cut ∧
      stego_hi_cut.length < payload_field_offset stego_hi_cut + 32
        + 8 * ((do_decoding dec_locals_zero [35, 42]
            ⟨⟨stego_hi_cut, 0⟩, [], []⟩).2.fptr_output.drop
              ([] : List Nat).length).length) :=
  have h := C11_exhaustion_not_reported enc_locals_zero dec_locals_zero [35, 42] carrier_short
    [104, 105] txt_info stego_hi_cut 0 [] [] (by decide) (by decide) (by decide) (by decide)
    (by decide) (by decide) (by decide) (by decide) (by decide) (by decide) (by decide)
    (by decide) (by decide)
  ⟨h.1, h.2.1, h.2.2.1, h.2.2.2 (by decide)⟩

/-! ## The extension slot of the decoder -/

/-- C20, at the failing inputs: the marker of `stego_ext10` is valid and its
extension-length field holds 10, and `do_decoding` stores the NUL at index 10
of `file_extn`; the marker of `stego_ext_neg` is valid and its extension-length
field holds `2 ^ 31`, and `do_decoding` stores the NUL at index `-2147483648`.
Neither index is within 0 to 9. -/
theorem C20_stores_outside_slot :
    ((do_decoding dec_locals_zero [35, 42] ⟨⟨stego_ext10, 0⟩, [], []⟩).1 = Status.e_success ∧
      decode_size_from_lsb ((stego_ext10.drop 70).take 32) = 10 ∧
      ((10 : Int), 0) ∈ (do_decoding dec_locals_zero [35, 42]
        ⟨⟨stego_ext10, 0⟩, [], []⟩).2.file_extn) ∧
    ((do_decoding dec_locals_zero [35, 42] ⟨⟨stego_ext_neg, 0⟩, [], []⟩).1 = Status.e_success ∧
      decode_size_from_lsb ((stego_ext_neg.drop 70).take 32) = 2 ^ 31 ∧
      (do_decoding dec_locals_zero [35, 42] ⟨⟨stego_ext_neg, 0⟩, [], []⟩).2.file_extn
        = [((-2147483648 : Int), 0)]) ∧
    ¬ (∀ w ∈ (do_decoding dec_locals_zero [35, 42] ⟨⟨stego_ext10, 0⟩, [], []⟩).2.file_extn,
        0 ≤ w.1 ∧ w.1 < (MAX_SECRET_EXT : Int)) := by
  decide

/-! ## Lengths outside 32 bits -/

theorem long_val_of_val (v : Int) (hlo : -2 ^ 63 ≤ v) (hhi : v < 2 ^ 63) :
    long_val (long_of_val v) = v := by
  unfold long_val long_of_val
  have h64 : (2 : Int) ^ 64 = 18446744073709551616 := by norm_num
  have h63 : (2 : Int) ^ 63 = 9223372036854775808 := by norm_num
  have n63 : (2 : Nat) ^ 63 = 9223372036854775808 := by norm_num
  rw [h64, n63]
  rw [h63] at hlo hhi
  split <;> omega

theorem long_of_val_mod (v : Int) :
    ((long_of_val v % 2 ^ 32 : Nat) : Int) = v % 2 ^ 32 := by
  unfold long_of_val
  have h64 : (2 : Int) ^ 64 = 18446744073709551616 := by norm_num
  have h32 : (2 : Int) ^ 32 = 4294967296 := by norm_num
  have n32 : (2 : Nat) ^ 32 = 4294967296 := by norm_num
  rw [h64, h32, n32]
  omega

/-- C21. Only the low 32 bits of a length are embedded: for every signed
64-bit value `v` (held by its two's-complement pattern) passed to
`encode_size_to_lsb` and every 32-byte buffer, `decode_size_from_lsb` of the
result is `v mod 2 ^ 32`, a value from 0 to `2 ^ 32 - 1`; a negative or
larger length is reduced, not rejected. -/
theorem C21_low_32_bits (v : Int) (buf : List Nat) (hlo : -2 ^ 63 ≤ v) (hhi : v < 2 ^ 63)
    (hlen : buf.length = 32) :
    long_val (long_of_val v) = v ∧
    long_val (decode_size_from_lsb (encode_size_to_lsb (long_of_val v) buf)) = v % 2 ^ 32 ∧
    decode_size_from_lsb (encode_size_to_lsb (long_of_val v) buf) < 2 ^ 32 := by
  have hr := size_roundtrip (long_of_val v) buf (by omega)
  have hlt : long_of_val v % 2 ^ 32 < 2 ^ 32 := Nat.mod_lt _ (by norm_num)
  refine ⟨long_val_of_val v hlo hhi, ?_, by rw [hr]; exact hlt⟩
  rw [hr, ← long_of_val_mod v]
  unfold long_val
  have e : (2 : Nat) ^ 32 < 2 ^ 63 := by norm_num
  rw [if_pos (by omega)]

theorem C21_low_32_bits_witness :
    long_val (long_of_val (-1)) = -1 ∧
    long_val (decode_size_from_lsb (encode_size_to_lsb (long_of_val (-1))
      (List.replicate 32 0x80))) = (-1) % 2 ^ 32 ∧
    decode_size_from_lsb (encode_size_to_lsb (long_of_val (-1)) (List.replicate 32 0x80))
      < 2 ^ 32 :=
  C21_low_32_bits (-1) (List.replicate 32 0x80) (by decide) (by decide) (by decide)

/-! ## The decoder reads least-significant bits only -/

end Stego
